import Mathlib

/-!
Personal Finance Tracker: analytics aggregation and caching.

A shallow embedding of the analytics code of the backend
(`controllers/analyticsController.js`, `routes/analytics.js`, `utils/cache.js`),
of the write handlers of `routes/transactions.js`, of the cache keys of
`controllers/transactionController.js` and of the delete handler of
`routes/categories.js`, together with the properties established about it.

Modelling conventions.

* A JavaScript `Date` is its time value: an integer number of milliseconds since
  the epoch.  The calendar functions are the abstract operations of ECMAScript
  (`Day`, `DayFromYear`, `YearFromTime`, `MonthFromTime`, `DateFromTime`,
  `WeekDay`, `MakeDay`, `MakeDate`, `LocalTime`, `UTC`) over unbounded integers:
  the proleptic Gregorian calendar.  The representable-range clip of time values
  and the legacy mapping of the years 0..99 by the `Date` constructor are outside
  the model.
* The server time zone is a fixed offset `tz`, in minutes east of UTC.
* Amounts are JavaScript numbers.  The grouping behind `getSimplifiedTrends` adds
  them in the handler, so it is written over an arbitrary arithmetic `Arith`
  (zero, addition, subtraction); `doubleArith` is the arithmetic of the doubles
  that are integers, each sum rounded to 53 significant bits, and `exactArith`
  the one without rounding.  Elsewhere the amounts are integers in the smallest
  currency unit and their sums are exact.
* A plain JavaScript object used as a dictionary is an insertion-ordered
  association list; none of the month and period keys built by the code is an
  array index, so `Object.keys` and `Object.entries` list them in insertion
  order, and none is the name of a property that objects inherit.  The keys of
  `GET /category` are names of categories, which may be array indices or names of
  inherited properties: there the order of `Object.keys` is modelled by
  `ownEntries`, and reads and writes by `plainGet` and `plainSet`.
* The tables are lists of rows and every query succeeds; ids are natural
  numbers, as `routes/transactions.js` writes them with `parseInt`.  A value
  handed to a query as an id is an `IdValue`: a number, or the text of a path
  parameter that the handler did not parse; a text equals no number.
* `async` functions run sequentially; effects on the Redis store and on the
  outside world are passed explicitly as states.
-/

namespace FinanceTracker

/-! ## ECMAScript time values -/

def msPerDay : Int := 86400000
def msPerHour : Int := 3600000
def msPerMinute : Int := 60000
def msPerSecond : Int := 1000

/-- Day number of a time value: `floor(t / msPerDay)`. -/
def Day (t : Int) : Int := t / msPerDay

/-- Milliseconds since the start of the day: `t modulo msPerDay`. -/
def TimeWithinDay (t : Int) : Int := t % msPerDay

/-- Number of days in year `y` of the proleptic Gregorian calendar. -/
def DaysInYear (y : Int) : Int :=
  if y % 4 ≠ 0 then 365
  else if y % 100 ≠ 0 then 366
  else if y % 400 ≠ 0 then 365
  else 366

/-- Day number of the first day of year `y`. -/
def DayFromYear (y : Int) : Int :=
  365 * (y - 1970) + (y - 1969) / 4 - (y - 1901) / 100 + (y - 1601) / 400

/-- The largest year `y` with `DayFromYear y ≤ d`, computed from an estimate that
is off by at most one. -/
def YearFromDay (d : Int) : Int :=
  let y0 := 1970 + (d * 400) / 146097
  if d < DayFromYear y0 then y0 - 1
  else if DayFromYear (y0 + 1) ≤ d then y0 + 1
  else y0

def YearFromTime (t : Int) : Int := YearFromDay (Day t)

/-- One in a leap year, zero otherwise. -/
def leapOfYear (y : Int) : Int := if DaysInYear y = 366 then 1 else 0

def InLeapYear (t : Int) : Int := leapOfYear (YearFromTime t)

def DayWithinYear (t : Int) : Int := Day t - DayFromYear (YearFromTime t)

/-- Month number (0 = January) of the day `d` within a year, `leap` being 1 in a
leap year: the table of `MonthFromTime`. -/
def monthOfDayInYear (d leap : Int) : Int :=
  if d < 31 then 0
  else if d < 59 + leap then 1
  else if d < 90 + leap then 2
  else if d < 120 + leap then 3
  else if d < 151 + leap then 4
  else if d < 181 + leap then 5
  else if d < 212 + leap then 6
  else if d < 243 + leap then 7
  else if d < 273 + leap then 8
  else if d < 304 + leap then 9
  else if d < 334 + leap then 10
  else 11

/-- Day within the year on which month `m` (0 = January) starts. -/
def monthStartInYear (m leap : Int) : Int :=
  if m = 0 then 0
  else if m = 1 then 31
  else if m = 2 then 59 + leap
  else if m = 3 then 90 + leap
  else if m = 4 then 120 + leap
  else if m = 5 then 151 + leap
  else if m = 6 then 181 + leap
  else if m = 7 then 212 + leap
  else if m = 8 then 243 + leap
  else if m = 9 then 273 + leap
  else if m = 10 then 304 + leap
  else 334 + leap

def MonthFromTime (t : Int) : Int := monthOfDayInYear (DayWithinYear t) (InLeapYear t)

/-- Day of the month, 1-based. -/
def DateFromTime (t : Int) : Int :=
  DayWithinYear t - monthStartInYear (MonthFromTime t) (InLeapYear t) + 1

/-- Day of the week, 0 = Sunday; the epoch was a Thursday. -/
def WeekDay (t : Int) : Int := (Day t + 4) % 7

def HourFromTime (t : Int) : Int := (t / msPerHour) % 24
def MinFromTime (t : Int) : Int := (t / msPerMinute) % 60
def SecFromTime (t : Int) : Int := (t / msPerSecond) % 60
def msFromTime (t : Int) : Int := t % msPerSecond

/-- Day number of the first day of month `k`, months being numbered
`12 * year + month` with January = 0. -/
def monthStartDay (k : Int) : Int :=
  DayFromYear (k / 12) + monthStartInYear (k % 12) (leapOfYear (k / 12))

/-- The operation `MakeDay(year, month, date)`: the month may lie outside 0..11 and
the date outside the month; both carry over. -/
def MakeDay (year month date : Int) : Int :=
  monthStartDay (12 * (year + month / 12) + month % 12) + date - 1

def MakeDate (day time : Int) : Int := day * msPerDay + time

/-- Offset of local time from UTC in milliseconds, for a zone `tz` minutes east. -/
def LocalTZA (tz : Int) : Int := tz * msPerMinute

def LocalTime (tz t : Int) : Int := t + LocalTZA tz

def UTC (tz t : Int) : Int := t - LocalTZA tz

/-! ## The `Date` methods the code calls -/

/-- The constructor `new Date(year, month, date)`: local midnight of that day. -/
def newDate (tz year month date : Int) : Int :=
  UTC tz (MakeDate (MakeDay year month date) 0)

def getFullYear (tz t : Int) : Int := YearFromTime (LocalTime tz t)
def getMonth (tz t : Int) : Int := MonthFromTime (LocalTime tz t)
def getDate (tz t : Int) : Int := DateFromTime (LocalTime tz t)
def getDay (tz t : Int) : Int := WeekDay (LocalTime tz t)

/-- The method `setDate(dt)`: same local year, month and time of day, day of the
month `dt` (carrying over when `dt` is outside the month). -/
def setDate (tz t dt : Int) : Int :=
  let lt := LocalTime tz t
  UTC tz (MakeDate (MakeDay (YearFromTime lt) (MonthFromTime lt) dt) (TimeWithinDay lt))

/-- Decimal numeral of `n`, padded with zeros on the left to `width` characters. -/
def padStart (width : Nat) (n : Int) : String :=
  let s := toString n.toNat
  String.mk (List.replicate (width - s.length) '0') ++ s

/-- The year of an ISO timestamp: four digits for 0..9999, otherwise a sign and six
digits. -/
def isoYear (y : Int) : String :=
  if 0 ≤ y ∧ y ≤ 9999 then padStart 4 y
  else if y < 0 then "-" ++ padStart 6 (-y)
  else "+" ++ padStart 6 y

/-- The method `toISOString()`: the UTC fields of the time value. -/
def toISOString (t : Int) : String :=
  isoYear (YearFromTime t) ++ "-" ++ padStart 2 (MonthFromTime t + 1) ++ "-" ++
    padStart 2 (DateFromTime t) ++ "T" ++ padStart 2 (HourFromTime t) ++ ":" ++
    padStart 2 (MinFromTime t) ++ ":" ++ padStart 2 (SecFromTime t) ++ "." ++
    padStart 3 (msFromTime t) ++ "Z"

/-- The call `s.slice(0, n)` on a string of one-unit characters. -/
def slice0 (s : String) (n : Nat) : String := String.mk (s.data.take n)

/-- Local calendar month of a time value, numbered `12 * year + month`. -/
def localMonthIndex (tz t : Int) : Int := 12 * getFullYear tz t + getMonth tz t

/-- Time value of local midnight on the first day of month `k` (numbered
`12 * year + month`). -/
def firstDayOfMonth (tz k : Int) : Int := UTC tz (MakeDate (monthStartDay k) 0)

/-- Month number `12 * year + month` of a day number. -/
def monthIndexOfDay (d : Int) : Int :=
  12 * YearFromDay d + monthOfDayInYear (d - DayFromYear (YearFromDay d))
    (leapOfYear (YearFromDay d))

/-! ## JavaScript objects used as dictionaries -/

/-- Insertion-ordered dictionary with string keys. -/
abbrev JsObject (α : Type) := List (String × α)

namespace JsObject

/-- Property read `o[k]`; `none` stands for `undefined`. -/
def get {α : Type} (o : JsObject α) (k : String) : Option α :=
  match o with
  | [] => none
  | (k1, v) :: rest => if k1 = k then some v else get rest k

/-- Property write `o[k] = v`: in place when the key exists, else appended. -/
def set {α : Type} (o : JsObject α) (k : String) (v : α) : JsObject α :=
  match o with
  | [] => [(k, v)]
  | (k1, v1) :: rest => if k1 = k then (k1, v) :: rest else (k1, v1) :: set rest k v

/-- In-place update `o[k].field = ...` of an existing property. -/
def modify {α : Type} (o : JsObject α) (k : String) (f : α → α) : JsObject α :=
  match o with
  | [] => []
  | (k1, v1) :: rest => if k1 = k then (k1, f v1) :: rest else (k1, v1) :: modify rest k f

/-- The keys in insertion order: `Object.keys(o)`. -/
def keys {α : Type} (o : JsObject α) : List String := o.map Prod.fst

end JsObject

/-! ## Data model -/

inductive TxType where
  | INCOME
  | EXPENSE
  deriving DecidableEq, Repr

/-- A row of the transaction table, with amounts of the type `α`. -/
structure TransactionOf (α : Type) where
  id : Nat
  amount : α
  type : TxType
  categoryId : Option Nat
  note : String
  date : Int
  userId : Nat
  deriving DecidableEq, Repr

/-- A row whose amount is an integer. -/
abbrev Transaction := TransactionOf Int

/-- Sum of a list of amounts. -/
def sumAmounts (l : List Transaction) : Int := (l.map (fun t => t.amount)).sum

/-- The query `prisma.transaction.aggregate` with `where: {userId, type, date: {gte,
lt}}` and `_sum: {amount: true}`; the field `_sum.amount` is `null` (here `none`)
when no row matches. -/
def aggregateSumBetween (db : List Transaction) (userId : Nat) (type : TxType)
    (gte lt : Int) : Option Int :=
  let rows := db.filter
    (fun t => decide (t.userId = userId ∧ t.type = type ∧ gte ≤ t.date ∧ t.date < lt))
  if rows.isEmpty then none else some (sumAmounts rows)

/-- The query `prisma.transaction.aggregate` with `where: {userId, type, date: {gte}}`
and `_sum: {amount: true}`. -/
def aggregateSumSince (db : List Transaction) (userId : Nat) (type : TxType)
    (gte : Int) : Option Int :=
  let rows := db.filter (fun t => decide (t.userId = userId ∧ t.type = type ∧ gte ≤ t.date))
  if rows.isEmpty then none else some (sumAmounts rows)

/-- The query `prisma.transaction.count` with `where: {userId, date: {gte}}`. -/
def countSince (db : List Transaction) (userId : Nat) (gte : Int) : Nat :=
  (db.filter (fun t => decide (t.userId = userId ∧ gte ≤ t.date))).length

/-- The expression `x || 0` on a sum that may be `null`: `null` gives 0, and a sum
that is 0 (falsy as well) gives 0 too. -/
def orZero (x : Option Int) : Int :=
  match x with
  | none => 0
  | some v => v

/-! ## `getDashboardStats`: the summary object -/

structure Summary where
  totalIncome : Int
  totalExpenses : Int
  netIncome : Int
  transactionCount : Nat
  deriving DecidableEq, Repr

/-- The `summary` field built by `getDashboardStats` from the two aggregate results
(their `_sum.amount`) and the count. -/
def dashboardSummary (totalIncome totalExpenses : Option Int) (transactionCount : Nat) :
    Summary :=
  { totalIncome := orZero totalIncome
    totalExpenses := orZero totalExpenses
    netIncome := orZero totalIncome - orZero totalExpenses
    transactionCount := transactionCount }

/-! ## `getMonthlyTrends` -/

structure MonthTrend where
  month : String
  income : Int
  expenses : Int
  net : Int
  deriving DecidableEq, Repr

/-- The body of the loop of `getMonthlyTrends` for the loop variable `i`. -/
def monthTrendAt (tz now : Int) (db : List Transaction) (userId : Nat) (i : Int) :
    MonthTrend :=
  let date := newDate tz (getFullYear tz now) (getMonth tz now - i) 1
  let nextMonth := newDate tz (getFullYear tz now) (getMonth tz now - i + 1) 1
  let income := aggregateSumBetween db userId TxType.INCOME date nextMonth
  let expenses := aggregateSumBetween db userId TxType.EXPENSE date nextMonth
  { month := slice0 (toISOString date) 7
    income := orZero income
    expenses := orZero expenses
    net := orZero income - orZero expenses }

/-- The function `getMonthlyTrends(userId)`, `now` being the value of `new Date()`:
the loop runs `i` from 5 down to 0 and pushes one entry each time. -/
def getMonthlyTrends (tz now : Int) (db : List Transaction) (userId : Nat) :
    List MonthTrend :=
  [5, 4, 3, 2, 1, 0].map (fun i => monthTrendAt tz now db userId i)

/-! ## `GET /monthly` -/

structure MonthAcc where
  income : Int
  expense : Int
  deriving DecidableEq, Repr

structure MonthlyResult where
  labels : List String
  incomes : List Int
  expenses : List Int
  deriving DecidableEq, Repr

/-- The template literal that builds a month key: year, a dash, month 1..12, no
padding. -/
def monthKey (tz d : Int) : String :=
  toString (getFullYear tz d) ++ "-" ++ toString (getMonth tz d + 1)

/-- The argument `yearAgo` of the query. -/
def yearAgo (tz now : Int) : Int := newDate tz (getFullYear tz now) (getMonth tz now - 11) 1

/-- The query `findMany` with `where: {userId, date: {gte}}`, ordered by date. -/
def findManySince (db : List Transaction) (userId : Nat) (gte : Int) : List Transaction :=
  (db.filter (fun t => decide (t.userId = userId ∧ gte ≤ t.date))).insertionSort
    (fun a b => a.date ≤ b.date)

/-- The first loop of the handler: the twelve keys set to zero before any
transaction is looked at. -/
def initMonths (tz now : Int) : JsObject MonthAcc :=
  (List.range 12).foldl
    (fun (months : JsObject MonthAcc) (i : Nat) =>
      let d := newDate tz (getFullYear tz now) (getMonth tz now - 11 + (i : Int)) 1
      months.set (monthKey tz d) { income := 0, expense := 0 })
    []

/-- The body of `txs.forEach` in the handler. -/
def monthlyStep (tz : Int) (months : JsObject MonthAcc) (t : Transaction) :
    JsObject MonthAcc :=
  let key := monthKey tz t.date
  let months1 :=
    if (months.get key).isNone then months.set key { income := 0, expense := 0 } else months
  if t.type = TxType.INCOME then
    months1.modify key (fun a => { a with income := a.income + t.amount })
  else
    months1.modify key (fun a => { a with expense := a.expense + t.amount })

/-- The conversion of the dictionary to arrays: `labels.map(l => months[l].income)`
and the same for `expense`.  Every label is a key of the dictionary, so every read
`months[l]` is defined; a read that were not would leave its element out here. -/
def monthlyArrays (months : JsObject MonthAcc) : MonthlyResult :=
  let labels := months.keys
  { labels := labels
    incomes := labels.filterMap (fun l => (months.get l).map (fun a => a.income))
    expenses := labels.filterMap (fun l => (months.get l).map (fun a => a.expense)) }

/-- The computation of `GET /monthly` on the fetched transactions `txs`. -/
def monthlyOverview (tz now : Int) (txs : List Transaction) : MonthlyResult :=
  monthlyArrays (txs.foldl (monthlyStep tz) (initMonths tz now))

/-- The fetcher of `GET /monthly`: query, then computation. -/
def monthlyData (tz now : Int) (db : List Transaction) (userId : Nat) : MonthlyResult :=
  monthlyOverview tz now (findManySince db userId (yearAgo tz now))

/-! ## `getSimplifiedTrends` -/

/-- The arithmetic of the numbers that the grouping adds up: the number `0`, the
operator `+` and the operator `-` of JavaScript, on the type `α` of the amounts.
Nothing is assumed of them: for the numbers of JavaScript, which are IEEE 754
doubles, `+` rounds and is not associative. -/
structure Arith (α : Type) where
  zero : α
  add : α → α → α
  sub : α → α → α

structure TrendAcc (α : Type) where
  income : α
  expenses : α
  net : α
  deriving DecidableEq, Repr

structure TrendEntry (α : Type) where
  period : String
  income : α
  expenses : α
  net : α
  deriving DecidableEq, Repr

/-- The `switch (period)` that computes the bucket key of a transaction date; any
period other than `daily` and `weekly` takes the `monthly` branch. -/
def bucketKey (tz : Int) (period : String) (date : Int) : String :=
  if period = "daily" then slice0 (toISOString date) 10
  else if period = "weekly" then
    let weekStart := setDate tz date (getDate tz date - getDay tz date)
    slice0 (toISOString weekStart) 10
  else slice0 (toISOString date) 7

/-- The body of `transactions.forEach` in `getSimplifiedTrends`. -/
def trendStep {α : Type} (ar : Arith α) (tz : Int) (period : String)
    (grouped : JsObject (TrendAcc α)) (t : TransactionOf α) : JsObject (TrendAcc α) :=
  let key := bucketKey tz period t.date
  let grouped1 :=
    if (grouped.get key).isNone then
      grouped.set key { income := ar.zero, expenses := ar.zero, net := ar.zero }
    else grouped
  let grouped2 :=
    if t.type = TxType.INCOME then
      grouped1.modify key (fun g => { g with income := ar.add g.income t.amount })
    else
      grouped1.modify key (fun g => { g with expenses := ar.add g.expenses t.amount })
  grouped2.modify key (fun g => { g with net := ar.sub g.income g.expenses })

/-- The grouping and the final `Object.entries(grouped).map` of
`getSimplifiedTrends`, on the fetched transactions. -/
def groupByPeriod {α : Type} (ar : Arith α) (tz : Int) (period : String)
    (transactions : List (TransactionOf α)) : List (TrendEntry α) :=
  (transactions.foldl (trendStep ar tz period) []).map
    (fun e => { period := e.1, income := e.2.income, expenses := e.2.expenses, net := e.2.net })

/-- The query of `getSimplifiedTrends`: the transactions of the user, of one category
when a category id is given, ordered by date. -/
def findManyForTrends {α : Type} (db : List (TransactionOf α)) (userId : Nat)
    (categoryId : Option Nat) : List (TransactionOf α) :=
  (db.filter (fun t => decide (t.userId = userId ∧
      (categoryId = none ∨ t.categoryId = categoryId)))).insertionSort
    (fun a b => a.date ≤ b.date)

/-- The function `getSimplifiedTrends(userId, categoryId, period)`. -/
def getSimplifiedTrends {α : Type} (ar : Arith α) (tz : Int) (db : List (TransactionOf α))
    (userId : Nat) (categoryId : Option Nat) (period : String) : List (TrendEntry α) :=
  groupByPeriod ar tz period (findManyForTrends db userId categoryId)

/-- The number of binary digits of `n`, counted by halving; `fuel` bounds the number
of halvings, and `n` itself is always enough. -/
def bitLength : Nat → Nat → Nat
  | 0, _ => 0
  | fuel + 1, n => if n = 0 then 0 else bitLength fuel (n / 2) + 1

/-- The double nearest to the integer `x`, for `x` below the largest double: an
integer of at most 53 significant bits is a double; a longer one is rounded to 53
significant bits, to the nearest and, halfway between two, to the one whose last
bit is 0. -/
def roundDouble (x : Int) : Int :=
  let n := x.natAbs
  if n < 2 ^ 53 then x
  else
    let k := bitLength n n - 53
    let q := n / 2 ^ k
    let r := n % 2 ^ k
    let half := 2 ^ (k - 1)
    let q1 := if r < half then q else if half < r then q + 1 else if q % 2 = 0 then q else q + 1
    if x < 0 then -((q1 * 2 ^ k : Nat) : Int) else ((q1 * 2 ^ k : Nat) : Int)

/-- The arithmetic of JavaScript on the doubles that are integers, each written as
the integer it is: the exact sum or difference, rounded to a double. -/
def doubleArith : Arith Int :=
  { zero := 0
    add := fun a b => roundDouble (a + b)
    sub := fun a b => roundDouble (a - b) }

/-- Exact arithmetic on the integers, for comparison. -/
def exactArith : Arith Int :=
  { zero := 0
    add := fun a b => a + b
    sub := fun a b => a - b }

/-! ## `utils/cache.js` -/

/-- The commands of the Redis client that `getOrSet` (`get`, `setex`) and `delKeys`
(`keys`, `del`) issue, over a store state `R`; each returns its reply or raises. -/
structure RedisClient (R : Type) where
  get : String → R → Except String (Option String) × R
  setex : String → Int → String → R → Except String Unit × R
  keys : String → R → Except String (List String) × R
  del : List String → R → Except String Nat × R

/-- The functions `JSON.stringify` and `JSON.parse` on the values of type `V`. -/
structure JsonCodec (V : Type) where
  stringify : V → Except String String
  parse : String → Except String V

/-- A fetcher: a computation over the outside world `W` that returns or raises. -/
abbrev Fetcher (W V : Type) := W → Except String V × W

/-- What a call leaves behind: its result, the store and the outside world. -/
structure Outcome (R W V : Type) where
  result : Except String V
  store : R
  world : W

/-- Runs the fetcher and returns what it returns: `return await fetcher()`. -/
def runFetcher {R W V : Type} (fetcher : Fetcher W V) (r : R) (w : W) : Outcome R W V :=
  { result := (fetcher w).1, store := r, world := (fetcher w).2 }

/-- The function `getOrSet(key, ttlSeconds, fetcher)`; `redisAvailable` and `redis` are
the two module variables (`redis` is `none` when the client could not be built). -/
def getOrSet {R W V : Type} (codec : JsonCodec V) (redisAvailable : Bool)
    (redis : Option (RedisClient R)) (key : String) (ttlSeconds : Int)
    (fetcher : Fetcher W V) (r : R) (w : W) : Outcome R W V :=
  match redisAvailable, redis with
  | true, some client =>
    match client.get key r with
    | (Except.error _, r1) => runFetcher fetcher r1 w
    | (Except.ok none, r1) =>
      match fetcher w with
      | (Except.error _, w1) => runFetcher fetcher r1 w1
      | (Except.ok data, w1) =>
        match codec.stringify data with
        | Except.error _ => runFetcher fetcher r1 w1
        | Except.ok text =>
          match client.setex key ttlSeconds text r1 with
          | (Except.error _, r2) => runFetcher fetcher r2 w1
          | (Except.ok _, r2) => { result := Except.ok data, store := r2, world := w1 }
    | (Except.ok (some cached), r1) =>
      if cached = "" then
        match fetcher w with
        | (Except.error _, w1) => runFetcher fetcher r1 w1
        | (Except.ok data, w1) =>
          match codec.stringify data with
          | Except.error _ => runFetcher fetcher r1 w1
          | Except.ok text =>
            match client.setex key ttlSeconds text r1 with
            | (Except.error _, r2) => runFetcher fetcher r2 w1
            | (Except.ok _, r2) => { result := Except.ok data, store := r2, world := w1 }
      else
        match codec.parse cached with
        | Except.error _ => runFetcher fetcher r1 w
        | Except.ok v => { result := Except.ok v, store := r1, world := w }
  | _, _ => runFetcher fetcher r w

/-- The backslash, the escape character of glob patterns and of JSON texts. -/
def backslash : Char := Char.ofNat 92

/-- The body of a class `[...]` of a glob pattern read against the character `c`:
whether an item matched so far, and the pattern left after the closing bracket.  An
item is an escaped character, a range `a-b` (in either order) or a character.  The
first argument bounds the number of steps. -/
def globClassAux : Nat → List Char → Char → Bool → Bool × List Char
  | 0, _, _, m => (m, [])
  | _ + 1, [], _, m => (m, [])
  | fuel + 1, x :: rest, c, m =>
    if x = ']' then (m, rest)
    else if x = backslash then
      match rest with
      | y :: rest2 => globClassAux fuel rest2 c (m || decide (y = c))
      | [] => (m || decide (x = c), [])
    else
      match rest with
      | '-' :: z :: rest2 =>
        globClassAux fuel rest2 c
          (m || decide ((min x z).toNat ≤ c.toNat ∧ c.toNat ≤ (max x z).toNat))
      | _ => globClassAux fuel rest c (m || decide (x = c))

/-- The class body `body` read against `c`, nothing matched yet. -/
def globClass (body : List Char) (c : Char) : Bool × List Char :=
  globClassAux (body.length + 1) body c false

/-- Glob matching as the command `KEYS` does it: `*` stands for any run of
characters, `?` for one character, `[...]` for one character of a class (`[^...]`
for one outside it), a backslash takes the next character literally.  The first
argument bounds the number of steps. -/
def globAux : Nat → List Char → List Char → Bool
  | 0, _, _ => false
  | _ + 1, [], s => s.isEmpty
  | fuel + 1, p0 :: p, s =>
    if p0 = '*' then
      globAux fuel p s ||
        (match s with
         | [] => false
         | _ :: s1 => globAux fuel (p0 :: p) s1)
    else
      match s with
      | [] => false
      | c :: s1 =>
        if p0 = '?' then globAux fuel p s1
        else if p0 = '[' then
          (match p with
           | '^' :: body => !(globClass body c).1 && globAux fuel (globClass body c).2 s1
           | body => (globClass body c).1 && globAux fuel (globClass body c).2 s1)
        else if p0 = backslash then
          (match p with
           | x :: p1 => decide (x = c) && globAux fuel p1 s1
           | [] => decide (p0 = c) && globAux fuel [] s1)
        else decide (p0 = c) && globAux fuel p s1

/-- Does the key match the glob pattern? -/
def globMatch (pattern key : String) : Bool :=
  globAux (pattern.length + key.length + 1) pattern.data key.data

/-- A Redis store that works: the entries with their expiry instants, and the
clock, in milliseconds. -/
structure RedisStore where
  clock : Int
  entries : List (String × String × Int)
  deriving DecidableEq, Repr

namespace RedisStore

/-- The live entry under `key`, if any. -/
def lookup (s : RedisStore) (key : String) : Option String :=
  (s.entries.find? (fun e => decide (e.1 = key ∧ s.clock < e.2.2))).map (fun e => e.2.1)

/-- The command `SETEX key ttl value`: refused for a time to live that is not
positive, else the entry replaces any older one and expires `ttl` seconds later. -/
def setex (key : String) (ttl : Int) (value : String) (s : RedisStore) :
    Except String Unit × RedisStore :=
  if ttl ≤ 0 then (Except.error "ERR invalid expire time in setex", s)
  else
    let others := s.entries.filter (fun e => decide (e.1 ≠ key))
    (Except.ok (), { s with entries := (key, value, s.clock + ttl * 1000) :: others })

/-- Time passes: the clock moves on by `dt` milliseconds. -/
def advance (dt : Int) (s : RedisStore) : RedisStore := { s with clock := s.clock + dt }

/-- The command `KEYS pattern`: the keys of the live entries that match the pattern. -/
def keys (pattern : String) (s : RedisStore) : List String :=
  ((s.entries.filter (fun e => decide (s.clock < e.2.2) && globMatch pattern e.1)).map
    (fun e => e.1)).dedup

/-- The command `DEL key ...`: the entries under the keys given are removed; the
reply is the number of keys that were held. -/
def del (ks : List String) (s : RedisStore) : Except String Nat × RedisStore :=
  (Except.ok ((ks.dedup.filter (fun k => (s.lookup k).isSome)).length),
    { s with entries := s.entries.filter (fun e => decide (e.1 ∉ ks)) })

end RedisStore

/-- The client of a working store. -/
def workingClient : RedisClient RedisStore :=
  { get := fun key s => (Except.ok (s.lookup key), s)
    setex := RedisStore.setex
    keys := fun pattern s => (Except.ok (s.keys pattern), s)
    del := RedisStore.del }

/-- The function `delKeys(pattern)`: nothing when Redis is flagged unavailable or
there is no client; else the keys that match are listed and, when there are any,
deleted; a failure of either command is logged and swallowed.  The result is the
store it leaves. -/
def delKeys {R : Type} (redisAvailable : Bool) (redis : Option (RedisClient R))
    (pattern : String) (r : R) : R :=
  match redisAvailable, redis with
  | true, some client =>
    match client.keys pattern r with
    | (Except.error _, r1) => r1
    | (Except.ok ks, r1) => if ks.length ≠ 0 then (client.del ks r1).2 else r1
  | _, _ => r


/-- The JSON functions on the natural numbers: a number is written in decimal, and
a text is read back when it is a nonempty run of digits. -/
def natCodec : JsonCodec Nat :=
  { stringify := fun n => Except.ok (toString n)
    parse := fun s =>
      if s.data ≠ [] ∧ s.data.all Char.isDigit then
        Except.ok (s.data.foldl (fun acc c => 10 * acc + (c.toNat - 48)) 0)
      else Except.error "SyntaxError" }

/-- A client whose every command raises. -/
def failingClient : RedisClient Unit :=
  { get := fun _ s => (Except.error "ECONNREFUSED", s)
    setex := fun _ _ _ s => (Except.error "ECONNREFUSED", s)
    keys := fun _ s => (Except.error "ECONNREFUSED", s)
    del := fun _ s => (Except.error "ECONNREFUSED", s) }

/-- A fetcher that returns `v` and counts its invocations in the outside world. -/
def countingFetcher (v : Nat) : Fetcher Nat Nat := fun calls => (Except.ok v, calls + 1)

/-! ## Reference definitions that the code is compared with -/

/-- Reference: the sum of the amounts of the transactions of `userId` of type `ty`
whose date lies in the local calendar month `k` (numbered `12 * year + month`). -/
def monthSum (tz : Int) (db : List Transaction) (userId : Nat) (ty : TxType) (k : Int) : Int :=
  sumAmounts (db.filter
    (fun t => decide (t.userId = userId ∧ t.type = ty ∧ localMonthIndex tz t.date = k)))

/-- Reference: the way month `k` (numbered `12 * year + month`) is written as a key:
the year, a dash, the month from 1 to 12, nothing padded. -/
def monthLabel (k : Int) : String := toString (k / 12) ++ "-" ++ toString (k % 12 + 1)

/-- Value of a list of decimal digits (used to read a month number back from its
key). -/
def digitsValue (l : List Char) : Int :=
  l.foldl (fun acc c => 10 * acc + ((c.toNat : Int) - 48)) 0

/-- Reference: the running sum `0 + a1 + a2 + ...`, added from the left with the `+`
of the arithmetic, of a list of amounts. -/
def runningSum {α : Type} (ar : Arith α) (amounts : List α) : α :=
  amounts.foldl ar.add ar.zero

/-- Reference: the running sum of the amounts of the INCOME transactions of the list
whose bucket key is `k`, in the order of the list. -/
def bucketIncome {α : Type} (ar : Arith α) (tz : Int) (period : String)
    (txs : List (TransactionOf α)) (k : String) : α :=
  runningSum ar ((txs.filter
    (fun t => decide (t.type = TxType.INCOME ∧ bucketKey tz period t.date = k))).map
      (fun t => t.amount))

/-- Reference: the running sum of the amounts of the other transactions of the list
whose bucket key is `k`, in the order of the list. -/
def bucketExpenses {α : Type} (ar : Arith α) (tz : Int) (period : String)
    (txs : List (TransactionOf α)) (k : String) : α :=
  runningSum ar ((txs.filter
    (fun t => decide (t.type ≠ TxType.INCOME ∧ bucketKey tz period t.date = k))).map
      (fun t => t.amount))

/-- What one transaction does to the totals of its bucket in `trendStep`. -/
def trendUpdate {α : Type} (ar : Arith α) (t : TransactionOf α) (g : TrendAcc α) :
    TrendAcc α :=
  if t.type = TxType.INCOME then
    { income := ar.add g.income t.amount, expenses := g.expenses,
      net := ar.sub (ar.add g.income t.amount) g.expenses }
  else
    { income := g.income, expenses := ar.add g.expenses t.amount,
      net := ar.sub g.income (ar.add g.expenses t.amount) }

/-- Sum of `income + expenses` over the entries of a dictionary of totals, in exact
arithmetic. -/
def trendTotal (o : JsObject (TrendAcc Int)) : Int :=
  (o.map (fun e => e.2.income + e.2.expenses)).sum

/-! ## Requests, responses and the middlewares -/

/-- The roles of the users. -/
inductive Role where
  | ADMIN
  | USER
  | READ_ONLY
  deriving DecidableEq, Repr

/-- The identity `req.user` that the middleware `auth` attaches to a request. -/
structure AuthUser where
  id : Nat
  role : Role
  deriving DecidableEq, Repr

/-- A response: the status and either the JSON value sent with `res.json` or the
text of an `{ error: ... }` body. -/
structure Response (α : Type) where
  status : Nat
  body : Except String α

/-- The middleware `permit(...allowed)`: the status it answers with, or `none` when
it calls `next()`. -/
def permit (allowed : List Role) (user : Option AuthUser) : Option Nat :=
  match user with
  | none => some 401
  | some u => if u.role ∈ allowed then none else some 403

/-! ## `routes/transactions.js` -/

/-- The body of a `POST /transactions` as the validators and the handler read it:
`amount` is `none` when it is not numeric, `type` is `none` when it is neither
INCOME nor EXPENSE, `categoryId` and `date` are `none` when they are missing. -/
structure TxInput where
  amount : Option Int
  type : Option TxType
  categoryId : Option Nat
  note : String
  date : Option Int
  deriving DecidableEq, Repr

/-- The fields of the body of a `PUT /transactions/:id` that are present (truthy);
only those are written. -/
structure TxPatch where
  amount : Option Int
  type : Option TxType
  categoryId : Option Nat
  note : Option String
  date : Option Int
  deriving DecidableEq, Repr

/-- What a write handler leaves behind: its response, the transaction table and the
cache store. -/
structure RouteResult (R α : Type) where
  response : Response α
  db : List Transaction
  store : R

/-- The query `prisma.transaction.findUnique({ where: { id } })`. -/
def findUnique (db : List Transaction) (id : Nat) : Option Transaction :=
  db.find? (fun t => decide (t.id = id))

/-- The id that the table gives to its next row. -/
def nextId (db : List Transaction) : Nat := (db.map (fun t => t.id)).foldl max 0 + 1

/-- The row that `prisma.transaction.update` writes over `t`. -/
def applyPatch (t : Transaction) (p : TxPatch) : Transaction :=
  { t with
    amount := p.amount.getD t.amount
    type := p.type.getD t.type
    categoryId := match p.categoryId with
      | some c => some c
      | none => t.categoryId
    note := p.note.getD t.note
    date := p.date.getD t.date }

/-- The two invalidations that every write handler ends with. -/
def invalidateUser {R : Type} (redisAvailable : Bool) (redis : Option (RedisClient R))
    (userId : Nat) (r : R) : R :=
  delKeys redisAvailable redis ("transactions:user:" ++ toString userId ++ ":*")
    (delKeys redisAvailable redis ("analytics:user:" ++ toString userId ++ ":*") r)

/-- The route `POST /transactions`: `auth`, `permit('ADMIN', 'USER')`, the two
validators, then the handler; `now` is the date the table gives a row without
one. -/
def postTransaction {R : Type} (redisAvailable : Bool) (redis : Option (RedisClient R))
    (now : Int) (user : Option AuthUser) (body : TxInput) (db : List Transaction) (r : R) :
    RouteResult R Transaction :=
  match user with
  | none => { response := { status := 401, body := Except.error "Missing Authorization header" },
              db := db, store := r }
  | some u =>
    match permit [Role.ADMIN, Role.USER] (some u) with
    | some status => { response := { status := status, body := Except.error "Forbidden" },
                       db := db, store := r }
    | none =>
      match body.amount, body.type with
      | some amount, some type =>
        let tx : Transaction :=
          { id := nextId db, amount := amount, type := type, categoryId := body.categoryId,
            note := body.note, date := body.date.getD now, userId := u.id }
        { response := { status := 200, body := Except.ok tx },
          db := db ++ [tx],
          store := invalidateUser redisAvailable redis u.id r }
      | _, _ => { response := { status := 400, body := Except.error "errors" },
                  db := db, store := r }

/-- The route `PUT /transactions/:id`. -/
def putTransaction {R : Type} (redisAvailable : Bool) (redis : Option (RedisClient R))
    (user : Option AuthUser) (id : Nat) (patch : TxPatch) (db : List Transaction) (r : R) :
    RouteResult R Transaction :=
  match user with
  | none => { response := { status := 401, body := Except.error "Missing Authorization header" },
              db := db, store := r }
  | some u =>
    match permit [Role.ADMIN, Role.USER] (some u) with
    | some status => { response := { status := status, body := Except.error "Forbidden" },
                       db := db, store := r }
    | none =>
      match findUnique db id with
      | none => { response := { status := 404, body := Except.error "Not found" },
                  db := db, store := r }
      | some existing =>
        if u.role ≠ Role.ADMIN ∧ existing.userId ≠ u.id then
          { response := { status := 403, body := Except.error "Forbidden" }, db := db, store := r }
        else
          { response := { status := 200, body := Except.ok (applyPatch existing patch) },
            db := db.map (fun t => if t.id = id then applyPatch t patch else t),
            store := invalidateUser redisAvailable redis existing.userId r }

/-- The route `DELETE /transactions/:id`. -/
def deleteTransaction {R : Type} (redisAvailable : Bool) (redis : Option (RedisClient R))
    (user : Option AuthUser) (id : Nat) (db : List Transaction) (r : R) :
    RouteResult R Unit :=
  match user with
  | none => { response := { status := 401, body := Except.error "Missing Authorization header" },
              db := db, store := r }
  | some u =>
    match permit [Role.ADMIN, Role.USER] (some u) with
    | some status => { response := { status := status, body := Except.error "Forbidden" },
                       db := db, store := r }
    | none =>
      match findUnique db id with
      | none => { response := { status := 404, body := Except.error "Not found" },
                  db := db, store := r }
      | some existing =>
        if u.role ≠ Role.ADMIN ∧ existing.userId ≠ u.id then
          { response := { status := 403, body := Except.error "Forbidden" }, db := db, store := r }
        else
          { response := { status := 200, body := Except.ok () },
            db := db.filter (fun t => decide (t.id ≠ id)),
            store := invalidateUser redisAvailable redis existing.userId r }

/-- A character that stands for itself in a glob pattern. -/
def plainChar (c : Char) : Prop := c ≠ '*' ∧ c ≠ '?' ∧ c ≠ '[' ∧ c ≠ backslash

/-- Reference: the store holds no entry, now or later, under a key that starts with
`analytics:user:<u>:` or with `transactions:user:<u>:`. -/
def userEntriesGone (s : RedisStore) (u : Nat) : Prop :=
  ∀ (rest : String) (dt : Int), 0 ≤ dt →
    (s.advance dt).lookup ("analytics:user:" ++ toString u ++ ":" ++ rest) = none ∧
    (s.advance dt).lookup ("transactions:user:" ++ toString u ++ ":" ++ rest) = none

/-! ## The cache keys of the handlers -/

/-- The text that `JSON.stringify` writes for one character of a string: the quote
and the backslash are escaped, the control characters are written `\b`, `\f`, `\n`,
`\r`, `\t` or `\u00XX`, any other character stands for itself. -/
def jsonEscape (c : Char) : List Char :=
  if c = '"' then [backslash, '"']
  else if c = backslash then [backslash, backslash]
  else if c.toNat = 8 then [backslash, 'b']
  else if c.toNat = 12 then [backslash, 'f']
  else if c.toNat = 10 then [backslash, 'n']
  else if c.toNat = 13 then [backslash, 'r']
  else if c.toNat = 9 then [backslash, 't']
  else if c.toNat < 32 then
    [backslash, 'u', '0', '0', Nat.digitChar (c.toNat / 16), Nat.digitChar (c.toNat % 16)]
  else [c]

def jsonEscapeAll : List Char → List Char
  | [] => []
  | c :: cs => jsonEscape c ++ jsonEscapeAll cs

/-- The text of `JSON.stringify(s)` for a string `s`. -/
def jsonQuote (s : List Char) : List Char := '"' :: (jsonEscapeAll s ++ ['"'])

/-- The properties of an object after the first ones, as `JSON.stringify` writes
them, and the closing brace: a property that is `undefined` is left out. -/
def jsonFields : List (String × Option String) → List Char
  | [] => ['}']
  | (_, none) :: rest => jsonFields rest
  | (name, some v) :: rest =>
    ',' :: (jsonQuote name.data ++ (':' :: (jsonQuote v.data ++ jsonFields rest)))

/-- The query of a listing, `req.query`: each parameter is a string or missing. -/
structure ListQuery where
  page : Option String
  limit : Option String
  type : Option String
  categoryId : Option String
  startDate : Option String
  endDate : Option String
  search : Option String
  deriving DecidableEq, Repr

/-- The text of `JSON.stringify({ page, limit, type, categoryId, startDate, endDate,
search })` after the destructuring with the defaults `page = 1` and `limit = 10`,
which are numbers. -/
def listParamsJson (q : ListQuery) : List Char :=
  "\x7b\"page\":".data ++
    ((match q.page with
      | none => ['1']
      | some s => jsonQuote s.data) ++
    (",\"limit\":".data ++
      ((match q.limit with
        | none => ['1', '0']
        | some s => jsonQuote s.data) ++
      jsonFields [("type", q.type), ("categoryId", q.categoryId), ("startDate", q.startDate),
        ("endDate", q.endDate), ("search", q.search)])))

/-- The key of `getTransactions`. -/
def listingKey (userId : Nat) (q : ListQuery) : String :=
  "transactions:" ++ toString userId ++ ":" ++ String.mk (listParamsJson q)

/-- The key of `getDashboardStats`; `period` is the parameter of the query, `30` when
it is missing. -/
def dashboardKey (userId : Nat) (period : String) : String :=
  "dashboard:" ++ toString userId ++ ":" ++ period

/-- The key of `GET /monthly`. -/
def monthlyKey (userId : Nat) : String := "analytics:user:" ++ toString userId ++ ":monthly"

/-- The key of `GET /category`. -/
def categoryKey (userId : Nat) : String := "analytics:user:" ++ toString userId ++ ":category"

/-- Value of a hexadecimal digit, `0` to `9` or `a` to `f`. -/
def hexValue (c : Char) : Nat := if c.isDigit then c.toNat - 48 else c.toNat - 87

/-- Reads one character of a JSON string back from its escaped text, with the text
that follows it (used to show that the escaped text determines the string). -/
def jsonUnescape : List Char → Option (Char × List Char)
  | [] => none
  | c :: rest =>
    if c = backslash then
      match rest with
      | [] => none
      | d :: rest2 =>
        if d = '"' then some ('"', rest2)
        else if d = backslash then some (backslash, rest2)
        else if d = 'b' then some (Char.ofNat 8, rest2)
        else if d = 'f' then some (Char.ofNat 12, rest2)
        else if d = 'n' then some (Char.ofNat 10, rest2)
        else if d = 'r' then some (Char.ofNat 13, rest2)
        else if d = 't' then some (Char.ofNat 9, rest2)
        else
          match rest2 with
          | _ :: _ :: h1 :: h2 :: rest3 =>
            some (Char.ofNat (16 * hexValue h1 + hexValue h2), rest3)
          | _ => none
    else some (c, rest)

/-- The requests whose result is cached, with what they depend on: the user and the
parameters of the query. -/
inductive CacheRequest where
  | dashboard (userId : Nat) (period : String)
  | monthly (userId : Nat)
  | category (userId : Nat)
  | listing (userId : Nat) (query : ListQuery)
  deriving DecidableEq, Repr

/-- The cache key that the handler of a request builds. -/
def cacheKeyOf : CacheRequest → String
  | CacheRequest.dashboard userId period => dashboardKey userId period
  | CacheRequest.monthly userId => monthlyKey userId
  | CacheRequest.category userId => categoryKey userId
  | CacheRequest.listing userId query => listingKey userId query

/-! ## Categories -/

/-- A row of the category table. -/
structure Category where
  id : Nat
  name : String
  color : Option String
  amount : Int
  deriving DecidableEq, Repr

/-- The fields of a category that the analytics select. -/
structure CategoryInfo where
  id : Nat
  name : String
  color : Option String
  deriving DecidableEq, Repr

/-- The query `prisma.category.findUnique({ where: { id } })`. -/
def findCategory (categories : List Category) (id : Nat) : Option Category :=
  categories.find? (fun c => decide (c.id = id))

/-- The entry `categoryMap[categoryId]` of the analytics: the selected fields of the
category with that id, `undefined` for no id or an unknown one. -/
def categoryInfo (categories : List Category) (categoryId : Option Nat) : Option CategoryInfo :=
  (categoryId.bind (findCategory categories)).map
    (fun c => { id := c.id, name := c.name, color := c.color })

/-! ## `getDashboardStats`: the handler -/

/-- One group of `prisma.transaction.groupBy({ by: ['categoryId', 'type'] })` with
its sum and count, and the category added to it. -/
structure CategoryStat where
  categoryId : Option Nat
  type : TxType
  sumAmount : Int
  count : Nat
  category : Option CategoryInfo
  deriving DecidableEq, Repr

/-- The object `stats` of `getDashboardStats`. -/
structure DashboardStats where
  summary : Summary
  categoryBreakdown : List CategoryStat
  recentTransactions : List (Transaction × Option CategoryInfo)
  monthlyTrends : List MonthTrend
  period : Int
  deriving DecidableEq, Repr

/-- The properties `get`, `set` and `del` of the object that a controller obtains
with `require('../utils/cache')`, over a store state `R` and cached values `V`;
`none` stands for a property that the module does not export (`undefined`). -/
structure CacheExports (R V : Type) where
  get : Option (String → R → Except String (Option V) × R)
  set : Option (String → V → Int → R → Except String Unit × R)
  del : Option (String → R → Except String Unit × R)

/-- The module `utils/cache.js` as it is: `module.exports = { redis, getOrSet,
delKeys }`, so `get`, `set` and `del` are not exported. -/
def cacheExports (R V : Type) : CacheExports R V := { get := none, set := none, del := none }

/-- The groups of `groupBy({ by: ['categoryId', 'type'] })` over the rows, with the
category of each. -/
def categoryBreakdown (categories : List Category) (rows : List Transaction) :
    List CategoryStat :=
  ((rows.map (fun t => (t.categoryId, t.type))).dedup).map (fun k =>
    { categoryId := k.1
      type := k.2
      sumAmount := sumAmounts (rows.filter (fun t => decide ((t.categoryId, t.type) = k)))
      count := (rows.filter (fun t => decide ((t.categoryId, t.type) = k))).length
      category := categoryInfo categories k.1 })

/-- The five most recent transactions of the user with their category. -/
def recentTransactions (categories : List Category) (transactions : List Transaction)
    (userId : Nat) : List (Transaction × Option CategoryInfo) :=
  (((transactions.filter (fun t => decide (t.userId = userId))).insertionSort
    (fun a b => b.date ≤ a.date)).take 5).map (fun t => (t, categoryInfo categories t.categoryId))

/-- The handler `getDashboardStats` written against the properties of the cache
module that it calls; `parseInt` is the JavaScript function (`none` for `NaN`),
`period` the parameter of the query.  Calling a property that is `undefined` raises
a `TypeError`; every failure inside the `try` is answered 500. -/
def getDashboardStats {R : Type} (cache : CacheExports R DashboardStats)
    (parseInt : String → Option Int) (tz now : Int) (transactions : List Transaction)
    (categories : List Category) (userId : Nat) (period : Option String) (r : R) :
    Response DashboardStats × R :=
  let periodText := period.getD "30"
  let cacheKey := dashboardKey userId periodText
  match cache.get with
  | none => ({ status := 500, body := Except.error "Internal server error" }, r)
  | some get =>
    match get cacheKey r with
    | (Except.error _, r1) => ({ status := 500, body := Except.error "Internal server error" }, r1)
    | (Except.ok (some cached), r1) => ({ status := 200, body := Except.ok cached }, r1)
    | (Except.ok none, r1) =>
      match parseInt periodText with
      | none => ({ status := 500, body := Except.error "Internal server error" }, r1)
      | some days =>
        let startDate := setDate tz now (getDate tz now - days)
        let stats : DashboardStats :=
          { summary := dashboardSummary
              (aggregateSumSince transactions userId TxType.INCOME startDate)
              (aggregateSumSince transactions userId TxType.EXPENSE startDate)
              (countSince transactions userId startDate)
            categoryBreakdown := categoryBreakdown categories
              (transactions.filter (fun t => decide (t.userId = userId ∧ startDate ≤ t.date)))
            recentTransactions := recentTransactions categories transactions userId
            monthlyTrends := getMonthlyTrends tz now transactions userId
            period := days }
        match cache.set with
        | none => ({ status := 500, body := Except.error "Internal server error" }, r1)
        | some set =>
          match set cacheKey stats 600 r1 with
          | (Except.error _, r2) =>
            ({ status := 500, body := Except.error "Internal server error" }, r2)
          | (Except.ok _, r2) => ({ status := 200, body := Except.ok stats }, r2)

/-! ## `getCategoryAnalytics` -/

/-- The filters of the query, each supplied (a date as its time value) or not; a
parameter that is missing and one that is the empty text are alike to the guards of
the handler and both count as not supplied. -/
structure AnalyticsQuery where
  startDate : Option Int
  endDate : Option Int
  type : Option TxType
  deriving DecidableEq, Repr

/-- The object `where` of `getCategoryAnalytics` as a test on a row: the user, the
type when one is supplied, and the range of dates when both ends are supplied. -/
def analyticsWhere (userId : Nat) (q : AnalyticsQuery) (t : Transaction) : Bool :=
  decide (t.userId = userId) &&
    (match q.type with
     | some ty => decide (t.type = ty)
     | none => true) &&
    (match q.startDate, q.endDate with
     | some s, some e => decide (s ≤ t.date) && decide (t.date ≤ e)
     | _, _ => true)

/-- One element of `categoryAnalytics`. -/
structure CategoryAnalytics where
  category : Option CategoryInfo
  totalAmount : Int
  transactionCount : Nat
  averageAmount : Rat

/-- The statistics of the rows `rows` for the category id `c`: one group of
`groupBy({ by: ['categoryId'] })` with `_sum`, `_count` and `_avg`. -/
def categoryGroup (categories : List Category) (rows : List Transaction) (c : Option Nat) :
    CategoryAnalytics :=
  { category := categoryInfo categories c
    totalAmount := sumAmounts (rows.filter (fun t => decide (t.categoryId = c)))
    transactionCount := (rows.filter (fun t => decide (t.categoryId = c))).length
    averageAmount := (sumAmounts (rows.filter (fun t => decide (t.categoryId = c))) : Rat) /
      ((rows.filter (fun t => decide (t.categoryId = c))).length : Rat) }

/-- The handler `getCategoryAnalytics`: the rows selected by `where`, grouped by
category id. -/
def getCategoryAnalytics (transactions : List Transaction) (categories : List Category)
    (userId : Nat) (q : AnalyticsQuery) : Response (List CategoryAnalytics) :=
  let rows := transactions.filter (analyticsWhere userId q)
  { status := 200
    body := Except.ok
      (((rows.map (fun t => t.categoryId)).dedup).map (categoryGroup categories rows)) }

/-! ## `DELETE /categories/:id` -/

/-- A value that a query compares with an id column: a number, or a text. -/
inductive IdValue where
  | number (n : Nat)
  | text (s : String)
  deriving DecidableEq, Repr

/-- The query `prisma.category.findUnique({ where: { id } })` for the value given as
`id`.  The ids of the table are numbers and values are compared as they are: a text
is equal to no number. -/
def findCategoryBy (categories : List Category) (id : IdValue) : Option Category :=
  categories.find? (fun c => decide (IdValue.number c.id = id))

/-- The query `prisma.transaction.count({ where: { categoryId: id } })` for the value
given as `id`. -/
def countByCategory (transactions : List Transaction) (id : IdValue) : Nat :=
  (transactions.filter
    (fun t => decide (t.categoryId.map IdValue.number = some id))).length

/-- What the handler leaves behind: its response and the two tables. -/
structure CategoryResult where
  response : Response String
  categories : List Category
  transactions : List Transaction

/-- The handler of `DELETE /categories/:id` for the value that it passes to the
three queries as `id`. -/
def deleteCategory (categories : List Category) (transactions : List Transaction)
    (id : IdValue) : CategoryResult :=
  match findCategoryBy categories id with
  | none => { response := { status := 404, body := Except.error "Category not found" },
              categories := categories, transactions := transactions }
  | some _ =>
    let transactionCount := countByCategory transactions id
    if transactionCount > 0 then
      { response :=
          { status := 400
            body := Except.error ("Cannot delete category. It is being used by " ++
              toString transactionCount ++ " transaction(s).") }
        categories := categories, transactions := transactions }
    else
      { response := { status := 200, body := Except.ok "Category deleted successfully" }
        categories := categories.filter (fun c => decide (IdValue.number c.id ≠ id))
        transactions := transactions }

/-- The route `DELETE /categories/:id`: `auth`, `permit('ADMIN')`, then the handler,
which takes `id` from `req.params`, where it is the text of the path segment, and
passes it on unconverted. -/
def deleteCategoryRoute (user : Option AuthUser) (categories : List Category)
    (transactions : List Transaction) (param : String) : CategoryResult :=
  match user with
  | none => { response := { status := 401, body := Except.error "Missing Authorization header" },
              categories := categories, transactions := transactions }
  | some u =>
    match permit [Role.ADMIN] (some u) with
    | some status => { response := { status := status, body := Except.error "Forbidden" },
                       categories := categories, transactions := transactions }
    | none => deleteCategory categories transactions (IdValue.text param)

/-! ## `GET /category` -/

/-- The number that a property key stands for when it is an array index (the decimal
numeral of a number below 2^32 - 1, written without sign or padding). -/
def arrayIndex (key : String) : Option Nat :=
  if key.data ≠ [] ∧ key.data.all Char.isDigit then
    if toString (digitsValue key.data).toNat = key ∧ (digitsValue key.data).toNat < 4294967295 then
      some (digitsValue key.data).toNat
    else none
  else none

/-- The own properties of an object in the order of `Object.keys` and
`Object.values`: the array indices in ascending order, then the other keys in the
order in which they were created. -/
def ownEntries {α : Type} (o : JsObject α) : List (String × α) :=
  (o.filter (fun e => (arrayIndex e.1).isSome)).insertionSort
      (fun a b => (arrayIndex a.1).getD 0 ≤ (arrayIndex b.1).getD 0) ++
    o.filter (fun e => !(arrayIndex e.1).isSome)

/-- The name under which `GET /category` counts a transaction: the name of its
category, or `Uncategorized` when it has no category or the name is empty. -/
def categoryLabel (categories : List Category) (t : Transaction) : String :=
  match t.categoryId.bind (findCategory categories) with
  | some c => if c.name ≠ "" then c.name else "Uncategorized"
  | none => "Uncategorized"

/-- A value held in the object `map` of `GET /category`: a number, or a string
(which `+` produces when one operand is not a number). -/
inductive JsValue where
  | number (n : Int)
  | text (s : String)
  deriving DecidableEq, Repr

/-- What the read `map[name]` gives on an object created by an empty object literal:
the value of an own property, a method inherited from `Object.prototype` (with the name it was read
under), the prototype itself for `__proto__`, or `undefined`. -/
inductive JsRead where
  | undefined
  | value (v : JsValue)
  | method (name : String)
  | proto
  deriving DecidableEq, Repr

/-- The names of the methods that every plain object inherits from
`Object.prototype`. -/
def inheritedMethods : List String :=
  ["constructor", "__defineGetter__", "__defineSetter__", "hasOwnProperty",
   "__lookupGetter__", "__lookupSetter__", "isPrototypeOf", "propertyIsEnumerable",
   "toString", "valueOf", "toLocaleString"]

/-- The read `map[name]` on a plain object: own properties first, then the
prototype. -/
def plainGet (o : JsObject JsValue) (name : String) : JsRead :=
  match o.get name with
  | some v => JsRead.value v
  | none =>
    if name = "__proto__" then JsRead.proto
    else if name ∈ inheritedMethods then JsRead.method name
    else JsRead.undefined

/-- The write `map[name] = v` of a number or a string on a plain object: for
`__proto__` the inherited setter ignores a value that is not an object; any other
name becomes, or stays, an own property. -/
def plainSet (o : JsObject JsValue) (name : String) (v : JsValue) : JsObject JsValue :=
  if name = "__proto__" then o else o.set name v

/-- The expression `(map[name] || 0) + a` for a number `a`, given what `map[name]`
reads: numbers are added; a method or the prototype is truthy and `+` concatenates
its text with the numeral of `a`.  `sourceText` gives the text of the inherited
method read under a name, which the engine determines. -/
def addAmount (sourceText : String → String) (read : JsRead) (a : Int) : JsValue :=
  match read with
  | JsRead.undefined => JsValue.number a
  | JsRead.value (JsValue.number n) => JsValue.number (n + a)
  | JsRead.value (JsValue.text s) =>
    if s = "" then JsValue.number a else JsValue.text (s ++ toString a)
  | JsRead.method name => JsValue.text (sourceText name ++ toString a)
  | JsRead.proto => JsValue.text ("[object Object]" ++ toString a)

/-- The body of `txs.forEach` in `GET /category`. -/
def categoryStep (sourceText : String → String) (categories : List Category)
    (map : JsObject JsValue) (t : Transaction) : JsObject JsValue :=
  let name := categoryLabel categories t
  plainSet map name
    (addAmount sourceText (plainGet map name)
      (if t.type = TxType.EXPENSE then t.amount else 0))

structure CategoryResultArrays where
  labels : List String
  values : List JsValue
  deriving DecidableEq, Repr

/-- The fetcher of `GET /category` on the transactions fetched for the user. -/
def categoryData (sourceText : String → String) (categories : List Category)
    (txs : List Transaction) : CategoryResultArrays :=
  let map := txs.foldl (categoryStep sourceText categories) []
  { labels := (ownEntries map).map Prod.fst
    values := (ownEntries map).map Prod.snd }

/-- Reference: the sum of the amounts of the EXPENSE transactions of the list that
`GET /category` counts under `label`. -/
def labelExpenses (categories : List Category) (txs : List Transaction) (label : String) : Int :=
  sumAmounts (txs.filter
    (fun t => decide (t.type = TxType.EXPENSE ∧ categoryLabel categories t = label)))

/-- Reference: the rows that a query of the category analytics counts: those of the
user, of the supplied type when one is supplied, and dated within the two ends (both
included) when both ends are supplied. -/
def selectedBy (userId : Nat) (q : AnalyticsQuery) (t : Transaction) : Prop :=
  t.userId = userId ∧ (∀ ty, q.type = some ty → t.type = ty) ∧
    (∀ s e, q.startDate = some s → q.endDate = some e → s ≤ t.date ∧ t.date ≤ e)

/-! ## Counting the runs of a fetcher -/

/-- The fetcher with a count of its runs: it does what `fetcher` does, on an outside
world that carries the number of runs so far. -/
def counted {W V : Type} (fetcher : Fetcher W V) : Fetcher (W × Nat) V :=
  fun p => ((fetcher p.1).1, ((fetcher p.1).2, p.2 + 1))

/-- The number of times that one call of `getOrSet` runs its fetcher. -/
def invocations {R W V : Type} (codec : JsonCodec V) (redisAvailable : Bool)
    (redis : Option (RedisClient R)) (key : String) (ttlSeconds : Int)
    (fetcher : Fetcher W V) (r : R) (w : W) : Nat :=
  (getOrSet codec redisAvailable redis key ttlSeconds (counted fetcher) r (w, 0)).world.2

/-- A fetcher that raises (its query fails), counting its runs in the outside
world. -/
def raisingFetcher : Fetcher Nat Nat :=
  fun calls => (Except.error "Can't reach database server", calls + 1)

/-- The client of a store that answers reads and refuses writes, as a read-only
replica does. -/
def readOnlyClient : RedisClient RedisStore :=
  { get := fun key s => (Except.ok (s.lookup key), s)
    setex := fun _ _ _ s =>
      (Except.error "READONLY You can't write against a read only replica.", s)
    keys := fun pattern s => (Except.ok (s.keys pattern), s)
    del := fun _ s =>
      (Except.error "READONLY You can't write against a read only replica.", s) }

/-! ## The entries that the application writes -/

/-- A key under which the application stores a result.  The store is written by
`getOrSet` alone, and `getOrSet` is called by `GET /monthly` and `GET /category`
alone, with the keys of these two. -/
def appKey (k : String) : Prop := ∃ u : Nat, k = monthlyKey u ∨ k = categoryKey u

/-- The states of a working cache store that the application brings about, from an
empty store: time passes; `GET /monthly` and `GET /category` call `getOrSet` with
their key and 15 minutes, for any user, fetcher and state of the availability flag;
the three write routes run; `getDashboardStats` runs. -/
inductive AppStore : RedisStore → Prop where
  | empty (clock : Int) : AppStore { clock := clock, entries := [] }
  | tick (s : RedisStore) (dt : Int) : AppStore s → 0 ≤ dt → AppStore (s.advance dt)
  | monthly {W V : Type} (codec : JsonCodec V) (redisAvailable : Bool) (u : Nat)
      (fetcher : Fetcher W V) (s : RedisStore) (w : W) : AppStore s →
      AppStore (getOrSet codec redisAvailable (some workingClient) (monthlyKey u) (15 * 60)
        fetcher s w).store
  | category {W V : Type} (codec : JsonCodec V) (redisAvailable : Bool) (u : Nat)
      (fetcher : Fetcher W V) (s : RedisStore) (w : W) : AppStore s →
      AppStore (getOrSet codec redisAvailable (some workingClient) (categoryKey u) (15 * 60)
        fetcher s w).store
  | post (redisAvailable : Bool) (now : Int) (user : Option AuthUser) (body : TxInput)
      (db : List Transaction) (s : RedisStore) : AppStore s →
      AppStore (postTransaction redisAvailable (some workingClient) now user body db s).store
  | put (redisAvailable : Bool) (user : Option AuthUser) (id : Nat) (patch : TxPatch)
      (db : List Transaction) (s : RedisStore) : AppStore s →
      AppStore (putTransaction redisAvailable (some workingClient) user id patch db s).store
  | delete (redisAvailable : Bool) (user : Option AuthUser) (id : Nat)
      (db : List Transaction) (s : RedisStore) : AppStore s →
      AppStore (deleteTransaction redisAvailable (some workingClient) user id db s).store
  | dashboard (parseInt : String → Option Int) (tz now : Int)
      (transactions : List Transaction) (categories : List Category) (userId : Nat)
      (period : Option String) (s : RedisStore) : AppStore s →
      AppStore (getDashboardStats (cacheExports RedisStore DashboardStats) parseInt tz now
        transactions categories userId period s).2

/-- Reference: the store holds no entry, now or later, under any of the keys of the
user `u`: the key of `GET /monthly`, the key of `GET /category`, a key of
`getDashboardStats` and a key of `getTransactions`. -/
def writtenEntriesGone (s : RedisStore) (u : Nat) : Prop :=
  ∀ dt : Int, 0 ≤ dt →
    (s.advance dt).lookup (monthlyKey u) = none ∧
    (s.advance dt).lookup (categoryKey u) = none ∧
    (∀ period : String, (s.advance dt).lookup (dashboardKey u period) = none) ∧
    (∀ q : ListQuery, (s.advance dt).lookup (listingKey u q) = none)

/-! ## The calendar -/

theorem DayFromYear_succ (y : Int) : DayFromYear (y + 1) = DayFromYear y + DaysInYear y := by
  unfold DayFromYear DaysInYear
  split_ifs <;> omega

theorem DayFromYear_mono (a b : Int) (h : a ≤ b) : DayFromYear a ≤ DayFromYear b := by
  unfold DayFromYear
  omega

/-- The year computed is the one whose days contain `d`. -/
theorem YearFromDay_spec (d : Int) :
    DayFromYear (YearFromDay d) ≤ d ∧ d < DayFromYear (YearFromDay d + 1) := by
  unfold YearFromDay
  simp only
  generalize hy : 1970 + d * 400 / 146097 = y0
  have hlo : DayFromYear (y0 - 1) ≤ d := by unfold DayFromYear; omega
  have hhi : d < DayFromYear (y0 + 1 + 1) := by unfold DayFromYear; omega
  split_ifs with h1 h2
  · rw [Int.sub_add_cancel]; exact ⟨hlo, h1⟩
  · exact ⟨h2, hhi⟩
  · omega

theorem leapOfYear_cases (y : Int) :
    (leapOfYear y = 0 ∧ DaysInYear y = 365) ∨ (leapOfYear y = 1 ∧ DaysInYear y = 366) := by
  unfold leapOfYear DaysInYear
  split_ifs <;> simp_all

theorem monthStartInYear_0 (l : Int) : monthStartInYear 0 l = 0 := rfl
theorem monthStartInYear_1 (l : Int) : monthStartInYear 1 l = 31 := rfl
theorem monthStartInYear_2 (l : Int) : monthStartInYear 2 l = 59 + l := rfl
theorem monthStartInYear_3 (l : Int) : monthStartInYear 3 l = 90 + l := rfl
theorem monthStartInYear_4 (l : Int) : monthStartInYear 4 l = 120 + l := rfl
theorem monthStartInYear_5 (l : Int) : monthStartInYear 5 l = 151 + l := rfl
theorem monthStartInYear_6 (l : Int) : monthStartInYear 6 l = 181 + l := rfl
theorem monthStartInYear_7 (l : Int) : monthStartInYear 7 l = 212 + l := rfl
theorem monthStartInYear_8 (l : Int) : monthStartInYear 8 l = 243 + l := rfl
theorem monthStartInYear_9 (l : Int) : monthStartInYear 9 l = 273 + l := rfl
theorem monthStartInYear_10 (l : Int) : monthStartInYear 10 l = 304 + l := rfl
theorem monthStartInYear_11 (l : Int) : monthStartInYear 11 l = 334 + l := rfl

theorem month_table (d l : Int) (h0 : 0 ≤ d) (h1 : d < 365 + l) :
    0 ≤ monthOfDayInYear d l ∧ monthOfDayInYear d l ≤ 11 ∧
      monthStartInYear (monthOfDayInYear d l) l ≤ d ∧
      (monthOfDayInYear d l < 11 → d < monthStartInYear (monthOfDayInYear d l + 1) l) := by
  unfold monthOfDayInYear
  by_cases c1 : d < 31
  · rw [if_pos c1]; simp only [monthStartInYear_0, monthStartInYear_1, Int.reduceAdd]; omega
  rw [if_neg c1]
  by_cases c2 : d < 59 + l
  · rw [if_pos c2]; simp only [monthStartInYear_1, monthStartInYear_2, Int.reduceAdd]; omega
  rw [if_neg c2]
  by_cases c3 : d < 90 + l
  · rw [if_pos c3]; simp only [monthStartInYear_2, monthStartInYear_3, Int.reduceAdd]; omega
  rw [if_neg c3]
  by_cases c4 : d < 120 + l
  · rw [if_pos c4]; simp only [monthStartInYear_3, monthStartInYear_4, Int.reduceAdd]; omega
  rw [if_neg c4]
  by_cases c5 : d < 151 + l
  · rw [if_pos c5]; simp only [monthStartInYear_4, monthStartInYear_5, Int.reduceAdd]; omega
  rw [if_neg c5]
  by_cases c6 : d < 181 + l
  · rw [if_pos c6]; simp only [monthStartInYear_5, monthStartInYear_6, Int.reduceAdd]; omega
  rw [if_neg c6]
  by_cases c7 : d < 212 + l
  · rw [if_pos c7]; simp only [monthStartInYear_6, monthStartInYear_7, Int.reduceAdd]; omega
  rw [if_neg c7]
  by_cases c8 : d < 243 + l
  · rw [if_pos c8]; simp only [monthStartInYear_7, monthStartInYear_8, Int.reduceAdd]; omega
  rw [if_neg c8]
  by_cases c9 : d < 273 + l
  · rw [if_pos c9]; simp only [monthStartInYear_8, monthStartInYear_9, Int.reduceAdd]; omega
  rw [if_neg c9]
  by_cases c10 : d < 304 + l
  · rw [if_pos c10]; simp only [monthStartInYear_9, monthStartInYear_10, Int.reduceAdd]; omega
  rw [if_neg c10]
  by_cases c11 : d < 334 + l
  · rw [if_pos c11]; simp only [monthStartInYear_10, monthStartInYear_11, Int.reduceAdd]; omega
  rw [if_neg c11]
  simp only [monthStartInYear_11]; omega

theorem monthStartDay_eq (y m : Int) (h0 : 0 ≤ m) (h1 : m ≤ 11) :
    monthStartDay (12 * y + m) = DayFromYear y + monthStartInYear m (leapOfYear y) := by
  unfold monthStartDay
  have e1 : (12 * y + m) / 12 = y := by omega
  have e2 : (12 * y + m) % 12 = m := by omega
  rw [e1, e2]

theorem monthOfDay_range (d : Int) :
    0 ≤ monthOfDayInYear (d - DayFromYear (YearFromDay d)) (leapOfYear (YearFromDay d)) ∧
      monthOfDayInYear (d - DayFromYear (YearFromDay d)) (leapOfYear (YearFromDay d)) ≤ 11 := by
  obtain ⟨hy1, hy2⟩ := YearFromDay_spec d
  rw [DayFromYear_succ] at hy2
  have hl := leapOfYear_cases (YearFromDay d)
  have := month_table (d - DayFromYear (YearFromDay d)) (leapOfYear (YearFromDay d))
    (by omega) (by omega)
  exact ⟨this.1, this.2.1⟩

/-- A day lies in the month computed for it. -/
theorem monthIndexOfDay_spec (d : Int) :
    monthStartDay (monthIndexOfDay d) ≤ d ∧ d < monthStartDay (monthIndexOfDay d + 1) := by
  obtain ⟨hy1, hy2⟩ := YearFromDay_spec d
  have hy3 := hy2
  rw [DayFromYear_succ] at hy2
  have hl := leapOfYear_cases (YearFromDay d)
  obtain ⟨m0, m1, m2, m3⟩ := month_table (d - DayFromYear (YearFromDay d))
    (leapOfYear (YearFromDay d)) (by omega) (by omega)
  unfold monthIndexOfDay
  generalize monthOfDayInYear (d - DayFromYear (YearFromDay d)) (leapOfYear (YearFromDay d)) = m
    at m0 m1 m2 m3
  constructor
  · rw [monthStartDay_eq _ _ m0 m1]; omega
  · by_cases hm : m < 11
    · have e : 12 * YearFromDay d + m + 1 = 12 * YearFromDay d + (m + 1) := by ring
      rw [e, monthStartDay_eq _ _ (by omega) (by omega)]
      have := m3 hm
      omega
    · have hm11 : m = 11 := by omega
      have e : 12 * YearFromDay d + m + 1 = 12 * (YearFromDay d + 1) + 0 := by omega
      rw [e, monthStartDay_eq _ _ (by omega) (by omega), monthStartInYear_0]
      omega

/-- Every month has between 28 and 31 days. -/
theorem monthStartDay_succ (k : Int) :
    monthStartDay k + 28 ≤ monthStartDay (k + 1) ∧ monthStartDay (k + 1) ≤ monthStartDay k + 31 := by
  have hk : k = 12 * (k / 12) + k % 12 := by omega
  have h0 : 0 ≤ k % 12 := by omega
  have h1 : k % 12 ≤ 11 := by omega
  generalize k / 12 = y at hk
  generalize k % 12 = m at hk h0 h1
  subst hk
  have hl := leapOfYear_cases y
  rw [monthStartDay_eq _ _ h0 h1]
  by_cases hm : m < 11
  · have e : 12 * y + m + 1 = 12 * y + (m + 1) := by ring
    rw [e, monthStartDay_eq _ _ (by omega) (by omega)]
    interval_cases m <;>
      simp only [monthStartInYear_0, monthStartInYear_1, monthStartInYear_2, monthStartInYear_3,
        monthStartInYear_4, monthStartInYear_5, monthStartInYear_6, monthStartInYear_7,
        monthStartInYear_8, monthStartInYear_9, monthStartInYear_10, monthStartInYear_11,
        Int.reduceAdd] <;> omega
  · have hm11 : m = 11 := by omega
    have e : 12 * y + m + 1 = 12 * (y + 1) + 0 := by omega
    rw [e, monthStartDay_eq _ _ (by omega) (by omega), DayFromYear_succ]
    subst hm11
    rw [monthStartInYear_0, monthStartInYear_11]
    omega

theorem monthStartDay_lt (a b : Int) (h : a < b) : monthStartDay a < monthStartDay b := by
  have key : ∀ n : Nat, monthStartDay a < monthStartDay (a + 1 + n) := by
    intro n
    induction n with
    | zero => have := monthStartDay_succ a; simpa using (by omega : monthStartDay a < monthStartDay (a + 1))
    | succ n ih =>
      have := monthStartDay_succ (a + 1 + n)
      have e : a + 1 + ((n + 1 : Nat) : Int) = a + 1 + n + 1 := by push_cast; ring
      rw [e]; omega
  have := key (b - a - 1).toNat
  have e : a + 1 + ((b - a - 1).toNat : Int) = b := by omega
  rwa [e] at this

theorem monthStartDay_le (a b : Int) (h : a ≤ b) : monthStartDay a ≤ monthStartDay b := by
  rcases lt_or_eq_of_le h with h | h
  · exact le_of_lt (monthStartDay_lt a b h)
  · rw [h]

/-- The month of a day is the only month whose days contain it. -/
theorem monthIndexOfDay_eq_iff (d k : Int) :
    monthIndexOfDay d = k ↔ monthStartDay k ≤ d ∧ d < monthStartDay (k + 1) := by
  have hs := monthIndexOfDay_spec d
  constructor
  · intro h; rw [← h]; exact hs
  · rintro ⟨h1, h2⟩
    by_contra hne
    rcases lt_or_gt_of_ne hne with h | h
    · have := monthStartDay_le (monthIndexOfDay d + 1) k (by omega); omega
    · have := monthStartDay_le (k + 1) (monthIndexOfDay d) (by omega); omega

/-! ## Local time -/

theorem localMonthIndex_eq (tz t : Int) :
    localMonthIndex tz t = monthIndexOfDay (Day (LocalTime tz t)) := rfl

theorem getMonth_range (tz t : Int) : 0 ≤ getMonth tz t ∧ getMonth tz t ≤ 11 :=
  monthOfDay_range (Day (LocalTime tz t))

/-- A time value lies in local month `k` exactly when it is at or after local
midnight of the first day of `k` and before that of the next month. -/
theorem localMonthIndex_eq_iff (tz t k : Int) :
    localMonthIndex tz t = k ↔ firstDayOfMonth tz k ≤ t ∧ t < firstDayOfMonth tz (k + 1) := by
  rw [localMonthIndex_eq, monthIndexOfDay_eq_iff]
  unfold firstDayOfMonth UTC MakeDate Day LocalTime LocalTZA msPerDay msPerMinute
  generalize monthStartDay k = a
  generalize monthStartDay (k + 1) = b
  constructor <;> rintro ⟨h1, h2⟩ <;> constructor <;> omega

theorem firstDayOfMonth_lt (tz a b : Int) (h : a < b) :
    firstDayOfMonth tz a < firstDayOfMonth tz b := by
  have := monthStartDay_lt a b h
  unfold firstDayOfMonth UTC MakeDate msPerDay
  omega

theorem localMonthIndex_firstDay (tz k : Int) : localMonthIndex tz (firstDayOfMonth tz k) = k := by
  rw [localMonthIndex_eq_iff]
  exact ⟨le_refl _, firstDayOfMonth_lt tz k (k + 1) (by omega)⟩

/-- The constructor with day 1 gives the first day of the month, whatever the month
argument. -/
theorem newDate_one (tz year month : Int) :
    newDate tz year month 1 = firstDayOfMonth tz (12 * year + month) := by
  unfold newDate firstDayOfMonth MakeDay
  have e : 12 * (year + month / 12) + month % 12 = 12 * year + month := by omega
  rw [e]
  congr 2
  omega

theorem newDate_now (tz now i : Int) :
    newDate tz (getFullYear tz now) (getMonth tz now + i) 1 =
      firstDayOfMonth tz (localMonthIndex tz now + i) := by
  rw [newDate_one]
  unfold localMonthIndex
  congr 1
  ring

theorem getFullYear_getMonth_of_index (tz t k : Int) (h : localMonthIndex tz t = k) :
    getFullYear tz t = k / 12 ∧ getMonth tz t = k % 12 := by
  have hr := getMonth_range tz t
  unfold localMonthIndex at h
  constructor <;> omega

/-! ## `getMonthlyTrends` -/

theorem orZero_aggregateSumBetween (db : List Transaction) (userId : Nat) (ty : TxType)
    (gte lt : Int) :
    orZero (aggregateSumBetween db userId ty gte lt) = sumAmounts (db.filter
      (fun t => decide (t.userId = userId ∧ t.type = ty ∧ gte ≤ t.date ∧ t.date < lt))) := by
  unfold aggregateSumBetween
  simp only
  split_ifs with h
  · rw [List.isEmpty_iff] at h
    rw [h]; rfl
  · rfl

theorem monthTrendAt_sums (tz now : Int) (db : List Transaction) (userId : Nat) (i : Int) :
    (monthTrendAt tz now db userId i).income
        = monthSum tz db userId TxType.INCOME (localMonthIndex tz now - i) ∧
      (monthTrendAt tz now db userId i).expenses
        = monthSum tz db userId TxType.EXPENSE (localMonthIndex tz now - i) ∧
      (monthTrendAt tz now db userId i).net
        = (monthTrendAt tz now db userId i).income - (monthTrendAt tz now db userId i).expenses := by
  have e1 : newDate tz (getFullYear tz now) (getMonth tz now - i) 1
      = firstDayOfMonth tz (localMonthIndex tz now - i) := by
    have := newDate_now tz now (-i)
    simpa [sub_eq_add_neg] using this
  have e2 : newDate tz (getFullYear tz now) (getMonth tz now - i + 1) 1
      = firstDayOfMonth tz (localMonthIndex tz now - i + 1) := by
    have := newDate_now tz now (-i + 1)
    have a1 : getMonth tz now - i + 1 = getMonth tz now + (-i + 1) := by ring
    have a2 : localMonthIndex tz now - i + 1 = localMonthIndex tz now + (-i + 1) := by ring
    rw [a1, a2]; exact this
  have hf : ∀ ty : TxType, orZero (aggregateSumBetween db userId ty
      (firstDayOfMonth tz (localMonthIndex tz now - i))
      (firstDayOfMonth tz (localMonthIndex tz now - i + 1)))
      = monthSum tz db userId ty (localMonthIndex tz now - i) := by
    intro ty
    rw [orZero_aggregateSumBetween]
    unfold monthSum
    congr 1
    apply List.filter_congr
    intro t _
    simp only [localMonthIndex_eq_iff, decide_eq_decide]
  unfold monthTrendAt
  simp only [e1, e2, hf, and_self]

theorem monthSum_pair (tz : Int) (t1 t2 : Transaction) (userId : Nat) (ty : TxType) (k : Int) :
    monthSum tz [t1, t2] userId ty k =
      (if t1.userId = userId ∧ t1.type = ty ∧ localMonthIndex tz t1.date = k then t1.amount else 0)
      + (if t2.userId = userId ∧ t2.type = ty ∧ localMonthIndex tz t2.date = k then t2.amount
          else 0) := by
  unfold monthSum sumAmounts
  by_cases h1 : t1.userId = userId ∧ t1.type = ty ∧ localMonthIndex tz t1.date = k <;>
    by_cases h2 : t2.userId = userId ∧ t2.type = ty ∧ localMonthIndex tz t2.date = k <;>
    simp [List.filter, h1, h2]

/-- C1: `getMonthlyTrends` returns six entries, oldest first, the i-th for the local
calendar month 5-i months before that of `now`; income and expenses are the sums of
the amounts of the INCOME and EXPENSE transactions of the user dated in that month,
net is their difference; a month is the half-open interval from local midnight of
its first day to that of the next month, so a date on a boundary belongs only to
the month that starts there; one INCOME of 2000 in the oldest month and one EXPENSE
of 150 in the current month give (2000, 0, 2000) first, (0, 150, minus 150) last
and zeros between. -/
theorem getMonthlyTrends_six_months (tz now : Int) (db : List Transaction) (userId : Nat) :
    (getMonthlyTrends tz now db userId).length = 6 ∧
    (getMonthlyTrends tz now db userId).map (fun e => e.income) =
      [localMonthIndex tz now - 5, localMonthIndex tz now - 4, localMonthIndex tz now - 3,
        localMonthIndex tz now - 2, localMonthIndex tz now - 1, localMonthIndex tz now].map
        (fun k => monthSum tz db userId TxType.INCOME k) ∧
    (getMonthlyTrends tz now db userId).map (fun e => e.expenses) =
      [localMonthIndex tz now - 5, localMonthIndex tz now - 4, localMonthIndex tz now - 3,
        localMonthIndex tz now - 2, localMonthIndex tz now - 1, localMonthIndex tz now].map
        (fun k => monthSum tz db userId TxType.EXPENSE k) ∧
    (getMonthlyTrends tz now db userId).map (fun e => e.net) =
      (getMonthlyTrends tz now db userId).map (fun e => e.income - e.expenses) ∧
    (∀ t k : Int, localMonthIndex tz t = k ↔
      firstDayOfMonth tz k ≤ t ∧ t < firstDayOfMonth tz (k + 1)) ∧
    (∀ k : Int, localMonthIndex tz (firstDayOfMonth tz k) = k) ∧
    (∀ t1 t2 : Transaction,
      t1.userId = userId → t1.type = TxType.INCOME → t1.amount = 2000 →
      localMonthIndex tz t1.date = localMonthIndex tz now - 5 →
      t2.userId = userId → t2.type = TxType.EXPENSE → t2.amount = 150 →
      localMonthIndex tz t2.date = localMonthIndex tz now →
      (getMonthlyTrends tz now [t1, t2] userId).map (fun e => (e.income, e.expenses, e.net))
        = [(2000, 0, 2000), (0, 0, 0), (0, 0, 0), (0, 0, 0), (0, 0, 0), (0, 150, -150)]) := by
  refine ⟨rfl, ?_, ?_, ?_, localMonthIndex_eq_iff tz, localMonthIndex_firstDay tz, ?_⟩
  · simp only [getMonthlyTrends, List.map, (monthTrendAt_sums tz now db userId _).1, sub_zero]
  · simp only [getMonthlyTrends, List.map, (monthTrendAt_sums tz now db userId _).2.1, sub_zero]
  · simp only [getMonthlyTrends, List.map, (monthTrendAt_sums tz now db userId _).2.2]
  · intro t1 t2 u1 y1 a1 m1 u2 y2 a2 m2
    simp only [getMonthlyTrends, List.map, (monthTrendAt_sums tz now _ userId _).2.2,
      (monthTrendAt_sums tz now _ userId _).1, (monthTrendAt_sums tz now _ userId _).2.1,
      monthSum_pair, u1, y1, a1, m1, u2, y2, a2, m2]
    simp
    omega

/-- The scenario of C1 on concrete data: now is 2024-03-15 (UTC), an income of 2000
on 2023-10-11 and an expense of 150 on 2024-03-09. -/
theorem getMonthlyTrends_six_months_witness :
    (getMonthlyTrends 0 1710504000000
        [{ id := 1, amount := 2000, type := TxType.INCOME, categoryId := none, note := "Salary",
           date := 1697000000000, userId := 1 },
         { id := 2, amount := 150, type := TxType.EXPENSE, categoryId := some 1, note := "",
           date := 1710000000000, userId := 1 }] 1).map (fun e => (e.income, e.expenses, e.net))
      = [(2000, 0, 2000), (0, 0, 0), (0, 0, 0), (0, 0, 0), (0, 0, 0), (0, 150, -150)] :=
  (getMonthlyTrends_six_months 0 1710504000000 [] 1).2.2.2.2.2.2 _ _
    rfl rfl rfl (by decide) rfl rfl rfl (by decide)

/-! ## Dictionaries -/

namespace JsObject

theorem keys_set {α : Type} (o : JsObject α) (k : String) (v : α) :
    (o.set k v).keys = if k ∈ o.keys then o.keys else o.keys ++ [k] := by
  induction o with
  | nil => simp [set, keys]
  | cons e rest ih =>
    obtain ⟨k1, v1⟩ := e
    unfold keys at ih ⊢
    by_cases h : k1 = k
    · simp [set, h]
    · have h2 : ¬ k = k1 := fun e => h e.symm
      simp only [set, h, if_false, List.map_cons, ih, List.mem_cons, h2, false_or]
      split_ifs <;> simp

theorem keys_modify {α : Type} (o : JsObject α) (k : String) (f : α → α) :
    (o.modify k f).keys = o.keys := by
  induction o with
  | nil => rfl
  | cons e rest ih =>
    obtain ⟨k1, v1⟩ := e
    unfold keys at ih ⊢
    by_cases h : k1 = k <;> simp [modify, h, ih]

theorem get_eq_none_iff {α : Type} (o : JsObject α) (k : String) :
    o.get k = none ↔ k ∉ o.keys := by
  induction o with
  | nil => simp [get, keys]
  | cons e rest ih =>
    obtain ⟨k1, v1⟩ := e
    unfold keys at ih ⊢
    by_cases h : k1 = k
    · simp [get, h]
    · have h2 : ¬ k = k1 := fun e => h e.symm
      simp [get, h, h2, ih]

theorem get_isSome_iff {α : Type} (o : JsObject α) (k : String) :
    (o.get k).isSome ↔ k ∈ o.keys := by
  rw [← not_iff_not, ← get_eq_none_iff]
  cases o.get k <;> simp

theorem keys_foldl_set {α : Type} (f : Nat → String) (v : α) (l : List Nat) (o : JsObject α)
    (h : (o.keys ++ l.map f).Nodup) :
    (l.foldl (fun acc i => acc.set (f i) v) o).keys = o.keys ++ l.map f := by
  induction l generalizing o with
  | nil => simp
  | cons i rest ih =>
    have hi : f i ∉ o.keys := by
      intro hmem
      have := List.disjoint_of_nodup_append h
      exact this hmem (by simp)
    have hk : (o.set (f i) v).keys = o.keys ++ [f i] := by rw [keys_set, if_neg hi]
    rw [List.foldl_cons, ih]
    · rw [hk]; simp
    · rw [hk]; simpa using h

end JsObject

/-! ## Month keys -/

theorem eq_of_append_cons_eq (c : Char) (x1 x2 y1 y2 : List Char) (h1 : c ∉ x1) (h2 : c ∉ x2)
    (h : x1 ++ c :: y1 = x2 ++ c :: y2) : x1 = x2 := by
  induction x1 generalizing x2 with
  | nil =>
    cases x2 with
    | nil => rfl
    | cons b t =>
      simp only [List.nil_append, List.cons_append, List.cons.injEq] at h
      exact absurd (by rw [← h.1]; simp) h2
  | cons a s ih =>
    cases x2 with
    | nil =>
      simp only [List.nil_append, List.cons_append, List.cons.injEq] at h
      exact absurd (by rw [h.1]; simp) h1
    | cons b t =>
      simp only [List.cons_append, List.cons.injEq] at h
      rw [h.1, ih t (fun hm => h1 (List.mem_cons_of_mem _ hm))
        (fun hm => h2 (List.mem_cons_of_mem _ hm)) h.2]

theorem month_digits (m : Int) (h1 : 1 ≤ m) (h2 : m ≤ 12) :
    '-' ∉ (toString m).data ∧ digitsValue (toString m).data = m := by
  interval_cases m <;> decide

/-- Two month keys that are equal name the same month of the year. -/
theorem monthLabel_month (k1 k2 : Int) (h : monthLabel k1 = monthLabel k2) :
    k1 % 12 = k2 % 12 := by
  have d1 := month_digits (k1 % 12 + 1) (by omega) (by omega)
  have d2 := month_digits (k2 % 12 + 1) (by omega) (by omega)
  have hd := congrArg String.data h
  unfold monthLabel at hd
  simp only [String.data_append] at hd
  have hr := congrArg List.reverse hd
  simp only [List.reverse_append] at hr
  have e : ("-" : String).data.reverse = ['-'] := rfl
  rw [e] at hr
  simp only [List.append_assoc, List.singleton_append] at hr
  have := eq_of_append_cons_eq '-' _ _ _ _ (by simpa using d1.1) (by simpa using d2.1) hr
  have hv := List.reverse_injective this
  have : k1 % 12 + 1 = k2 % 12 + 1 := by rw [← d1.2, ← d2.2, hv]
  omega

theorem monthKey_eq_monthLabel (tz t : Int) : monthKey tz t = monthLabel (localMonthIndex tz t) := by
  obtain ⟨e1, e2⟩ := getFullYear_getMonth_of_index tz t _ rfl
  unfold monthKey monthLabel
  rw [← e1, ← e2]

theorem monthKey_newDate (tz now i : Int) :
    monthKey tz (newDate tz (getFullYear tz now) (getMonth tz now + i) 1)
      = monthLabel (localMonthIndex tz now + i) := by
  rw [monthKey_eq_monthLabel, newDate_now, localMonthIndex_firstDay]

theorem monthLabels_nodup (m : Int) :
    ((List.range 12).map (fun i : Nat => monthLabel (m - 11 + (i : Int)))).Nodup := by
  apply List.Nodup.map_on _ (List.nodup_range 12)
  intro a ha b hb hab
  have := monthLabel_month _ _ hab
  rw [List.mem_range] at ha hb
  omega

theorem initMonths_eq (tz now : Int) :
    (initMonths tz now).keys
      = (List.range 12).map (fun i : Nat => monthLabel (localMonthIndex tz now - 11 + (i : Int))) := by
  unfold initMonths
  have hf : (fun (months : JsObject MonthAcc) (i : Nat) =>
      let d := newDate tz (getFullYear tz now) (getMonth tz now - 11 + (i : Int)) 1
      months.set (monthKey tz d) { income := 0, expense := 0 })
      = (fun months i => months.set
          ((fun i : Nat => monthLabel (localMonthIndex tz now - 11 + (i : Int))) i)
          { income := 0, expense := 0 }) := by
    funext months i
    have a1 : getMonth tz now - 11 + (i : Int) = getMonth tz now + (-11 + (i : Int)) := by ring
    have a2 : localMonthIndex tz now - 11 + (i : Int)
        = localMonthIndex tz now + (-11 + (i : Int)) := by ring
    simp only [a1, a2, monthKey_newDate]
  rw [hf, JsObject.keys_foldl_set]
  · rfl
  · simpa [JsObject.keys] using monthLabels_nodup (localMonthIndex tz now)

theorem initMonths_last (tz now : Int) :
    (initMonths tz now).keys.getLast? = some (monthKey tz now) := by
  rw [initMonths_eq, monthKey_eq_monthLabel]
  have hr : List.range 12 = List.range 11 ++ [11] := by decide
  rw [hr, List.map_append, List.map_singleton, List.getLast?_concat]
  have e : localMonthIndex tz now - 11 + ((11 : Nat) : Int) = localMonthIndex tz now := by
    push_cast; ring
  rw [e]

theorem initMonths_first (tz now : Int) :
    (initMonths tz now).keys.head? = some (monthLabel (localMonthIndex tz now - 11)) := by
  rw [initMonths_eq]
  have hr : List.range 12 = 0 :: (List.range 11).map Nat.succ := by decide
  rw [hr, List.map_cons, List.head?_cons]
  have e : localMonthIndex tz now - 11 + ((0 : Nat) : Int) = localMonthIndex tz now - 11 := by
    push_cast; ring
  rw [e]

theorem initMonths_example :
    (initMonths 0 1710504000000).keys =
      ["2023-4", "2023-5", "2023-6", "2023-7", "2023-8", "2023-9", "2023-10", "2023-11",
        "2023-12", "2024-1", "2024-2", "2024-3"] := by
  decide

theorem initMonths_length (tz now : Int) : (initMonths tz now).keys.length = 12 := by
  rw [initMonths_eq]; simp

/-- C2: the keys that `GET /monthly` sets up before it looks at a transaction are
twelve, pairwise distinct, the consecutive calendar months from eleven months before
the local month of `now` up to that month, oldest first, each written as the year, a
dash and the month from 1 to 12 without padding; consecutive also across a year
boundary (the example is March 2024 in UTC). -/
theorem initMonths_twelve_keys (tz now : Int) :
    (initMonths tz now).keys =
      (List.range 12).map
        (fun i : Nat => monthLabel (localMonthIndex tz now - 11 + (i : Int))) ∧
    (initMonths tz now).keys.length = 12 ∧
    (initMonths tz now).keys.Nodup ∧
    (initMonths tz now).keys.head? = some (monthLabel (localMonthIndex tz now - 11)) ∧
    (initMonths tz now).keys.getLast? = some (monthKey tz now) ∧
    (∀ k : Int, monthLabel k = toString (k / 12) ++ "-" ++ toString (k % 12 + 1) ∧
      1 ≤ k % 12 + 1 ∧ k % 12 + 1 ≤ 12 ∧ 12 * (k / 12) + (k % 12 + 1 - 1) = k) ∧
    (initMonths 0 1710504000000).keys =
      ["2023-4", "2023-5", "2023-6", "2023-7", "2023-8", "2023-9", "2023-10", "2023-11",
        "2023-12", "2024-1", "2024-2", "2024-3"] := by
  have hk := initMonths_eq tz now
  refine ⟨hk, initMonths_length tz now, ?_, initMonths_first tz now, initMonths_last tz now, ?_,
    initMonths_example⟩
  · rw [hk]; exact monthLabels_nodup _
  · intro k
    refine ⟨rfl, ?_, ?_, ?_⟩ <;> omega

/-! ## The handler of `GET /monthly` -/

theorem keys_monthlyStep (tz : Int) (o : JsObject MonthAcc) (t : Transaction) :
    (monthlyStep tz o t).keys =
      if monthKey tz t.date ∈ o.keys then o.keys else o.keys ++ [monthKey tz t.date] := by
  unfold monthlyStep
  simp only
  by_cases h : monthKey tz t.date ∈ o.keys
  · have hn : (o.get (monthKey tz t.date)).isNone = false := by
      have := (JsObject.get_isSome_iff o (monthKey tz t.date)).2 h
      cases hg : o.get (monthKey tz t.date) <;> simp_all
    rw [hn]
    simp only [Bool.false_eq_true, if_false, if_pos h]
    split_ifs <;> rw [JsObject.keys_modify]
  · have hn : (o.get (monthKey tz t.date)).isNone = true := by
      rw [(JsObject.get_eq_none_iff o (monthKey tz t.date)).2 h]; rfl
    rw [hn]
    simp only [if_true, if_neg h]
    split_ifs <;> rw [JsObject.keys_modify, JsObject.keys_set, if_neg h]

theorem keys_foldl_monthlyStep (tz : Int) (txs : List Transaction) (o : JsObject MonthAcc) :
    ∃ extra, (txs.foldl (monthlyStep tz) o).keys = o.keys ++ extra := by
  induction txs generalizing o with
  | nil => exact ⟨[], by simp⟩
  | cons t rest ih =>
    obtain ⟨e, he⟩ := ih (monthlyStep tz o t)
    rw [List.foldl_cons, he, keys_monthlyStep]
    split_ifs
    · exact ⟨e, rfl⟩
    · exact ⟨monthKey tz t.date :: e, by simp⟩

theorem keys_foldl_monthlyStep_of_mem (tz : Int) (txs : List Transaction) (o : JsObject MonthAcc)
    (h : ∀ t ∈ txs, monthKey tz t.date ∈ o.keys) :
    (txs.foldl (monthlyStep tz) o).keys = o.keys := by
  induction txs generalizing o with
  | nil => rfl
  | cons t rest ih =>
    have hk : (monthlyStep tz o t).keys = o.keys := by
      rw [keys_monthlyStep, if_pos (h t (by simp))]
    rw [List.foldl_cons, ih, hk]
    intro u hu
    rw [hk]
    exact h u (by simp [hu])

theorem length_filterMap_of_isSome {α β : Type} (g : α → Option β) (l : List α)
    (h : ∀ x ∈ l, (g x).isSome) : (l.filterMap g).length = l.length := by
  induction l with
  | nil => rfl
  | cons a rest ih =>
    have ha := h a (by simp)
    obtain ⟨b, hb⟩ := Option.isSome_iff_exists.1 ha
    rw [List.filterMap_cons_some hb, List.length_cons, List.length_cons,
      ih (fun x hx => h x (by simp [hx]))]

theorem monthlyArrays_lengths (months : JsObject MonthAcc) :
    (monthlyArrays months).labels = months.keys ∧
      (monthlyArrays months).incomes.length = months.keys.length ∧
      (monthlyArrays months).expenses.length = months.keys.length := by
  unfold monthlyArrays
  refine ⟨rfl, ?_, ?_⟩ <;>
  · apply length_filterMap_of_isSome
    intro l hl
    have := (JsObject.get_isSome_iff months l).2 hl
    cases hg : months.get l <;> simp_all

theorem firstDayOfMonth_le (tz a b : Int) (h : a ≤ b) :
    firstDayOfMonth tz a ≤ firstDayOfMonth tz b := by
  rcases lt_or_eq_of_le h with h | h
  · exact le_of_lt (firstDayOfMonth_lt tz a b h)
  · rw [h]

/-- The local month of a time value is monotone in the time value. -/
theorem localMonthIndex_bounds (tz t a b : Int) (h1 : firstDayOfMonth tz a ≤ t)
    (h2 : t < firstDayOfMonth tz (b + 1)) :
    a ≤ localMonthIndex tz t ∧ localMonthIndex tz t ≤ b := by
  obtain ⟨g1, g2⟩ := (localMonthIndex_eq_iff tz t _).1 rfl
  constructor
  · by_contra hc
    have := firstDayOfMonth_le tz (localMonthIndex tz t + 1) a (by omega)
    omega
  · by_contra hc
    have := firstDayOfMonth_le tz (b + 1) (localMonthIndex tz t) (by omega)
    omega

theorem yearAgo_eq (tz now : Int) :
    yearAgo tz now = firstDayOfMonth tz (localMonthIndex tz now - 11) := by
  unfold yearAgo
  have := newDate_now tz now (-11)
  simpa [sub_eq_add_neg] using this

/-- C3 (as the code behaves): with now = 2024-03-15 (UTC) a transaction of the user
dated 2024-07-03, which is at or after `yearAgo` and so is returned by the query,
which has no upper bound, adds a thirteenth label `2024-7` after the twelve months
that the handler set up: the arrays have 13 elements, not 12. -/
theorem monthlyData_thirteen_labels :
    yearAgo 0 1710504000000 ≤ 1720000000000 ∧
    monthlyData 0 1710504000000
        [{ id := 3, amount := 7, type := TxType.EXPENSE, categoryId := none, note := "",
           date := 1720000000000, userId := 1 }] 1
      = { labels := ["2023-4", "2023-5", "2023-6", "2023-7", "2023-8", "2023-9", "2023-10",
            "2023-11", "2023-12", "2024-1", "2024-2", "2024-3", "2024-7"],
          incomes := [0, 0, 0, 0, 0, 0, 0, 0, 0, 0, 0, 0, 0],
          expenses := [0, 0, 0, 0, 0, 0, 0, 0, 0, 0, 0, 0, 7] } ∧
    (monthlyData 0 1710504000000
        [{ id := 3, amount := 7, type := TxType.EXPENSE, categoryId := none, note := "",
           date := 1720000000000, userId := 1 }] 1).labels.length ≠ 12 := by
  decide

/-- A date in the window of twelve months gets one of the twelve keys. -/
theorem monthKey_mem_initMonths (tz now d : Int) (h1 : yearAgo tz now ≤ d)
    (h2 : d < firstDayOfMonth tz (localMonthIndex tz now + 1)) :
    monthKey tz d ∈ (initMonths tz now).keys := by
  rw [yearAgo_eq] at h1
  obtain ⟨b1, b2⟩ := localMonthIndex_bounds tz d _ _ h1 h2
  clear h1 h2
  rw [monthKey_eq_monthLabel, initMonths_eq, List.mem_map]
  generalize localMonthIndex tz d = a at b1 b2 ⊢
  generalize localMonthIndex tz now = m at b1 b2 ⊢
  refine ⟨(a - (m - 11)).toNat, ?_, ?_⟩
  · rw [List.mem_range]; omega
  · congr 1; omega

/-- The three arrays of `GET /monthly` have the same length; the labels start with
the twelve month keys set up first, so there are at least twelve; and there are
exactly those twelve when every fetched transaction is dated at or after `yearAgo`
and before the first day of the month after the local month of `now`. -/
theorem monthlyOverview_lengths (tz now : Int) (txs : List Transaction) :
    (monthlyOverview tz now txs).incomes.length = (monthlyOverview tz now txs).labels.length ∧
    (monthlyOverview tz now txs).expenses.length = (monthlyOverview tz now txs).labels.length ∧
    (∃ extra, (monthlyOverview tz now txs).labels = (initMonths tz now).keys ++ extra) ∧
    12 ≤ (monthlyOverview tz now txs).labels.length ∧
    ((∀ t ∈ txs, yearAgo tz now ≤ t.date ∧
          t.date < firstDayOfMonth tz (localMonthIndex tz now + 1)) →
      (monthlyOverview tz now txs).labels = (initMonths tz now).keys ∧
      (monthlyOverview tz now txs).labels.length = 12 ∧
      (monthlyOverview tz now txs).incomes.length = 12 ∧
      (monthlyOverview tz now txs).expenses.length = 12) := by
  obtain ⟨hl, hi, he⟩ := monthlyArrays_lengths (txs.foldl (monthlyStep tz) (initMonths tz now))
  obtain ⟨extra, hx⟩ := keys_foldl_monthlyStep tz txs (initMonths tz now)
  have h12 : (initMonths tz now).keys.length = 12 := initMonths_length tz now
  unfold monthlyOverview
  rw [hl, hi, he]
  refine ⟨rfl, rfl, ⟨extra, hx⟩, ?_, ?_⟩
  · rw [hx, List.length_append, h12]; omega
  · intro hw
    have hk : (txs.foldl (monthlyStep tz) (initMonths tz now)).keys = (initMonths tz now).keys :=
      keys_foldl_monthlyStep_of_mem tz txs _
        (fun t ht => monthKey_mem_initMonths tz now t.date (hw t ht).1 (hw t ht).2)
    rw [hk]
    exact ⟨rfl, h12, h12, h12⟩

/-- Twelve labels on concrete data: now is 2024-03-15 (UTC), one expense dated
2024-03-09. -/
theorem monthlyOverview_lengths_witness :
    (monthlyOverview 0 1710504000000
        [{ id := 2, amount := 150, type := TxType.EXPENSE, categoryId := some 1, note := "",
           date := 1710000000000, userId := 1 }]).labels.length = 12 :=
  ((monthlyOverview_lengths 0 1710504000000 _).2.2.2.2 (by decide)).2.1

/-! ## `getSimplifiedTrends` -/

namespace JsObject

theorem set_of_not_mem {α : Type} (o : JsObject α) (k : String) (v : α) (h : k ∉ o.keys) :
    o.set k v = o ++ [(k, v)] := by
  induction o with
  | nil => rfl
  | cons e rest ih =>
    obtain ⟨k1, v1⟩ := e
    unfold keys at ih h
    simp only [List.map_cons, List.mem_cons, not_or] at h
    have h1 : ¬ k1 = k := fun e => h.1 e.symm
    simp only [set, h1, if_false, List.cons_append, ih h.2]

theorem modify_modify {α : Type} (o : JsObject α) (k : String) (f g : α → α) :
    (o.modify k f).modify k g = o.modify k (fun x => g (f x)) := by
  induction o with
  | nil => rfl
  | cons e rest ih =>
    obtain ⟨k1, v1⟩ := e
    by_cases h : k1 = k <;> simp [modify, h, ih]

theorem modify_append_of_not_mem {α : Type} (o : JsObject α) (k : String) (v : α)
    (f : α → α) (h : k ∉ o.keys) :
    (o ++ [(k, v)]).modify k f = o ++ [(k, f v)] := by
  induction o with
  | nil => simp [modify]
  | cons e rest ih =>
    obtain ⟨k1, v1⟩ := e
    unfold keys at ih h
    simp only [List.map_cons, List.mem_cons, not_or] at h
    have h1 : ¬ k1 = k := fun e => h.1 e.symm
    simp only [List.cons_append, modify, h1, if_false, List.append_eq, ih h.2]

theorem get_modify {α : Type} (o : JsObject α) (k k2 : String) (f : α → α) :
    (o.modify k f).get k2 = if k = k2 then (o.get k).map f else o.get k2 := by
  induction o with
  | nil => simp [modify, get]
  | cons e rest ih =>
    obtain ⟨k1, v1⟩ := e
    by_cases h : k1 = k
    · subst h
      by_cases h2 : k1 = k2 <;> simp [modify, get, h2]
    · by_cases h2 : k1 = k2
      · subst h2
        have hk : ¬ k = k1 := fun e => h e.symm
        simp [modify, get, h, hk]
      · simp [modify, get, h, h2, ih]

theorem get_append_of_not_mem {α : Type} (o : JsObject α) (k k2 : String) (v : α)
    (h : k ∉ o.keys) :
    (o ++ [(k, v)]).get k2 = if k = k2 then some v else o.get k2 := by
  induction o with
  | nil => simp [get]
  | cons e rest ih =>
    obtain ⟨k1, v1⟩ := e
    unfold keys at ih h
    simp only [List.map_cons, List.mem_cons, not_or] at h
    by_cases h2 : k1 = k2
    · subst h2
      simp [get, h.1]
    · simp only [List.cons_append, get, h2, if_false, List.append_eq, ih h.2]

theorem get_of_mem {α : Type} (o : JsObject α) (k : String) (v : α) (hn : o.keys.Nodup)
    (h : (k, v) ∈ o) : o.get k = some v := by
  induction o with
  | nil => simp at h
  | cons e rest ih =>
    obtain ⟨k1, v1⟩ := e
    unfold keys at ih hn
    simp only [List.map_cons, List.nodup_cons, List.mem_map, not_exists, not_and] at hn
    rcases List.mem_cons.1 h with h1 | h1
    · simp only [Prod.mk.injEq] at h1
      simp [get, h1.1, h1.2]
    · have hne : ¬ k1 = k := fun e => hn.1 (k, v) h1 e.symm
      simp only [get, hne, if_false]
      exact ih hn.2 h1

end JsObject

/-- The three writes of `trendStep` amount to one update of the bucket of the
transaction, which is created with zeros when it is new. -/
theorem trendStep_eq {α : Type} (ar : Arith α) (tz : Int) (period : String)
    (o : JsObject (TrendAcc α)) (t : TransactionOf α) :
    trendStep ar tz period o t =
      if bucketKey tz period t.date ∈ o.keys then
        o.modify (bucketKey tz period t.date) (trendUpdate ar t)
      else o ++ [(bucketKey tz period t.date,
        trendUpdate ar t { income := ar.zero, expenses := ar.zero, net := ar.zero })] := by
  unfold trendStep
  simp only
  generalize bucketKey tz period t.date = key
  by_cases h : key ∈ o.keys
  · have hn : (o.get key).isNone = false := by
      have := (JsObject.get_isSome_iff o key).2 h
      cases hg : o.get key <;> simp_all
    rw [hn]
    simp only [Bool.false_eq_true, if_false, if_pos h]
    by_cases ht : t.type = TxType.INCOME
    · simp only [ht, if_true, JsObject.modify_modify]
      congr 1
      funext g
      simp [trendUpdate, ht]
    · simp only [ht, if_false, JsObject.modify_modify]
      congr 1
      funext g
      simp [trendUpdate, ht]
  · have hn : (o.get key).isNone = true := by
      rw [(JsObject.get_eq_none_iff o key).2 h]; rfl
    rw [hn]
    simp only [if_true, if_neg h, JsObject.set_of_not_mem o key _ h]
    by_cases ht : t.type = TxType.INCOME
    · simp [ht, JsObject.modify_append_of_not_mem _ _ _ _ h, trendUpdate]
    · simp [ht, JsObject.modify_append_of_not_mem _ _ _ _ h, trendUpdate]

theorem keys_trendStep {α : Type} (ar : Arith α) (tz : Int) (period : String)
    (o : JsObject (TrendAcc α)) (t : TransactionOf α) :
    (trendStep ar tz period o t).keys =
      if bucketKey tz period t.date ∈ o.keys then o.keys
      else o.keys ++ [bucketKey tz period t.date] := by
  rw [trendStep_eq]
  split_ifs
  · rw [JsObject.keys_modify]
  · simp [JsObject.keys]

theorem get_trendStep {α : Type} (ar : Arith α) (tz : Int) (period : String)
    (o : JsObject (TrendAcc α)) (t : TransactionOf α) (k : String) :
    (trendStep ar tz period o t).get k =
      if bucketKey tz period t.date = k then
        some (trendUpdate ar t
          ((o.get k).getD { income := ar.zero, expenses := ar.zero, net := ar.zero }))
      else o.get k := by
  rw [trendStep_eq]
  by_cases h : bucketKey tz period t.date ∈ o.keys
  · rw [if_pos h, JsObject.get_modify]
    by_cases hk : bucketKey tz period t.date = k
    · subst hk
      obtain ⟨g, hg⟩ := Option.isSome_iff_exists.1 ((JsObject.get_isSome_iff o _).2 h)
      simp [hg]
    · simp [hk]
  · rw [if_neg h, JsObject.get_append_of_not_mem _ _ _ _ h]
    by_cases hk : bucketKey tz period t.date = k
    · subst hk
      simp [(JsObject.get_eq_none_iff o _).2 h]
    · simp [hk]

theorem runningSum_append {α : Type} (ar : Arith α) (l : List α) (a : α) :
    runningSum ar (l ++ [a]) = ar.add (runningSum ar l) a := by
  unfold runningSum
  rw [List.foldl_append]
  rfl

theorem bucketIncome_append {α : Type} (ar : Arith α) (tz : Int) (period : String)
    (txs : List (TransactionOf α)) (t : TransactionOf α) (k : String) :
    bucketIncome ar tz period (txs ++ [t]) k =
      if t.type = TxType.INCOME ∧ bucketKey tz period t.date = k then
        ar.add (bucketIncome ar tz period txs k) t.amount
      else bucketIncome ar tz period txs k := by
  unfold bucketIncome
  rw [List.filter_append]
  by_cases h : t.type = TxType.INCOME ∧ bucketKey tz period t.date = k
  · rw [if_pos h]
    have : [t].filter (fun t => decide (t.type = TxType.INCOME ∧
        bucketKey tz period t.date = k)) = [t] := by simp [List.filter, h]
    rw [this, List.map_append, List.map_singleton, runningSum_append]
  · rw [if_neg h]
    have : [t].filter (fun t => decide (t.type = TxType.INCOME ∧
        bucketKey tz period t.date = k)) = [] := by simp [List.filter, h]
    rw [this, List.append_nil]

theorem bucketExpenses_append {α : Type} (ar : Arith α) (tz : Int) (period : String)
    (txs : List (TransactionOf α)) (t : TransactionOf α) (k : String) :
    bucketExpenses ar tz period (txs ++ [t]) k =
      if t.type ≠ TxType.INCOME ∧ bucketKey tz period t.date = k then
        ar.add (bucketExpenses ar tz period txs k) t.amount
      else bucketExpenses ar tz period txs k := by
  unfold bucketExpenses
  rw [List.filter_append]
  by_cases h : t.type ≠ TxType.INCOME ∧ bucketKey tz period t.date = k
  · rw [if_pos h]
    have : [t].filter (fun t => decide (t.type ≠ TxType.INCOME ∧
        bucketKey tz period t.date = k)) = [t] := by simp [List.filter, h]
    rw [this, List.map_append, List.map_singleton, runningSum_append]
  · rw [if_neg h]
    have : [t].filter (fun t => decide (t.type ≠ TxType.INCOME ∧
        bucketKey tz period t.date = k)) = [] := by simp [List.filter, h]
    rw [this, List.append_nil]

theorem bucket_sums_of_absent {α : Type} (ar : Arith α) (tz : Int) (period : String)
    (txs : List (TransactionOf α)) (k : String)
    (h : ¬ ∃ t ∈ txs, bucketKey tz period t.date = k) :
    bucketIncome ar tz period txs k = ar.zero ∧ bucketExpenses ar tz period txs k = ar.zero := by
  have hf : ∀ p : TransactionOf α → Prop, ∀ _ : DecidablePred p,
      txs.filter (fun t => decide (p t ∧ bucketKey tz period t.date = k)) = [] := by
    intro p _
    rw [List.filter_eq_nil_iff]
    intro t ht
    simp only [decide_eq_true_eq, not_and]
    intro _ hk
    exact h ⟨t, ht, hk⟩
  unfold bucketIncome bucketExpenses
  rw [hf (fun t => t.type = TxType.INCOME) inferInstance,
    hf (fun t => t.type ≠ TxType.INCOME) inferInstance]
  exact ⟨rfl, rfl⟩

/-- After the loop, the bucket `k` holds the running sums of the transactions with
that key, and exists only if there is one. -/
theorem get_foldl_trendStep {α : Type} (ar : Arith α) (tz : Int) (period : String)
    (txs : List (TransactionOf α)) (k : String) :
    (txs.foldl (trendStep ar tz period) []).get k =
      if ∃ t ∈ txs, bucketKey tz period t.date = k then
        some { income := bucketIncome ar tz period txs k
               expenses := bucketExpenses ar tz period txs k
               net := ar.sub (bucketIncome ar tz period txs k)
                 (bucketExpenses ar tz period txs k) }
      else none := by
  induction txs using List.reverseRecOn with
  | nil => simp [JsObject.get]
  | append_singleton txs t ih =>
    rw [List.foldl_append, List.foldl_cons, List.foldl_nil, get_trendStep, ih,
      bucketIncome_append, bucketExpenses_append]
    by_cases hk : bucketKey tz period t.date = k
    · have hex : ∃ u ∈ txs ++ [t], bucketKey tz period u.date = k := ⟨t, by simp, hk⟩
      rw [if_pos hk, if_pos hex]
      by_cases hold : ∃ u ∈ txs, bucketKey tz period u.date = k
      · rw [if_pos hold]
        by_cases ht : t.type = TxType.INCOME
        · simp [trendUpdate, ht, hk]
        · simp [trendUpdate, ht, hk]
      · rw [if_neg hold]
        obtain ⟨z1, z2⟩ := bucket_sums_of_absent ar tz period txs k hold
        rw [z1, z2]
        by_cases ht : t.type = TxType.INCOME
        · simp [trendUpdate, ht, hk]
        · simp [trendUpdate, ht, hk]
    · rw [if_neg hk]
      have hiff : (∃ u ∈ txs ++ [t], bucketKey tz period u.date = k) ↔
          ∃ u ∈ txs, bucketKey tz period u.date = k := by
        constructor
        · rintro ⟨u, hu, huk⟩
          rcases List.mem_append.1 hu with h1 | h1
          · exact ⟨u, h1, huk⟩
          · simp only [List.mem_singleton] at h1
            exact absurd (h1 ▸ huk) hk
        · rintro ⟨u, hu, huk⟩
          exact ⟨u, List.mem_append_left _ hu, huk⟩
      simp only [hiff, hk, and_false, if_false]

theorem nodup_keys_foldl_trendStep {α : Type} (ar : Arith α) (tz : Int) (period : String)
    (txs : List (TransactionOf α)) :
    (txs.foldl (trendStep ar tz period) []).keys.Nodup := by
  induction txs using List.reverseRecOn with
  | nil => simp [JsObject.keys]
  | append_singleton txs t ih =>
    rw [List.foldl_append, List.foldl_cons, List.foldl_nil, keys_trendStep]
    split_ifs with h
    · exact ih
    · exact List.Nodup.append ih (List.nodup_singleton _) (by simpa using h)

theorem mem_keys_foldl_trendStep {α : Type} (ar : Arith α) (tz : Int) (period : String)
    (txs : List (TransactionOf α)) (k : String) :
    k ∈ (txs.foldl (trendStep ar tz period) []).keys ↔
      ∃ t ∈ txs, bucketKey tz period t.date = k := by
  rw [← JsObject.get_isSome_iff, get_foldl_trendStep]
  split_ifs with h <;> simp [h]

theorem groupByPeriod_periods {α : Type} (ar : Arith α) (tz : Int) (period : String)
    (txs : List (TransactionOf α)) :
    (groupByPeriod ar tz period txs).map (fun e => e.period)
      = (txs.foldl (trendStep ar tz period) []).keys := by
  unfold groupByPeriod JsObject.keys
  rw [List.map_map]
  rfl

/-- The function `getSimplifiedTrends` is the grouping applied to the transactions
fetched. -/
theorem getSimplifiedTrends_eq {α : Type} (ar : Arith α) (tz : Int)
    (db : List (TransactionOf α)) (userId : Nat) (categoryId : Option Nat) (period : String) :
    getSimplifiedTrends ar tz db userId categoryId period
      = groupByPeriod ar tz period (findManyForTrends db userId categoryId) := rfl

/-! ### With exact arithmetic the totals add up -/

theorem trendTotal_modify (o : JsObject (TrendAcc Int)) (k : String)
    (f : TrendAcc Int → TrendAcc Int) (a : Int)
    (hf : ∀ g, (f g).income + (f g).expenses = g.income + g.expenses + a)
    (h : k ∈ o.keys) : trendTotal (o.modify k f) = trendTotal o + a := by
  induction o with
  | nil => simp [JsObject.keys] at h
  | cons e rest ih =>
    obtain ⟨k1, v1⟩ := e
    unfold trendTotal at ih ⊢
    by_cases h1 : k1 = k
    · simp only [JsObject.modify, h1, if_true, List.map_cons, List.sum_cons, hf]
      ring
    · have hr : k ∈ JsObject.keys rest := by
        unfold JsObject.keys at h ⊢
        simp only [List.map_cons, List.mem_cons] at h
        rcases h with h | h
        · exact absurd h.symm h1
        · exact h
      simp only [JsObject.modify, h1, if_false, List.map_cons, List.sum_cons, ih hr]
      ring

theorem trendUpdate_total (t : Transaction) (g : TrendAcc Int) :
    (trendUpdate exactArith t g).income + (trendUpdate exactArith t g).expenses =
      g.income + g.expenses + t.amount := by
  unfold trendUpdate exactArith
  split_ifs <;> simp <;> ring

theorem trendTotal_trendStep (tz : Int) (period : String) (o : JsObject (TrendAcc Int))
    (t : Transaction) :
    trendTotal (trendStep exactArith tz period o t) = trendTotal o + t.amount := by
  rw [trendStep_eq]
  split_ifs with h
  · exact trendTotal_modify o _ _ _ (trendUpdate_total t) h
  · unfold trendTotal
    rw [List.map_append, List.sum_append]
    have := trendUpdate_total t { income := 0, expenses := 0, net := 0 }
    simp only [List.map_cons, List.map_nil, List.sum_cons, List.sum_nil, add_zero]
    have hz : exactArith.zero = 0 := rfl
    rw [hz, this]
    ring

theorem trendTotal_foldl_trendStep (tz : Int) (period : String) (txs : List Transaction) :
    trendTotal (txs.foldl (trendStep exactArith tz period) []) = sumAmounts txs := by
  induction txs using List.reverseRecOn with
  | nil => rfl
  | append_singleton txs t ih =>
    rw [List.foldl_append, List.foldl_cons, List.foldl_nil, trendTotal_trendStep, ih]
    unfold sumAmounts
    simp

/-- Were the amounts integers added exactly, the incomes plus the expenses over the
series would add up to the sum of all amounts. -/
theorem groupByPeriod_total_exact (tz : Int) (period : String) (txs : List Transaction) :
    ((groupByPeriod exactArith tz period txs).map (fun e => e.income + e.expenses)).sum =
      sumAmounts txs := by
  have := trendTotal_foldl_trendStep tz period txs
  unfold trendTotal at this
  unfold groupByPeriod
  rw [List.map_map]
  exact this

/-! ### The rounding of the doubles -/

/-- The helper `bitLength` counts the binary digits: `n` is below `2 ^ bitLength n n`
and, unless it is 0, at least half of that power. -/
theorem bitLength_spec (fuel n : Nat) (h : n ≤ fuel) :
    n < 2 ^ bitLength fuel n ∧ (n ≠ 0 → 2 ^ (bitLength fuel n - 1) ≤ n) := by
  induction fuel generalizing n with
  | zero =>
    have : n = 0 := by omega
    subst this
    simp [bitLength]
  | succ fuel ih =>
    unfold bitLength
    by_cases h0 : n = 0
    · simp [h0]
    · rw [if_neg h0]
      obtain ⟨a, b⟩ := ih (n / 2) (by omega)
      refine ⟨?_, fun _ => ?_⟩
      · rw [pow_succ]
        omega
      · rw [Nat.add_sub_cancel]
        by_cases h1 : n / 2 = 0
        · have : bitLength fuel (n / 2) = 0 := by
            rw [h1]; cases fuel <;> simp [bitLength]
          rw [this]
          simp
          omega
        · have hb := b h1
          have hpos : 0 < bitLength fuel (n / 2) := by
            by_contra hc
            have : bitLength fuel (n / 2) = 0 := by omega
            rw [this] at a
            simp at a
            exact h1 a
          obtain ⟨m, hm⟩ : ∃ m, bitLength fuel (n / 2) = m + 1 :=
            ⟨_, (Nat.succ_pred_eq_of_pos hpos).symm⟩
          rw [hm] at hb ⊢
          simp only [Nat.add_sub_cancel] at hb
          rw [pow_succ]
          omega

/-- An integer of magnitude below 2^53 is a double: adding such numbers is exact as
long as the sum stays below 2^53. -/
theorem roundDouble_of_small (x : Int) (h : x.natAbs < 2 ^ 53) : roundDouble x = x := by
  unfold roundDouble
  simp only [h, if_true]

/-! ### The sums of the entries -/

/-- C4 (as the code behaves): the additions of the grouping are those of JavaScript
numbers, which round, so the incomes plus the expenses over the series need not add
up to the sum of the input amounts.  Five expenses of one user, 2^53, 1 and 1 in
January 2024 and 1 and 1 in March 2024, grouped by month: the entry of January
reports 2^53 (each `+ 1` is rounded away) and the entry of March 2; the series adds
up to 2^53 + 2, while the sum of the five amounts is 2^53 + 4, which is a double
itself, and their running sum in the order fetched is 2^53. -/
theorem groupByPeriod_rounded_total :
    getSimplifiedTrends doubleArith 0
        [{ id := 1, amount := 9007199254740992, type := TxType.EXPENSE, categoryId := none,
           note := "", date := 1704227400000, userId := 1 },
         { id := 2, amount := 1, type := TxType.EXPENSE, categoryId := none, note := "",
           date := 1704267400000, userId := 1 },
         { id := 3, amount := 1, type := TxType.EXPENSE, categoryId := none, note := "",
           date := 1704367400000, userId := 1 },
         { id := 4, amount := 1, type := TxType.EXPENSE, categoryId := none, note := "",
           date := 1710000000000, userId := 1 },
         { id := 5, amount := 1, type := TxType.EXPENSE, categoryId := none, note := "",
           date := 1710100000000, userId := 1 }] 1 none "monthly"
      = [{ period := "2024-01", income := 0, expenses := 9007199254740992,
           net := -9007199254740992 },
         { period := "2024-03", income := 0, expenses := 2, net := -2 }] ∧
    runningSum doubleArith
        [doubleArith.add 0 9007199254740992, doubleArith.add 0 2] = 9007199254740994 ∧
    (9007199254740992 + 1 + 1 + 1 + 1 : Int) = 9007199254740996 ∧
    roundDouble 9007199254740996 = 9007199254740996 ∧
    runningSum doubleArith [9007199254740992, 1, 1, 1, 1] = 9007199254740992 := by
  decide

/-- C4 (amended): whatever the arithmetic of the amounts, every entry of
`getSimplifiedTrends` carries, for its bucket key, as `income` the running sum
`0 + a1 + a2 + ...` of the amounts of the INCOME transactions with that key, added
in the order fetched, as `expenses` the running sum of the amounts of the other
transactions with that key, and as `net` the difference `income - expenses`; the
keys are pairwise distinct and every transaction has its key among them, so it is
counted in exactly one entry. -/
theorem groupByPeriod_sums {α : Type} (ar : Arith α) (tz : Int) (period : String)
    (txs : List (TransactionOf α)) :
    (∀ e ∈ groupByPeriod ar tz period txs,
      e.income = runningSum ar ((txs.filter (fun t =>
          decide (t.type = TxType.INCOME ∧ bucketKey tz period t.date = e.period))).map
            (fun t => t.amount)) ∧
      e.expenses = runningSum ar ((txs.filter (fun t =>
          decide (t.type ≠ TxType.INCOME ∧ bucketKey tz period t.date = e.period))).map
            (fun t => t.amount)) ∧
      e.net = ar.sub e.income e.expenses) ∧
    ((groupByPeriod ar tz period txs).map (fun e => e.period)).Nodup ∧
    (∀ t ∈ txs,
      bucketKey tz period t.date ∈ (groupByPeriod ar tz period txs).map (fun e => e.period)) ∧
    (∀ (db : List (TransactionOf α)) (userId : Nat) (categoryId : Option Nat),
      getSimplifiedTrends ar tz db userId categoryId period =
        groupByPeriod ar tz period (findManyForTrends db userId categoryId)) := by
  refine ⟨?_, ?_, ?_, fun _ _ _ => rfl⟩
  · intro e he
    unfold groupByPeriod at he
    obtain ⟨p, hp, rfl⟩ := List.mem_map.1 he
    obtain ⟨k, g⟩ := p
    have hg := JsObject.get_of_mem _ k g (nodup_keys_foldl_trendStep ar tz period txs) hp
    rw [get_foldl_trendStep] at hg
    split_ifs at hg with hex
    · simp only [Option.some.injEq] at hg
      subst hg
      exact ⟨rfl, rfl, rfl⟩
  · rw [groupByPeriod_periods]
    exact nodup_keys_foldl_trendStep ar tz period txs
  · intro t ht
    rw [groupByPeriod_periods, mem_keys_foldl_trendStep]
    exact ⟨t, ht, rfl⟩

/-- C4 on concrete data: two transactions of one week and one of a later month,
grouped by month in UTC, with the arithmetic of the doubles. -/
theorem groupByPeriod_sums_witness :
    bucketKey 0 "monthly" 1704267400000 ∈
      (groupByPeriod doubleArith 0 "monthly"
        [{ id := 1, amount := 2000, type := TxType.INCOME, categoryId := none, note := "",
           date := 1704227400000, userId := 1 },
         { id := 2, amount := 150, type := TxType.EXPENSE, categoryId := some 1, note := "",
           date := 1704267400000, userId := 1 },
         { id := 3, amount := 7, type := TxType.EXPENSE, categoryId := some 2, note := "",
           date := 1720000000000, userId := 1 }]).map (fun e => e.period) :=
  (groupByPeriod_sums doubleArith 0 "monthly" _).2.2.1
    { id := 2, amount := 150, type := TxType.EXPENSE, categoryId := some 1, note := "",
      date := 1704267400000, userId := 1 } (by decide)

/-- C5, as stated, fails: with one transaction in January 2024 and one in March
2024, grouped by month in UTC, the series has the two entries of January and March
and no entry for February, the key of any date in between. -/
theorem groupByPeriod_gap :
    getSimplifiedTrends doubleArith 0
        [{ id := 1, amount := 2000, type := TxType.INCOME, categoryId := none, note := "",
           date := 1704227400000, userId := 1 },
         { id := 2, amount := 150, type := TxType.EXPENSE, categoryId := some 1, note := "",
           date := 1710000000000, userId := 1 }] 1 none "monthly"
      = [{ period := "2024-01", income := 2000, expenses := 0, net := 2000 },
         { period := "2024-03", income := 0, expenses := 150, net := -150 }] ∧
    bucketKey 0 "monthly" 1707000000000 = "2024-02" ∧
    (1704227400000 : Int) < 1707000000000 ∧ (1707000000000 : Int) < 1710000000000 := by
  decide

/-- C5, amended: the series of `getSimplifiedTrends` has an entry exactly for the
bucket keys of the transactions given: a bucket with at least one transaction is
present, a bucket without any is absent, and no transactions give an empty series. -/
theorem groupByPeriod_buckets {α : Type} (ar : Arith α) (tz : Int) (period : String)
    (txs : List (TransactionOf α)) :
    (∀ k : String, k ∈ (groupByPeriod ar tz period txs).map (fun e => e.period) ↔
      ∃ t ∈ txs, bucketKey tz period t.date = k) ∧
    groupByPeriod ar tz period [] = [] ∧
    (groupByPeriod ar tz period txs).length ≤ txs.length := by
  refine ⟨?_, rfl, ?_⟩
  · intro k
    rw [groupByPeriod_periods, mem_keys_foldl_trendStep]
  · have hn : ((groupByPeriod ar tz period txs).map (fun e => e.period)).Nodup := by
      rw [groupByPeriod_periods]
      exact nodup_keys_foldl_trendStep ar tz period txs
    have hsub : (groupByPeriod ar tz period txs).map (fun e => e.period)
        ⊆ txs.map (fun t => bucketKey tz period t.date) := by
      intro k hk
      rw [groupByPeriod_periods, mem_keys_foldl_trendStep] at hk
      obtain ⟨t, ht, hk⟩ := hk
      exact List.mem_map.2 ⟨t, ht, hk⟩
    have := (List.subperm_of_subset hn hsub).length_le
    simpa using this

/-! ## The same keys when the local and the UTC calendar are compared -/

/-- The method `setDate` moves a date by whole days and keeps the time of day. -/
theorem setDate_eq (tz t dt : Int) : setDate tz t dt = t + (dt - getDate tz t) * msPerDay := by
  obtain ⟨m0, m1⟩ := getMonth_range tz t
  unfold getMonth at m0 m1
  unfold setDate getDate DateFromTime DayWithinYear MakeDay MakeDate UTC
  simp only
  have e : 12 * (YearFromTime (LocalTime tz t) + MonthFromTime (LocalTime tz t) / 12)
      + MonthFromTime (LocalTime tz t) % 12
      = 12 * YearFromTime (LocalTime tz t) + MonthFromTime (LocalTime tz t) := by omega
  rw [e, monthStartDay_eq _ _ m0 m1]
  unfold InLeapYear TimeWithinDay Day LocalTime msPerDay
  generalize DayFromYear (YearFromTime (t + LocalTZA tz)) = a
  generalize monthStartInYear (MonthFromTime (t + LocalTZA tz))
    (leapOfYear (YearFromTime (t + LocalTZA tz))) = b
  generalize LocalTZA tz = z
  omega

/-- The instant `weekStart` of the weekly key: as many whole days before the date as
the local day of the week says. -/
theorem weekStart_eq (tz t : Int) :
    setDate tz t (getDate tz t - getDay tz t) = t - getDay tz t * msPerDay := by
  rw [setDate_eq]
  ring

/-- On a server in UTC the instant `weekStart` falls on a Sunday, at most six days
before the date and never after it, and two dates of one Sunday-to-Saturday week get
the same day. -/
theorem weekStart_utc (t : Int) :
    WeekDay (setDate 0 t (getDate 0 t - getDay 0 t)) = 0 ∧
    Day (setDate 0 t (getDate 0 t - getDay 0 t)) ≤ Day t ∧
    Day t ≤ Day (setDate 0 t (getDate 0 t - getDay 0 t)) + 6 ∧
    Day (setDate 0 t (getDate 0 t - getDay 0 t)) = 7 * ((Day t + 4) / 7) - 4 := by
  rw [weekStart_eq]
  unfold getDay WeekDay Day LocalTime LocalTZA msPerDay msPerMinute
  refine ⟨?_, ?_, ?_, ?_⟩ <;> omega

/-- The UTC month of the instant `date` of `getMonthlyTrends`, local midnight of the
first day of local month `k`: month `k` itself on a server at or west of UTC (by
less than a day), the month before on a server east of UTC (by a day at most). -/
theorem utc_month_of_firstDayOfMonth (tz k : Int) :
    (-1440 < tz → tz ≤ 0 → localMonthIndex 0 (firstDayOfMonth tz k) = k) ∧
    (0 < tz → tz ≤ 1440 → localMonthIndex 0 (firstDayOfMonth tz k) = k - 1) := by
  have h1 := monthStartDay_succ k
  have h2 := monthStartDay_succ (k - 1)
  rw [Int.sub_add_cancel] at h2
  constructor
  · intro ha hb
    rw [localMonthIndex_eq_iff]
    unfold firstDayOfMonth UTC MakeDate LocalTZA msPerDay msPerMinute
    generalize monthStartDay k = a at h1 h2
    generalize monthStartDay (k + 1) = b at h1
    constructor <;> omega
  · intro ha hb
    rw [localMonthIndex_eq_iff, Int.sub_add_cancel]
    unfold firstDayOfMonth UTC MakeDate LocalTZA msPerDay msPerMinute
    generalize monthStartDay k = a at h1 h2
    generalize monthStartDay (k - 1) = c at h2
    constructor <;> omega

/-! ## Local time against UTC in the keys -/

/-- C6 fails on the code.  Server five and a half hours east of UTC: a transaction
at 2024-01-02T20:30Z is on Wednesday 2024-01-03, 02:00 local time; the Sunday that
starts its week is 2023-12-31, but the key is 2023-12-30, a Saturday; a transaction
of the same local Wednesday at 10:00 gets the key 2023-12-31, so one week has two
keys.  Server five hours west of UTC: a transaction on Sunday 2024-01-07, 22:00
local time gets the key 2024-01-08, a Monday, after its own date. -/
theorem weekly_key_offset_example :
    (getFullYear 330 1704227400000, getMonth 330 1704227400000, getDate 330 1704227400000,
      getDay 330 1704227400000) = (2024, 0, 3, 3) ∧
    bucketKey 330 "weekly" 1704227400000 = "2023-12-30" ∧
    WeekDay (MakeDate (MakeDay 2023 11 30) 0) = 6 ∧
    (getFullYear 330 1704256200000, getMonth 330 1704256200000, getDate 330 1704256200000,
      getDay 330 1704256200000) = (2024, 0, 3, 3) ∧
    bucketKey 330 "weekly" 1704256200000 = "2023-12-31" ∧
    (getFullYear (-300) 1704682800000, getMonth (-300) 1704682800000,
      getDate (-300) 1704682800000, getDay (-300) 1704682800000) = (2024, 0, 7, 0) ∧
    bucketKey (-300) "weekly" 1704682800000 = "2024-01-08" ∧
    WeekDay (MakeDate (MakeDay 2024 0 8) 0) = 1 := by
  decide

/-- C7 fails on the code.  Server five and a half hours east of UTC, now =
2024-03-15T12:00Z, one expense of 150 dated 2024-03-09 local time: the six entries
sum the local months October 2023 to March 2024, and are labelled 2023-09 to
2024-02; the expense of March is reported under the label 2024-02. -/
theorem monthly_label_offset_example :
    localMonthIndex 330 1710504000000 = 12 * 2024 + 2 ∧
    localMonthIndex 330 1710000000000 = 12 * 2024 + 2 ∧
    getMonthlyTrends 330 1710504000000
        [{ id := 2, amount := 150, type := TxType.EXPENSE, categoryId := some 1, note := "",
           date := 1710000000000, userId := 1 }] 1
      = [{ month := "2023-09", income := 0, expenses := 0, net := 0 },
         { month := "2023-10", income := 0, expenses := 0, net := 0 },
         { month := "2023-11", income := 0, expenses := 0, net := 0 },
         { month := "2023-12", income := 0, expenses := 0, net := 0 },
         { month := "2024-01", income := 0, expenses := 0, net := 0 },
         { month := "2024-02", income := 0, expenses := 150, net := -150 }] := by
  decide

/-! ## The summary of the dashboard -/

theorem orZero_aggregateSumSince (db : List Transaction) (userId : Nat) (ty : TxType)
    (gte : Int) :
    orZero (aggregateSumSince db userId ty gte) = sumAmounts (db.filter
      (fun t => decide (t.userId = userId ∧ t.type = ty ∧ gte ≤ t.date))) := by
  unfold aggregateSumSince
  simp only
  split_ifs with h
  · rw [List.isEmpty_iff] at h
    rw [h]; rfl
  · rfl

/-- The summary expression of `getDashboardStats` taken by itself: `netIncome` is
`totalIncome` minus `totalExpenses` for every pair of aggregate results and every
count; a sum that is `null` is reported as 0 and any other sum as it is; the totals
are the sums of the INCOME and of the EXPENSE amounts of the user since the start
date; and when the user has no transaction since the start date the expression is
all zeros.  Whether the handler gets as far as this expression is another matter. -/
theorem dashboardSummary_spec (totalIncome totalExpenses : Option Int) (count : Nat) :
    (dashboardSummary totalIncome totalExpenses count).netIncome =
      (dashboardSummary totalIncome totalExpenses count).totalIncome -
        (dashboardSummary totalIncome totalExpenses count).totalExpenses ∧
    (dashboardSummary totalIncome totalExpenses count).transactionCount = count ∧
    (dashboardSummary none totalExpenses count).totalIncome = 0 ∧
    (dashboardSummary totalIncome none count).totalExpenses = 0 ∧
    (∀ v : Int, (dashboardSummary (some v) totalExpenses count).totalIncome = v) ∧
    (∀ v : Int, (dashboardSummary totalIncome (some v) count).totalExpenses = v) ∧
    (∀ (db : List Transaction) (userId : Nat) (startDate : Int),
      (dashboardSummary (aggregateSumSince db userId TxType.INCOME startDate)
          (aggregateSumSince db userId TxType.EXPENSE startDate)
          (countSince db userId startDate)).totalIncome
        = sumAmounts (db.filter (fun t =>
            decide (t.userId = userId ∧ t.type = TxType.INCOME ∧ startDate ≤ t.date))) ∧
      (dashboardSummary (aggregateSumSince db userId TxType.INCOME startDate)
          (aggregateSumSince db userId TxType.EXPENSE startDate)
          (countSince db userId startDate)).totalExpenses
        = sumAmounts (db.filter (fun t =>
            decide (t.userId = userId ∧ t.type = TxType.EXPENSE ∧ startDate ≤ t.date)))) ∧
    (∀ (db : List Transaction) (userId : Nat) (startDate : Int),
      (∀ t ∈ db, t.userId = userId → t.date < startDate) →
      dashboardSummary (aggregateSumSince db userId TxType.INCOME startDate)
          (aggregateSumSince db userId TxType.EXPENSE startDate)
          (countSince db userId startDate)
        = { totalIncome := 0, totalExpenses := 0, netIncome := 0, transactionCount := 0 }) := by
  refine ⟨rfl, rfl, rfl, rfl, fun _ => rfl, fun _ => rfl, ?_, ?_⟩
  · intro db userId startDate
    exact ⟨orZero_aggregateSumSince db userId _ startDate,
      orZero_aggregateSumSince db userId _ startDate⟩
  · intro db userId startDate h
    have hf : ∀ ty : TxType, db.filter
        (fun t => decide (t.userId = userId ∧ t.type = ty ∧ startDate ≤ t.date)) = [] := by
      intro ty
      rw [List.filter_eq_nil_iff]
      intro t ht
      simp only [decide_eq_true_eq, not_and, not_le]
      intro hu _
      exact h t ht hu
    have hc : db.filter (fun t => decide (t.userId = userId ∧ startDate ≤ t.date)) = [] := by
      rw [List.filter_eq_nil_iff]
      intro t ht
      simp only [decide_eq_true_eq, not_and, not_le]
      intro hu
      exact h t ht hu
    unfold dashboardSummary aggregateSumSince countSince
    simp only [hf, hc]
    rfl

/-- The summary expression on concrete data: the only transaction in the table
belongs to another user. -/
theorem dashboardSummary_spec_witness :
    dashboardSummary
        (aggregateSumSince
          [{ id := 1, amount := 2000, type := TxType.INCOME, categoryId := none, note := "",
             date := 1704227400000, userId := 2 }] 1 TxType.INCOME 1700000000000)
        (aggregateSumSince
          [{ id := 1, amount := 2000, type := TxType.INCOME, categoryId := none, note := "",
             date := 1704227400000, userId := 2 }] 1 TxType.EXPENSE 1700000000000)
        (countSince
          [{ id := 1, amount := 2000, type := TxType.INCOME, categoryId := none, note := "",
             date := 1704227400000, userId := 2 }] 1 1700000000000)
      = { totalIncome := 0, totalExpenses := 0, netIncome := 0, transactionCount := 0 } :=
  (dashboardSummary_spec none none 0).2.2.2.2.2.2.2 _ 1 1700000000000 (by decide)

/-! ## `getOrSet` -/

/-- C9: when Redis is flagged unavailable, or there is no client, or the client
raises on every `get`, `getOrSet` runs the fetcher once on the world it was given
and returns exactly what the fetcher returns (its value, or its own failure); no
failure of the cache reaches the caller. -/
theorem getOrSet_fallback {R W V : Type} (codec : JsonCodec V) (redisAvailable : Bool)
    (redis : Option (RedisClient R)) (key : String) (ttlSeconds : Int)
    (fetcher : Fetcher W V) (r : R) (w : W)
    (h : redisAvailable = false ∨ redis = none ∨
      ∃ client, redis = some client ∧ ∀ k s, ∃ e, (client.get k s).1 = Except.error e) :
    (getOrSet codec redisAvailable redis key ttlSeconds fetcher r w).result = (fetcher w).1 ∧
    (getOrSet codec redisAvailable redis key ttlSeconds fetcher r w).world = (fetcher w).2 := by
  rcases h with h | h | ⟨client, hc, hraise⟩
  · subst h
    cases redis <;> exact ⟨rfl, rfl⟩
  · subst h
    cases redisAvailable <;> exact ⟨rfl, rfl⟩
  · subst hc
    cases redisAvailable
    · exact ⟨rfl, rfl⟩
    · obtain ⟨e, he⟩ := hraise key r
      unfold getOrSet
      simp only
      cases hg : client.get key r with
      | mk res r1 =>
        rw [hg] at he
        simp only at he
        subst he
        exact ⟨rfl, rfl⟩

/-- C9 on concrete data: a client that raises on every command, and a fetcher that
returns 42 and counts its invocations. -/
theorem getOrSet_fallback_witness :
    (getOrSet natCodec true (some failingClient) "analytics:user:1:monthly" 900
        (countingFetcher 42) () 0).result = Except.ok 42 ∧
    (getOrSet natCodec true (some failingClient) "analytics:user:1:monthly" 900
        (countingFetcher 42) () 0).world = 1 :=
  getOrSet_fallback natCodec true (some failingClient) "analytics:user:1:monthly" 900
    (countingFetcher 42) () 0 (Or.inr (Or.inr ⟨failingClient, rfl, fun _ _ => ⟨_, rfl⟩⟩))

theorem lookup_after_setex (s : RedisStore) (key text : String) (ttl dt : Int)
    (h0 : 0 ≤ dt) (h1 : dt < ttl * 1000) :
    (RedisStore.setex key ttl text s).1 = Except.ok () ∧
    (((RedisStore.setex key ttl text s).2).advance dt).lookup key = some text := by
  have hpos : ¬ ttl ≤ 0 := by omega
  unfold RedisStore.setex
  simp only [hpos, if_false]
  refine ⟨trivial, ?_⟩
  unfold RedisStore.advance RedisStore.lookup
  have hlt : s.clock + dt < s.clock + ttl * 1000 := by omega
  simp [List.find?, hlt]

/-- C10: with a working store, after a call of `getOrSet` that missed (no live
entry under the key, or an empty one), whose fetcher returned a value `v` that JSON
writes as a nonempty text and reads back as `v`, a second call for the same key made
less than `ttl` seconds later returns `v` whatever its fetcher is, and leaves the
outside world and the store as they were: the second fetcher is not run. -/
theorem getOrSet_second_call_hits {W V : Type} (codec : JsonCodec V) (key : String)
    (ttlSeconds : Int) (f g : Fetcher W V) (s : RedisStore) (w w2 : W) (v : V)
    (text : String) (dt : Int)
    (hmiss : s.lookup key = none ∨ s.lookup key = some "")
    (hf : (f w).1 = Except.ok v)
    (hs : codec.stringify v = Except.ok text) (hne : text ≠ "")
    (hp : codec.parse text = Except.ok v)
    (h0 : 0 ≤ dt) (h1 : dt < ttlSeconds * 1000) :
    (getOrSet codec true (some workingClient) key ttlSeconds f s w).result = Except.ok v ∧
    (getOrSet codec true (some workingClient) key ttlSeconds f s w).world = (f w).2 ∧
    (getOrSet codec true (some workingClient) key ttlSeconds g
      ((getOrSet codec true (some workingClient) key ttlSeconds f s w).store.advance dt)
      w2).result = Except.ok v ∧
    (getOrSet codec true (some workingClient) key ttlSeconds g
      ((getOrSet codec true (some workingClient) key ttlSeconds f s w).store.advance dt)
      w2).world = w2 ∧
    (getOrSet codec true (some workingClient) key ttlSeconds g
      ((getOrSet codec true (some workingClient) key ttlSeconds f s w).store.advance dt)
      w2).store = (getOrSet codec true (some workingClient) key ttlSeconds f s w).store.advance dt := by
  obtain ⟨hset, hlook⟩ := lookup_after_setex s key text ttlSeconds dt h0 h1
  have hfirst : getOrSet codec true (some workingClient) key ttlSeconds f s w
      = { result := Except.ok v, store := (RedisStore.setex key ttlSeconds text s).2,
          world := (f w).2 } := by
    cases hfw : f w with
    | mk res w1 =>
      rw [hfw] at hf
      simp only at hf
      subst hf
      cases hsx : RedisStore.setex key ttlSeconds text s with
      | mk res2 s2 =>
        rw [hsx] at hset
        simp only at hset
        subst hset
        unfold getOrSet
        rcases hmiss with hm | hm <;>
          simp [workingClient, hm, hfw, hs, hsx]
  have hsecond : getOrSet codec true (some workingClient) key ttlSeconds g
      ((RedisStore.setex key ttlSeconds text s).2.advance dt) w2
      = { result := Except.ok v, store := (RedisStore.setex key ttlSeconds text s).2.advance dt,
          world := w2 } := by
    unfold getOrSet
    simp [workingClient, hlook, hne, hp]
  rw [hfirst]
  dsimp only
  rw [hsecond]
  exact ⟨rfl, rfl, rfl, rfl, rfl⟩

/-- C10 on concrete data: an empty store, a first fetcher that returns 42, a time
to live of 900 seconds, and a second call 899.999 seconds later with a fetcher that
would return 99: it returns 42 and the count of invocations stays at 7. -/
theorem getOrSet_second_call_hits_witness :
    (getOrSet natCodec true (some workingClient) "analytics:user:1:monthly" 900
      (countingFetcher 99)
      ((getOrSet natCodec true (some workingClient) "analytics:user:1:monthly" 900
        (countingFetcher 42) { clock := 0, entries := [] } 0).store.advance 899999)
      7).result = Except.ok 42 ∧
    (getOrSet natCodec true (some workingClient) "analytics:user:1:monthly" 900
      (countingFetcher 99)
      ((getOrSet natCodec true (some workingClient) "analytics:user:1:monthly" 900
        (countingFetcher 42) { clock := 0, entries := [] } 0).store.advance 899999)
      7).world = 7 :=
  have h := getOrSet_second_call_hits natCodec "analytics:user:1:monthly" 900
    (countingFetcher 42) (countingFetcher 99) { clock := 0, entries := [] } 0 7 42 "42" 899999
    (Or.inl rfl) rfl rfl (by decide) rfl (by decide) (by decide)
  ⟨h.2.2.1, h.2.2.2.1⟩

/-! ## `delKeys` -/

namespace RedisStore

theorem mem_keys (s : RedisStore) (pattern k : String) :
    k ∈ s.keys pattern ↔
      ∃ e ∈ s.entries, e.1 = k ∧ s.clock < e.2.2 ∧ globMatch pattern k = true := by
  unfold keys
  rw [List.mem_dedup, List.mem_map]
  constructor
  · rintro ⟨e, he, rfl⟩
    rw [List.mem_filter] at he
    simp only [Bool.and_eq_true, decide_eq_true_eq] at he
    exact ⟨e, he.1, rfl, he.2.1, he.2.2⟩
  · rintro ⟨e, he, rfl, h1, h2⟩
    refine ⟨e, ?_, rfl⟩
    rw [List.mem_filter]
    simp only [Bool.and_eq_true, decide_eq_true_eq]
    exact ⟨he, h1, h2⟩

theorem lookup_eq_none_iff (s : RedisStore) (k : String) :
    s.lookup k = none ↔ ∀ e ∈ s.entries, e.1 = k → ¬ s.clock < e.2.2 := by
  unfold lookup
  rw [Option.map_eq_none', List.find?_eq_none]
  constructor
  · intro h e he hk hl
    exact h e he (by simp [hk, hl])
  · intro h e he
    simp only [decide_eq_true_eq, not_and]
    exact h e he

/-- An entry that is not live stays so as time passes. -/
theorem lookup_advance_eq_none (s : RedisStore) (k : String) (dt : Int) (h0 : 0 ≤ dt)
    (h : s.lookup k = none) : (s.advance dt).lookup k = none := by
  rw [lookup_eq_none_iff] at h ⊢
  intro e he hk
  have := h e he hk
  unfold advance
  simp only
  omega

theorem lookup_del_of_mem (s : RedisStore) (ks : List String) (k : String) (h : k ∈ ks) :
    (del ks s).2.lookup k = none := by
  rw [lookup_eq_none_iff]
  intro e he hk
  unfold del at he
  simp only [List.mem_filter, decide_eq_true_eq] at he
  exact absurd (hk ▸ h) he.2

theorem lookup_del_of_none (s : RedisStore) (ks : List String) (k : String)
    (h : s.lookup k = none) : (del ks s).2.lookup k = none := by
  rw [lookup_eq_none_iff] at h ⊢
  intro e he hk
  unfold del at he
  simp only [List.mem_filter, decide_eq_true_eq] at he
  exact h e he.1 hk

theorem find?_filter_of_imp {α : Type} (p q : α → Bool) (l : List α)
    (h : ∀ e, p e = true → q e = true) : (l.filter q).find? p = l.find? p := by
  induction l with
  | nil => rfl
  | cons e rest ih =>
    by_cases hq : q e = true
    · rw [List.filter_cons_of_pos hq, List.find?_cons, List.find?_cons, ih]
    · rw [List.filter_cons_of_neg hq, List.find?_cons, ih]
      have hp : p e = false := by
        cases hpe : p e
        · rfl
        · exact absurd (h e hpe) hq
      rw [hp]

theorem lookup_del_of_not_mem (s : RedisStore) (ks : List String) (k : String) (h : k ∉ ks) :
    (del ks s).2.lookup k = s.lookup k := by
  unfold del lookup
  simp only
  rw [find?_filter_of_imp]
  intro e he
  simp only [decide_eq_true_eq] at he ⊢
  exact he.1 ▸ h

end RedisStore

/-- With a working store `delKeys` leaves no live entry under a key that matches the
pattern. -/
theorem lookup_delKeys_of_match (s : RedisStore) (pattern k : String)
    (hm : globMatch pattern k = true) :
    (delKeys true (some workingClient) pattern s).lookup k = none := by
  unfold delKeys
  simp only [workingClient]
  by_cases hk : k ∈ s.keys pattern
  · have hne : (s.keys pattern).length ≠ 0 := by
      intro h0
      rw [List.length_eq_zero] at h0
      rw [h0] at hk
      simp at hk
    rw [if_pos hne]
    exact RedisStore.lookup_del_of_mem s _ k hk
  · have hnone : s.lookup k = none := by
      rw [RedisStore.lookup_eq_none_iff]
      intro e he hek hl
      exact hk ((RedisStore.mem_keys s pattern k).2 ⟨e, he, hek, hl, hm⟩)
    split_ifs
    · exact RedisStore.lookup_del_of_none s _ k hnone
    · exact hnone

/-- With a working store `delKeys` leaves the entries under the keys that do not
match the pattern as they are. -/
theorem lookup_delKeys_of_no_match (s : RedisStore) (pattern k : String)
    (hm : globMatch pattern k = false) :
    (delKeys true (some workingClient) pattern s).lookup k = s.lookup k := by
  unfold delKeys
  simp only [workingClient]
  split_ifs
  · apply RedisStore.lookup_del_of_not_mem
    intro hk
    obtain ⟨e, _, _, _, h⟩ := (RedisStore.mem_keys s pattern k).1 hk
    rw [hm] at h
    exact Bool.noConfusion h
  · rfl

/-- The clock is not moved by `delKeys`. -/
theorem clock_delKeys (s : RedisStore) (pattern : String) :
    (delKeys true (some workingClient) pattern s).clock = s.clock := by
  unfold delKeys
  simp only [workingClient]
  split_ifs <;> rfl

/-- On a miss with a working store `getOrSet` runs the fetcher and returns what its
last run returned: the first run, or a second one when the first raised or the value
could not be written or stored. -/
theorem getOrSet_of_miss {W V : Type} (codec : JsonCodec V) (key : String) (ttlSeconds : Int)
    (fetcher : Fetcher W V) (s : RedisStore) (w : W) (hmiss : s.lookup key = none) :
    ((getOrSet codec true (some workingClient) key ttlSeconds fetcher s w).result = (fetcher w).1 ∧
      (getOrSet codec true (some workingClient) key ttlSeconds fetcher s w).world = (fetcher w).2) ∨
    ((getOrSet codec true (some workingClient) key ttlSeconds fetcher s w).result
        = (fetcher (fetcher w).2).1 ∧
      (getOrSet codec true (some workingClient) key ttlSeconds fetcher s w).world
        = (fetcher (fetcher w).2).2) := by
  unfold getOrSet
  simp only [workingClient, hmiss]
  cases hfw : fetcher w with
  | mk res w1 =>
    cases res with
    | error e => right; exact ⟨rfl, rfl⟩
    | ok data =>
      simp only
      cases hs : codec.stringify data with
      | error e => right; exact ⟨rfl, rfl⟩
      | ok text =>
        simp only
        cases hx : RedisStore.setex key ttlSeconds text s with
        | mk res2 s2 =>
          cases res2 with
          | error e => right; exact ⟨rfl, rfl⟩
          | ok u => left; exact ⟨rfl, rfl⟩

theorem getOrSet_of_miss_stored {W V : Type} (codec : JsonCodec V) (key : String)
    (ttlSeconds : Int) (fetcher : Fetcher W V) (s : RedisStore) (w : W) (v : V) (text : String)
    (hmiss : s.lookup key = none) (hf : (fetcher w).1 = Except.ok v)
    (hs : codec.stringify v = Except.ok text) (ht : 0 < ttlSeconds) :
    (getOrSet codec true (some workingClient) key ttlSeconds fetcher s w).result = Except.ok v ∧
    (getOrSet codec true (some workingClient) key ttlSeconds fetcher s w).world = (fetcher w).2 ∧
    (getOrSet codec true (some workingClient) key ttlSeconds fetcher s w).store.lookup key
      = some text := by
  obtain ⟨hset, hlook⟩ := lookup_after_setex s key text ttlSeconds 0 (le_refl 0) (by omega)
  have hadv : ∀ s2 : RedisStore, s2.advance 0 = s2 := by
    intro s2
    unfold RedisStore.advance
    simp
  rw [hadv] at hlook
  cases hfw : fetcher w with
  | mk res w1 =>
    rw [hfw] at hf
    simp only at hf
    subst hf
    cases hsx : RedisStore.setex key ttlSeconds text s with
    | mk res2 s2 =>
      rw [hsx] at hset hlook
      simp only at hset hlook
      subst hset
      unfold getOrSet
      simp [workingClient, hmiss, hfw, hs, hsx, hlook]

/-- C11: with a working store, when the pattern matches `k` (whether or not a live
entry is held under `k`), after `delKeys(pattern)` no entry is held under `k`, then
or later; the
next `getOrSet(k, ttl, fetcher)` therefore runs the fetcher on the world as it is then
and returns what the fetcher returned (of its last run, when the first one raised or
the value could not be stored); when the fetcher returns a value that is written as
JSON and the time to live is positive, that value is returned after one run and is
stored under `k` again. -/
theorem delKeys_then_getOrSet {W V : Type} (codec : JsonCodec V) (s : RedisStore)
    (pattern k : String) (ttlSeconds : Int) (fetcher : Fetcher W V) (w : W)
    (hmatch : globMatch pattern k = true) :
    (delKeys true (some workingClient) pattern s).lookup k = none ∧
    (∀ dt : Int, 0 ≤ dt →
      ((delKeys true (some workingClient) pattern s).advance dt).lookup k = none) ∧
    (((getOrSet codec true (some workingClient) k ttlSeconds fetcher
          (delKeys true (some workingClient) pattern s) w).result = (fetcher w).1 ∧
        (getOrSet codec true (some workingClient) k ttlSeconds fetcher
          (delKeys true (some workingClient) pattern s) w).world = (fetcher w).2) ∨
      ((getOrSet codec true (some workingClient) k ttlSeconds fetcher
          (delKeys true (some workingClient) pattern s) w).result = (fetcher (fetcher w).2).1 ∧
        (getOrSet codec true (some workingClient) k ttlSeconds fetcher
          (delKeys true (some workingClient) pattern s) w).world = (fetcher (fetcher w).2).2)) ∧
    (∀ (v : V) (text : String), (fetcher w).1 = Except.ok v →
      codec.stringify v = Except.ok text → 0 < ttlSeconds →
      (getOrSet codec true (some workingClient) k ttlSeconds fetcher
          (delKeys true (some workingClient) pattern s) w).result = Except.ok v ∧
      (getOrSet codec true (some workingClient) k ttlSeconds fetcher
          (delKeys true (some workingClient) pattern s) w).world = (fetcher w).2 ∧
      (getOrSet codec true (some workingClient) k ttlSeconds fetcher
          (delKeys true (some workingClient) pattern s) w).store.lookup k = some text) := by
  have hnone := lookup_delKeys_of_match s pattern k hmatch
  refine ⟨hnone, ?_, getOrSet_of_miss codec k ttlSeconds fetcher _ w hnone, ?_⟩
  · intro dt hdt
    exact RedisStore.lookup_advance_eq_none _ k dt hdt hnone
  · intro v text hf hs ht
    exact getOrSet_of_miss_stored codec k ttlSeconds fetcher _ w v text hnone hf hs ht

/-- C11 on concrete data: the monthly analytics of user 1 are cached; the pattern of
the write handlers removes them, and the next call runs its fetcher (once) and
returns 42. -/
theorem delKeys_then_getOrSet_witness :
    (getOrSet natCodec true (some workingClient) "analytics:user:1:monthly" 900
        (countingFetcher 42)
        (delKeys true (some workingClient) "analytics:user:1:*"
          { clock := 0, entries := [("analytics:user:1:monthly", "7", 900000)] }) 0).result
      = Except.ok 42 ∧
    (getOrSet natCodec true (some workingClient) "analytics:user:1:monthly" 900
        (countingFetcher 42)
        (delKeys true (some workingClient) "analytics:user:1:*"
          { clock := 0, entries := [("analytics:user:1:monthly", "7", 900000)] }) 0).world = 1 :=
  have h := (delKeys_then_getOrSet natCodec
    { clock := 0, entries := [("analytics:user:1:monthly", "7", 900000)] }
    "analytics:user:1:*" "analytics:user:1:monthly" 900 (countingFetcher 42) 0
    (by decide)).2.2.2 42 "42" rfl rfl (by decide)
  ⟨h.1, h.2.1⟩

/-! ## Decimal numerals -/

theorem digitChar_isDigit (d : Nat) (h : d < 10) :
    (Nat.digitChar d).isDigit = true ∧ ((Nat.digitChar d).toNat : Int) - 48 = d := by
  interval_cases d <;> decide

/-- The numeral of a natural number consists of digits and has the number as its
value. -/
theorem toDigitsCore_spec (fuel n : Nat) (ds : List Char) (h : n < fuel) :
    ∃ pre : List Char, Nat.toDigitsCore 10 fuel n ds = pre ++ ds ∧ pre ≠ [] ∧
      (∀ c ∈ pre, c.isDigit = true) ∧ digitsValue pre = n := by
  induction fuel generalizing n ds with
  | zero => omega
  | succ fuel ih =>
    obtain ⟨hd1, hd2⟩ := digitChar_isDigit (n % 10) (Nat.mod_lt n (by decide))
    unfold Nat.toDigitsCore
    simp only
    by_cases h0 : n / 10 = 0
    · rw [if_pos h0]
      refine ⟨[Nat.digitChar (n % 10)], rfl, by simp, ?_, ?_⟩
      · intro c hc
        rw [List.mem_singleton] at hc
        rw [hc]; exact hd1
      · unfold digitsValue
        simp only [List.foldl_cons, List.foldl_nil]
        omega
    · rw [if_neg h0]
      obtain ⟨pre, e1, e2, e3, e4⟩ := ih (n / 10) (Nat.digitChar (n % 10) :: ds) (by omega)
      refine ⟨pre ++ [Nat.digitChar (n % 10)], by rw [e1]; simp, by simp, ?_, ?_⟩
      · intro c hc
        rcases List.mem_append.1 hc with hc | hc
        · exact e3 c hc
        · rw [List.mem_singleton] at hc
          rw [hc]; exact hd1
      · unfold digitsValue at e4 ⊢
        rw [List.foldl_append, e4]
        simp only [List.foldl_cons, List.foldl_nil]
        omega

theorem toString_nat_spec (n : Nat) :
    (toString n).data ≠ [] ∧ (∀ c ∈ (toString n).data, c.isDigit = true) ∧
      digitsValue (toString n).data = n := by
  obtain ⟨pre, e1, e2, e3, e4⟩ := toDigitsCore_spec (n + 1) n [] (by omega)
  have e : (toString n).data = pre := by
    show (Nat.repr n).data = pre
    unfold Nat.repr Nat.toDigits
    rw [e1]
    simp [List.asString]
  rw [e]
  exact ⟨e2, e3, e4⟩

theorem toString_nat_injective (a b : Nat) (h : toString a = toString b) : a = b := by
  have ha := (toString_nat_spec a).2.2
  have hb := (toString_nat_spec b).2.2
  rw [h] at ha
  have : (a : Int) = b := by rw [← ha, ← hb]
  exact_mod_cast this

/-! ## Patterns that end with a star -/

theorem plainChar_of_isDigit (c : Char) (h : c.isDigit = true) : plainChar c := by
  unfold plainChar
  refine ⟨?_, ?_, ?_, ?_⟩ <;> intro hc <;> rw [hc] at h <;> exact absurd h (by decide)

theorem globAux_star (s : List Char) (fuel : Nat) (h : s.length + 2 ≤ fuel) :
    globAux fuel ['*'] s = true := by
  induction s generalizing fuel with
  | nil =>
    obtain ⟨f, rfl⟩ : ∃ f, fuel = f + 2 := ⟨fuel - 2, by simp at h; omega⟩
    simp [globAux]
  | cons c s ih =>
    obtain ⟨f, rfl⟩ : ∃ f, fuel = f + 1 := ⟨fuel - 1, by simp at h; omega⟩
    have := ih f (by simp at h; omega)
    simp [globAux, this]

theorem globAux_plain (pre p s : List Char) (fuel : Nat) (hp : ∀ c ∈ pre, plainChar c) :
    globAux (fuel + pre.length) (pre ++ p) (pre ++ s) = globAux fuel p s := by
  induction pre with
  | nil => rfl
  | cons c pre ih =>
    obtain ⟨h1, h2, h3, h4⟩ := hp c (by simp)
    have e : fuel + (c :: pre).length = (fuel + pre.length) + 1 := by simp; omega
    rw [e]
    simp only [List.cons_append, globAux, h1, h2, h3, h4, if_false, decide_True, Bool.true_and]
    exact ih (fun x hx => hp x (by simp [hx]))

/-- A pattern made of plain characters and a final star matches every key that starts
with those characters. -/
theorem globMatch_plain_star (pre rest : String) (hp : ∀ c ∈ pre.data, plainChar c) :
    globMatch (pre ++ "*") (pre ++ rest) = true := by
  unfold globMatch
  have l1 : (pre ++ "*").length = pre.data.length + 1 := by
    rw [String.length_append]; rfl
  have l2 : (pre ++ rest).length = pre.data.length + rest.data.length := by
    rw [String.length_append]; rfl
  have d1 : (pre ++ "*").data = pre.data ++ ['*'] := by
    rw [String.data_append]
  rw [l1, l2, d1, String.data_append]
  have ef : pre.data.length + 1 + (pre.data.length + rest.data.length) + 1
      = (rest.data.length + pre.data.length + 2) + pre.data.length := by
    omega
  rw [ef, globAux_plain _ _ _ _ hp]
  exact globAux_star _ _ (by omega)

/-! ## The write handlers of `routes/transactions.js` -/

theorem lookup_delKeys_of_none (s : RedisStore) (pattern k : String) (h : s.lookup k = none) :
    (delKeys true (some workingClient) pattern s).lookup k = none := by
  unfold delKeys
  simp only [workingClient]
  split_ifs
  · exact RedisStore.lookup_del_of_none s _ k h
  · exact h

theorem plain_user_pattern (head : String) (u : Nat) (hh : ∀ c ∈ head.data, plainChar c) :
    ∀ c ∈ (head ++ toString u ++ ":").data, plainChar c := by
  intro c hc
  simp only [String.data_append, List.mem_append] at hc
  rcases hc with (hc | hc) | hc
  · exact hh c hc
  · exact plainChar_of_isDigit c ((toString_nat_spec u).2.1 c hc)
  · rw [List.mem_singleton] at hc
    rw [hc]
    unfold plainChar
    decide

theorem plain_analytics_head : ∀ c ∈ ("analytics:user:" : String).data, plainChar c := by
  unfold plainChar
  decide

theorem plain_transactions_head : ∀ c ∈ ("transactions:user:" : String).data, plainChar c := by
  unfold plainChar
  decide

/-- With a working store the two invalidations of a write leave no entry of the user
under the two patterns. -/
theorem userEntriesGone_invalidateUser (s : RedisStore) (u : Nat) :
    userEntriesGone (invalidateUser true (some workingClient) u s) u := by
  intro rest dt hdt
  unfold invalidateUser
  constructor
  · apply RedisStore.lookup_advance_eq_none _ _ dt hdt
    apply lookup_delKeys_of_none
    have hm := globMatch_plain_star ("analytics:user:" ++ toString u ++ ":") rest
      (plain_user_pattern _ u plain_analytics_head)
    have e : "analytics:user:" ++ toString u ++ ":" ++ "*" = "analytics:user:" ++ toString u ++ ":*" := by
      rw [String.append_assoc ("analytics:user:" ++ toString u)]; rfl
    rw [e] at hm
    exact lookup_delKeys_of_match s _ _ hm
  · apply RedisStore.lookup_advance_eq_none _ _ dt hdt
    have hm := globMatch_plain_star ("transactions:user:" ++ toString u ++ ":") rest
      (plain_user_pattern _ u plain_transactions_head)
    have e : "transactions:user:" ++ toString u ++ ":" ++ "*"
        = "transactions:user:" ++ toString u ++ ":*" := by
      rw [String.append_assoc ("transactions:user:" ++ toString u)]; rfl
    rw [e] at hm
    exact lookup_delKeys_of_match _ _ _ hm

theorem permit_cases (u : AuthUser) :
    (permit [Role.ADMIN, Role.USER] (some u) = none ∧ u.role ≠ Role.READ_ONLY) ∨
    (permit [Role.ADMIN, Role.USER] (some u) = some 403 ∧ u.role = Role.READ_ONLY) := by
  obtain ⟨id, role⟩ := u
  cases role
  · left; exact ⟨rfl, fun h => Role.noConfusion h⟩
  · left; exact ⟨rfl, fun h => Role.noConfusion h⟩
  · right; exact ⟨rfl, rfl⟩

/-! ## When the write routes succeed -/

/-- A POST by an administrator or a user with a numeric amount and a valid type
succeeds: the row is added for the requester and the requester's keys are
invalidated. -/
theorem postTransaction_success {R : Type} (redisAvailable : Bool)
    (redis : Option (RedisClient R)) (now : Int) (u : AuthUser) (body : TxInput)
    (db : List Transaction) (r : R) (amount : Int) (type : TxType)
    (hr : u.role ≠ Role.READ_ONLY) (ha : body.amount = some amount)
    (ht : body.type = some type) :
    (postTransaction redisAvailable redis now (some u) body db r).response.status = 200 ∧
    (postTransaction redisAvailable redis now (some u) body db r).store =
      invalidateUser redisAvailable redis u.id r ∧
    (postTransaction redisAvailable redis now (some u) body db r).db =
      db ++ [{ id := nextId db, amount := amount, type := type, categoryId := body.categoryId,
               note := body.note, date := body.date.getD now, userId := u.id }] := by
  rcases permit_cases u with ⟨hp, _⟩ | ⟨_, h⟩
  · simp only [postTransaction, hp, ha, ht]
    exact ⟨trivial, trivial, trivial⟩
  · exact absurd h hr

/-- A PUT by an administrator, or by the user who owns the transaction, on a
transaction that exists succeeds: the row is rewritten and the keys of its owner are
invalidated. -/
theorem putTransaction_success {R : Type} (redisAvailable : Bool)
    (redis : Option (RedisClient R)) (u : AuthUser) (id : Nat) (patch : TxPatch)
    (db : List Transaction) (r : R) (existing : Transaction)
    (hr : u.role ≠ Role.READ_ONLY) (hf : findUnique db id = some existing)
    (ho : u.role = Role.ADMIN ∨ existing.userId = u.id) :
    (putTransaction redisAvailable redis (some u) id patch db r).response.status = 200 ∧
    (putTransaction redisAvailable redis (some u) id patch db r).store =
      invalidateUser redisAvailable redis existing.userId r ∧
    (putTransaction redisAvailable redis (some u) id patch db r).db =
      db.map (fun t => if t.id = id then applyPatch t patch else t) := by
  have hg : ¬ (u.role ≠ Role.ADMIN ∧ existing.userId ≠ u.id) := by
    rintro ⟨h1, h2⟩
    rcases ho with h | h
    · exact h1 h
    · exact h2 h
  rcases permit_cases u with ⟨hp, _⟩ | ⟨_, h⟩
  · simp only [putTransaction, hp, hf, hg, if_false]
    exact ⟨trivial, trivial, trivial⟩
  · exact absurd h hr

/-- A DELETE by an administrator, or by the user who owns the transaction, on a
transaction that exists succeeds: the row is removed and the keys of its owner are
invalidated. -/
theorem deleteTransaction_success {R : Type} (redisAvailable : Bool)
    (redis : Option (RedisClient R)) (u : AuthUser) (id : Nat)
    (db : List Transaction) (r : R) (existing : Transaction)
    (hr : u.role ≠ Role.READ_ONLY) (hf : findUnique db id = some existing)
    (ho : u.role = Role.ADMIN ∨ existing.userId = u.id) :
    (deleteTransaction redisAvailable redis (some u) id db r).response.status = 200 ∧
    (deleteTransaction redisAvailable redis (some u) id db r).store =
      invalidateUser redisAvailable redis existing.userId r ∧
    (deleteTransaction redisAvailable redis (some u) id db r).db =
      db.filter (fun t => decide (t.id ≠ id)) := by
  have hg : ¬ (u.role ≠ Role.ADMIN ∧ existing.userId ≠ u.id) := by
    rintro ⟨h1, h2⟩
    rcases ho with h | h
    · exact h1 h
    · exact h2 h
  rcases permit_cases u with ⟨hp, _⟩ | ⟨_, h⟩
  · simp only [deleteTransaction, hp, hf, hg, if_false]
    exact ⟨trivial, trivial, trivial⟩
  · exact absurd h hr

/-- C13: with a working cache store, a POST, PUT or DELETE of `routes/transactions.js`
that succeeds (status 200) leaves no entry, then or later, under a key that starts
with `analytics:user:<u>:` or `transactions:user:<u>:`, where `u` is the owner of the
transaction: the requester for a POST, and `existing.userId` for a PUT or a DELETE,
whoever the requester is.  And the routes do succeed: a POST by an administrator or
a user with a numeric amount and a valid type, and a PUT or a DELETE of an existing
transaction by an administrator (whatever the owner) or by its owner, are answered
200, write the table and invalidate the keys of the owner. -/
theorem write_routes_invalidate (now : Int) (db : List Transaction) (s : RedisStore) :
    (∀ (user : Option AuthUser) (body : TxInput),
      (postTransaction true (some workingClient) now user body db s).response.status = 200 →
      ∃ (u : AuthUser) (tx : Transaction), user = some u ∧
        (postTransaction true (some workingClient) now user body db s).response.body
          = Except.ok tx ∧
        tx.userId = u.id ∧
        userEntriesGone (postTransaction true (some workingClient) now user body db s).store
          u.id) ∧
    (∀ (user : Option AuthUser) (id : Nat) (patch : TxPatch),
      (putTransaction true (some workingClient) user id patch db s).response.status = 200 →
      ∃ existing : Transaction, findUnique db id = some existing ∧
        userEntriesGone (putTransaction true (some workingClient) user id patch db s).store
          existing.userId) ∧
    (∀ (user : Option AuthUser) (id : Nat),
      (deleteTransaction true (some workingClient) user id db s).response.status = 200 →
      ∃ existing : Transaction, findUnique db id = some existing ∧
        userEntriesGone (deleteTransaction true (some workingClient) user id db s).store
          existing.userId) ∧
    (∀ (u : AuthUser) (body : TxInput) (amount : Int) (type : TxType),
      u.role ≠ Role.READ_ONLY → body.amount = some amount → body.type = some type →
      (postTransaction true (some workingClient) now (some u) body db s).response.status
          = 200 ∧
        (postTransaction true (some workingClient) now (some u) body db s).db =
          db ++ [{ id := nextId db, amount := amount, type := type,
                   categoryId := body.categoryId, note := body.note,
                   date := body.date.getD now, userId := u.id }] ∧
        userEntriesGone (postTransaction true (some workingClient) now (some u) body db s).store
          u.id) ∧
    (∀ (u : AuthUser) (id : Nat) (patch : TxPatch) (existing : Transaction),
      u.role ≠ Role.READ_ONLY → findUnique db id = some existing →
      (u.role = Role.ADMIN ∨ existing.userId = u.id) →
      (putTransaction true (some workingClient) (some u) id patch db s).response.status
          = 200 ∧
        (putTransaction true (some workingClient) (some u) id patch db s).db =
          db.map (fun t => if t.id = id then applyPatch t patch else t) ∧
        userEntriesGone (putTransaction true (some workingClient) (some u) id patch db s).store
          existing.userId) ∧
    (∀ (u : AuthUser) (id : Nat) (existing : Transaction),
      u.role ≠ Role.READ_ONLY → findUnique db id = some existing →
      (u.role = Role.ADMIN ∨ existing.userId = u.id) →
      (deleteTransaction true (some workingClient) (some u) id db s).response.status
          = 200 ∧
        (deleteTransaction true (some workingClient) (some u) id db s).db =
          db.filter (fun t => decide (t.id ≠ id)) ∧
        userEntriesGone (deleteTransaction true (some workingClient) (some u) id db s).store
          existing.userId) := by
  refine ⟨?_, ?_, ?_, ?_, ?_, ?_⟩
  · intro user body h
    cases user with
    | none => simp [postTransaction] at h
    | some u =>
      rcases permit_cases u with ⟨hp, _⟩ | ⟨hp, _⟩
      · cases ha : body.amount with
        | none => simp [postTransaction, hp, ha] at h
        | some amount =>
          cases ht : body.type with
          | none => simp [postTransaction, hp, ha, ht] at h
          | some type =>
            simp only [postTransaction, hp, ha, ht]
            exact ⟨u, _, rfl, rfl, rfl, userEntriesGone_invalidateUser s u.id⟩
      · simp [postTransaction, hp] at h
  · intro user id patch h
    cases user with
    | none => simp [putTransaction] at h
    | some u =>
      rcases permit_cases u with ⟨hp, _⟩ | ⟨hp, _⟩
      · cases hf : findUnique db id with
        | none => simp [putTransaction, hp, hf] at h
        | some existing =>
          by_cases hg : u.role ≠ Role.ADMIN ∧ existing.userId ≠ u.id
          · simp [putTransaction, hp, hf, hg] at h
          · simp only [putTransaction, hp, hf, hg, if_false]
            exact ⟨existing, rfl, userEntriesGone_invalidateUser s existing.userId⟩
      · simp [putTransaction, hp] at h
  · intro user id h
    cases user with
    | none => simp [deleteTransaction] at h
    | some u =>
      rcases permit_cases u with ⟨hp, _⟩ | ⟨hp, _⟩
      · cases hf : findUnique db id with
        | none => simp [deleteTransaction, hp, hf] at h
        | some existing =>
          by_cases hg : u.role ≠ Role.ADMIN ∧ existing.userId ≠ u.id
          · simp [deleteTransaction, hp, hf, hg] at h
          · simp only [deleteTransaction, hp, hf, hg, if_false]
            exact ⟨existing, rfl, userEntriesGone_invalidateUser s existing.userId⟩
      · simp [deleteTransaction, hp] at h
  · intro u body amount type hr ha ht
    obtain ⟨h1, h2, h3⟩ := postTransaction_success true (some workingClient) now u body db s
      amount type hr ha ht
    refine ⟨h1, h3, ?_⟩
    rw [h2]
    exact userEntriesGone_invalidateUser s u.id
  · intro u id patch existing hr hf ho
    obtain ⟨h1, h2, h3⟩ := putTransaction_success true (some workingClient) u id patch db s
      existing hr hf ho
    refine ⟨h1, h3, ?_⟩
    rw [h2]
    exact userEntriesGone_invalidateUser s existing.userId
  · intro u id existing hr hf ho
    obtain ⟨h1, h2, h3⟩ := deleteTransaction_success true (some workingClient) u id db s
      existing hr hf ho
    refine ⟨h1, h3, ?_⟩
    rw [h2]
    exact userEntriesGone_invalidateUser s existing.userId

/-- C13 on concrete data, with the monthly analytics of user 1 cached: an
administrator (id 9) updates transaction 5 of user 1, user 1 creates a transaction,
and the administrator deletes transaction 5; each request is answered 200 and
leaves no entry of user 1. -/
theorem write_routes_invalidate_witness :
    ((putTransaction true (some workingClient) (some { id := 9, role := Role.ADMIN }) 5
        { amount := some 175, type := none, categoryId := none, note := none, date := none }
        [{ id := 5, amount := 150, type := TxType.EXPENSE, categoryId := some 1, note := "",
           date := 1710000000000, userId := 1 }]
        { clock := 0, entries := [("analytics:user:1:monthly", "7", 900000)] }).response.status
        = 200 ∧
      (putTransaction true (some workingClient) (some { id := 9, role := Role.ADMIN }) 5
        { amount := some 175, type := none, categoryId := none, note := none, date := none }
        [{ id := 5, amount := 150, type := TxType.EXPENSE, categoryId := some 1, note := "",
           date := 1710000000000, userId := 1 }]
        { clock := 0, entries := [("analytics:user:1:monthly", "7", 900000)] }).db =
        [{ id := 5, amount := 175, type := TxType.EXPENSE, categoryId := some 1, note := "",
           date := 1710000000000, userId := 1 }] ∧
      userEntriesGone
        (putTransaction true (some workingClient) (some { id := 9, role := Role.ADMIN }) 5
          { amount := some 175, type := none, categoryId := none, note := none, date := none }
          [{ id := 5, amount := 150, type := TxType.EXPENSE, categoryId := some 1, note := "",
             date := 1710000000000, userId := 1 }]
          { clock := 0, entries := [("analytics:user:1:monthly", "7", 900000)] }).store 1) ∧
    ((postTransaction true (some workingClient) 1710504000000
        (some { id := 1, role := Role.USER })
        { amount := some 25, type := some TxType.EXPENSE, categoryId := none, note := "",
          date := none } []
        { clock := 0, entries := [("analytics:user:1:monthly", "7", 900000)] }).response.status
        = 200 ∧
      userEntriesGone
        (postTransaction true (some workingClient) 1710504000000
          (some { id := 1, role := Role.USER })
          { amount := some 25, type := some TxType.EXPENSE, categoryId := none, note := "",
            date := none } []
          { clock := 0, entries := [("analytics:user:1:monthly", "7", 900000)] }).store 1) ∧
    ∃ existing : Transaction,
      findUnique
        [{ id := 5, amount := 150, type := TxType.EXPENSE, categoryId := some 1, note := "",
           date := 1710000000000, userId := 1 }] 5 = some existing ∧
      userEntriesGone
        (deleteTransaction true (some workingClient) (some { id := 9, role := Role.ADMIN }) 5
          [{ id := 5, amount := 150, type := TxType.EXPENSE, categoryId := some 1, note := "",
             date := 1710000000000, userId := 1 }]
          { clock := 0, entries := [("analytics:user:1:monthly", "7", 900000)] }).store
        existing.userId :=
  ⟨(write_routes_invalidate 0
      [{ id := 5, amount := 150, type := TxType.EXPENSE, categoryId := some 1, note := "",
         date := 1710000000000, userId := 1 }]
      { clock := 0, entries := [("analytics:user:1:monthly", "7", 900000)] }).2.2.2.2.1
      { id := 9, role := Role.ADMIN } 5
      { amount := some 175, type := none, categoryId := none, note := none, date := none }
      { id := 5, amount := 150, type := TxType.EXPENSE, categoryId := some 1, note := "",
        date := 1710000000000, userId := 1 }
      (by decide) (by decide) (Or.inl rfl),
   ((write_routes_invalidate 1710504000000 []
      { clock := 0, entries := [("analytics:user:1:monthly", "7", 900000)] }).2.2.2.1
      { id := 1, role := Role.USER }
      { amount := some 25, type := some TxType.EXPENSE, categoryId := none, note := "",
        date := none } 25 TxType.EXPENSE (by decide) rfl rfl).imp id And.right,
   (write_routes_invalidate 0
      [{ id := 5, amount := 150, type := TxType.EXPENSE, categoryId := some 1, note := "",
         date := 1710000000000, userId := 1 }]
      { clock := 0, entries := [("analytics:user:1:monthly", "7", 900000)] }).2.2.1
      (some { id := 9, role := Role.ADMIN }) 5 (by decide)⟩

/-! ## Who may update or delete -/

/-- C18: a PUT or DELETE of `routes/transactions.js` on an existing transaction by a
requester who is neither ADMIN nor the owner is answered 403 and changes neither the
transaction table nor the cache store, whatever the cache is; whenever one of the two
routes changes the table, the requester is an ADMIN or the owner of the
transaction. -/
theorem update_delete_owner_or_admin {R : Type} (redisAvailable : Bool)
    (redis : Option (RedisClient R)) (db : List Transaction) (r : R) (id : Nat) :
    (∀ (u : AuthUser) (existing : Transaction) (patch : TxPatch),
      findUnique db id = some existing → u.role ≠ Role.ADMIN → u.id ≠ existing.userId →
      (putTransaction redisAvailable redis (some u) id patch db r).response.status = 403 ∧
      (putTransaction redisAvailable redis (some u) id patch db r).db = db ∧
      (putTransaction redisAvailable redis (some u) id patch db r).store = r ∧
      (deleteTransaction redisAvailable redis (some u) id db r).response.status = 403 ∧
      (deleteTransaction redisAvailable redis (some u) id db r).db = db ∧
      (deleteTransaction redisAvailable redis (some u) id db r).store = r) ∧
    (∀ (user : Option AuthUser) (patch : TxPatch),
      (putTransaction redisAvailable redis user id patch db r).db ≠ db →
      ∃ (u : AuthUser) (existing : Transaction), user = some u ∧
        findUnique db id = some existing ∧ (u.role = Role.ADMIN ∨ u.id = existing.userId)) ∧
    (∀ user : Option AuthUser,
      (deleteTransaction redisAvailable redis user id db r).db ≠ db →
      ∃ (u : AuthUser) (existing : Transaction), user = some u ∧
        findUnique db id = some existing ∧ (u.role = Role.ADMIN ∨ u.id = existing.userId)) := by
  refine ⟨?_, ?_, ?_⟩
  · intro u existing patch hf hr hu
    have hg : u.role ≠ Role.ADMIN ∧ existing.userId ≠ u.id := ⟨hr, fun e => hu e.symm⟩
    rcases permit_cases u with ⟨hp, _⟩ | ⟨hp, _⟩
    · simp [putTransaction, deleteTransaction, hp, hf, hg]
    · simp [putTransaction, deleteTransaction, hp]
  · intro user patch h
    cases user with
    | none => exact absurd rfl h
    | some u =>
      rcases permit_cases u with ⟨hp, _⟩ | ⟨hp, _⟩
      · cases hf : findUnique db id with
        | none => simp [putTransaction, hp, hf] at h
        | some existing =>
          by_cases hg : u.role ≠ Role.ADMIN ∧ existing.userId ≠ u.id
          · simp [putTransaction, hp, hf, hg] at h
          · refine ⟨u, existing, rfl, rfl, ?_⟩
            by_cases ha : u.role = Role.ADMIN
            · exact Or.inl ha
            · right
              by_contra hne
              exact hg ⟨ha, fun e => hne e.symm⟩
      · simp [putTransaction, hp] at h
  · intro user h
    cases user with
    | none => exact absurd rfl h
    | some u =>
      rcases permit_cases u with ⟨hp, _⟩ | ⟨hp, _⟩
      · cases hf : findUnique db id with
        | none => simp [deleteTransaction, hp, hf] at h
        | some existing =>
          by_cases hg : u.role ≠ Role.ADMIN ∧ existing.userId ≠ u.id
          · simp [deleteTransaction, hp, hf, hg] at h
          · refine ⟨u, existing, rfl, rfl, ?_⟩
            by_cases ha : u.role = Role.ADMIN
            · exact Or.inl ha
            · right
              by_contra hne
              exact hg ⟨ha, fun e => hne e.symm⟩
      · simp [deleteTransaction, hp] at h

/-- C18 on concrete data: user 2 (role USER) tries to delete transaction 5 of
user 1. -/
theorem update_delete_owner_or_admin_witness :
    (deleteTransaction true (some workingClient) (some { id := 2, role := Role.USER }) 5
      [{ id := 5, amount := 150, type := TxType.EXPENSE, categoryId := some 1, note := "",
         date := 1710000000000, userId := 1 }]
      { clock := 0, entries := [("analytics:user:1:monthly", "7", 900000)] }).response.status
      = 403 :=
  ((update_delete_owner_or_admin true (some workingClient)
    [{ id := 5, amount := 150, type := TxType.EXPENSE, categoryId := some 1, note := "",
       date := 1710000000000, userId := 1 }]
    { clock := 0, entries := [("analytics:user:1:monthly", "7", 900000)] } 5).1
    { id := 2, role := Role.USER }
    { id := 5, amount := 150, type := TxType.EXPENSE, categoryId := some 1, note := "",
      date := 1710000000000, userId := 1 }
    { amount := none, type := none, categoryId := none, note := none, date := none }
    rfl (by decide) (by decide)).2.2.2.1

/-! ## The cache keys -/

theorem jsonEscape_plain (c : Char) (h1 : c ≠ '"') (h2 : c ≠ backslash) (h3 : 32 ≤ c.toNat) :
    jsonEscape c = [c] := by
  unfold jsonEscape
  rw [if_neg h1, if_neg h2, if_neg (by omega), if_neg (by omega), if_neg (by omega),
    if_neg (by omega), if_neg (by omega), if_neg (by omega)]

theorem jsonUnescape_control (n : Nat) (h : n < 32) (x : List Char) :
    jsonUnescape (jsonEscape (Char.ofNat n) ++ x) = some (Char.ofNat n, x) := by
  interval_cases n <;> rfl

/-- The escaped text of a character, followed by anything, reads back as that
character and what follows. -/
theorem jsonUnescape_jsonEscape (c : Char) (x : List Char) :
    jsonUnescape (jsonEscape c ++ x) = some (c, x) := by
  by_cases h1 : c = '"'
  · subst h1; rfl
  by_cases h2 : c = backslash
  · subst h2; rfl
  by_cases h3 : c.toNat < 32
  · have e : c = Char.ofNat c.toNat := (Char.ofNat_toNat c).symm
    rw [e]
    exact jsonUnescape_control c.toNat h3 x
  · rw [jsonEscape_plain c h1 h2 (by omega)]
    simp [jsonUnescape, h2]

theorem jsonEscape_injective (a b : Char) (x y : List Char)
    (h : jsonEscape a ++ x = jsonEscape b ++ y) : a = b ∧ x = y := by
  have ha := jsonUnescape_jsonEscape a x
  rw [h, jsonUnescape_jsonEscape] at ha
  simp only [Option.some.injEq, Prod.mk.injEq] at ha
  exact ⟨ha.1.symm, ha.2.symm⟩

theorem jsonEscape_head (c : Char) : ∃ h tl, jsonEscape c = h :: tl ∧ h ≠ '"' := by
  by_cases h1 : c = '"'
  · subst h1; exact ⟨backslash, ['"'], rfl, by decide⟩
  by_cases h2 : c = backslash
  · subst h2; exact ⟨backslash, [backslash], rfl, by decide⟩
  by_cases h3 : c.toNat < 32
  · have e : c = Char.ofNat c.toNat := (Char.ofNat_toNat c).symm
    have hb : ∀ n, n < 32 → ∃ h tl, jsonEscape (Char.ofNat n) = h :: tl ∧ h ≠ '"' := by
      intro n hn
      interval_cases n <;> exact ⟨backslash, _, rfl, by decide⟩
    rw [e]
    exact hb _ h3
  · exact ⟨c, [], jsonEscape_plain c h1 h2 (by omega), h1⟩

/-- The text of a JSON string, followed by anything, determines the string and what
follows. -/
theorem jsonQuote_injective (s t r1 r2 : List Char) (h : jsonQuote s ++ r1 = jsonQuote t ++ r2) :
    s = t ∧ r1 = r2 := by
  unfold jsonQuote at h
  simp only [List.cons_append, List.cons.injEq, true_and, List.append_assoc] at h
  induction s generalizing t with
  | nil =>
    cases t with
    | nil =>
      simp only [jsonEscapeAll, List.nil_append, List.singleton_append, List.cons.injEq,
        true_and] at h
      exact ⟨rfl, h⟩
    | cons b t =>
      obtain ⟨hd, tl, e, hne⟩ := jsonEscape_head b
      simp only [jsonEscapeAll, List.nil_append, List.singleton_append, e, List.cons_append,
        List.cons.injEq] at h
      exact absurd h.1.symm hne
  | cons a s ih =>
    cases t with
    | nil =>
      obtain ⟨hd, tl, e, hne⟩ := jsonEscape_head a
      simp only [jsonEscapeAll, List.nil_append, List.singleton_append, e, List.cons_append,
        List.cons.injEq] at h
      exact absurd h.1 hne
    | cons b t =>
      simp only [jsonEscapeAll, List.append_assoc] at h
      obtain ⟨e1, e2⟩ := jsonEscape_injective a b _ _ h
      obtain ⟨e3, e4⟩ := ih t e2
      exact ⟨by rw [e1, e3], e4⟩

theorem jsonFields_head (l : List (String × Option String)) :
    jsonFields l = ['}'] ∨
      ∃ (name : String) (v tl : List Char), name ∈ l.map Prod.fst ∧
        jsonFields l = ',' :: (jsonQuote name.data ++ (':' :: (jsonQuote v ++ tl))) := by
  induction l with
  | nil => left; rfl
  | cons e rest ih =>
    obtain ⟨name, v⟩ := e
    cases v with
    | none =>
      rcases ih with h | ⟨n, v, tl, hn, h⟩
      · left; exact h
      · right; exact ⟨n, v, tl, by simp [hn], h⟩
    | some v => right; exact ⟨name, v.data, _, by simp, rfl⟩

/-- Two lists of properties with the same names, no name twice, that are written the
same have the same values. -/
theorem jsonFields_injective (l1 l2 : List (String × Option String))
    (hn : l1.map Prod.fst = l2.map Prod.fst) (hd : (l1.map Prod.fst).Nodup)
    (h : jsonFields l1 = jsonFields l2) : l1 = l2 := by
  induction l1 generalizing l2 with
  | nil =>
    cases l2 with
    | nil => rfl
    | cons e rest => simp at hn
  | cons e1 rest1 ih =>
    cases l2 with
    | nil => simp at hn
    | cons e2 rest2 =>
      obtain ⟨n1, v1⟩ := e1
      obtain ⟨n2, v2⟩ := e2
      simp only [List.map_cons, List.cons.injEq] at hn
      obtain ⟨hn1, hn2⟩ := hn
      subst hn1
      simp only [List.map_cons, List.nodup_cons] at hd
      obtain ⟨hd1, hd2⟩ := hd
      have key : ∀ (a b : List (String × Option String)) (x : String),
          a.map Prod.fst = b.map Prod.fst → n1 ∉ a.map Prod.fst →
          jsonFields ((n1, some x) :: a) ≠ jsonFields ((n1, none) :: b) := by
        intro a b x hab hna hc
        have hnb : n1 ∉ b.map Prod.fst := hab ▸ hna
        simp only [jsonFields] at hc
        rcases jsonFields_head b with hb | ⟨m, v, tl, hm, hb⟩
        · rw [hb] at hc
          simp at hc
        · rw [hb] at hc
          simp only [List.cons.injEq, true_and] at hc
          have e := (jsonQuote_injective _ _ _ _ hc).1
          have : n1 = m := by
            cases n1; cases m
            simp only at e
            rw [e]
          exact hnb (this ▸ hm)
      cases v1 with
      | none =>
        cases v2 with
        | none =>
          simp only [jsonFields] at h
          rw [ih rest2 hn2 hd2 h]
        | some y => exact absurd h.symm (key rest2 rest1 y hn2.symm (hn2 ▸ hd1))
      | some x =>
        cases v2 with
        | none => exact absurd h (key rest1 rest2 x hn2 hd1)
        | some y =>
          simp only [jsonFields, List.cons.injEq, true_and] at h
          have h2 := (jsonQuote_injective _ _ _ _ h).2
          simp only [List.cons.injEq, true_and] at h2
          obtain ⟨e1, e2⟩ := jsonQuote_injective _ _ _ _ h2
          have exy : x = y := by
            cases x; cases y
            simp only at e1
            rw [e1]
          rw [exy, ih rest2 hn2 hd2 e2]

theorem quote_ne_digit (s r1 r2 : List Char) (d : Char) (hd : d ≠ '"') :
    jsonQuote s ++ r1 ≠ d :: r2 := by
  intro h
  unfold jsonQuote at h
  simp only [List.cons_append, List.cons.injEq] at h
  exact hd h.1.symm

/-- A value of `page` or `limit`, the default number or a string, followed by
anything, determines the parameter and what follows. -/
theorem queryValue_injective (dflt : List Char) (d : Char) (tl : List Char)
    (hdf : dflt = d :: tl) (hd : d ≠ '"') (a b : Option String) (r1 r2 : List Char)
    (h : (match a with
          | none => dflt
          | some s => jsonQuote s.data) ++ r1
        = (match b with
          | none => dflt
          | some s => jsonQuote s.data) ++ r2) : a = b ∧ r1 = r2 := by
  subst hdf
  cases a with
  | none =>
    cases b with
    | none => exact ⟨rfl, List.append_cancel_left h⟩
    | some t => exact absurd h.symm (quote_ne_digit _ _ _ d hd)
  | some s =>
    cases b with
    | none => exact absurd h (quote_ne_digit _ _ _ d hd)
    | some t =>
      obtain ⟨e1, e2⟩ := jsonQuote_injective _ _ _ _ h
      have : s = t := by
        cases s; cases t
        simp only at e1
        rw [e1]
      exact ⟨by rw [this], e2⟩

theorem listParamsJson_injective (q1 q2 : ListQuery)
    (h : listParamsJson q1 = listParamsJson q2) : q1 = q2 := by
  unfold listParamsJson at h
  have h1 := List.append_cancel_left h
  obtain ⟨ep, h2⟩ := queryValue_injective ['1'] '1' [] rfl (by decide) _ _ _ _ h1
  have h3 := List.append_cancel_left h2
  obtain ⟨el, h4⟩ := queryValue_injective ['1', '0'] '1' ['0'] rfl (by decide) _ _ _ _ h3
  have h5 := jsonFields_injective
    [("type", q1.type), ("categoryId", q1.categoryId), ("startDate", q1.startDate),
      ("endDate", q1.endDate), ("search", q1.search)]
    [("type", q2.type), ("categoryId", q2.categoryId), ("startDate", q2.startDate),
      ("endDate", q2.endDate), ("search", q2.search)]
    rfl (by simp only [List.map_cons, List.map_nil]; decide) h4
  simp only [List.cons.injEq, Prod.mk.injEq, true_and, and_true] at h5
  obtain ⟨e1, e2, e3, e4, e5⟩ := h5
  cases q1; cases q2
  simp only at ep el e1 e2 e3 e4 e5
  simp only [ListQuery.mk.injEq]
  exact ⟨ep, el, e1, e2, e3, e4, e5⟩

theorem colon_not_mem_digits (n : Nat) : ':' ∉ (toString n).data := by
  intro h
  have := (toString_nat_spec n).2.1 ':' h
  exact absurd this (by decide)

/-- A key made of a fixed head, the id of the user, a colon and a tail determines the
id and the tail. -/
theorem userKey_injective (head : String) (u1 u2 : Nat) (t1 t2 : String)
    (h : head ++ toString u1 ++ ":" ++ t1 = head ++ toString u2 ++ ":" ++ t2) :
    u1 = u2 ∧ t1 = t2 := by
  have hd := congrArg String.data h
  simp only [String.data_append, List.append_assoc] at hd
  have h1 := List.append_cancel_left hd
  simp only [List.singleton_append] at h1
  have h2 := eq_of_append_cons_eq ':' _ _ _ _ (colon_not_mem_digits u1)
    (colon_not_mem_digits u2) h1
  have hu : u1 = u2 := toString_nat_injective u1 u2 (by
    cases hs1 : toString u1; cases hs2 : toString u2
    rw [hs1, hs2] at h2
    simp only at h2
    rw [h2])
  subst hu
  have h3 := List.append_cancel_left h1
  simp only [List.cons.injEq, true_and] at h3
  refine ⟨rfl, ?_⟩
  cases t1; cases t2
  simp only at h3
  rw [h3]

theorem head_ne (a b : Char) (x y : String) (r1 r2 : String) (hx : x.data.head? = some a)
    (hy : y.data.head? = some b) (hab : a ≠ b) : x ++ r1 ≠ y ++ r2 := by
  intro h
  have hd := congrArg String.data h
  simp only [String.data_append] at hd
  cases hxd : x.data with
  | nil => rw [hxd] at hx; simp at hx
  | cons a1 xs =>
    cases hyd : y.data with
    | nil => rw [hyd] at hy; simp at hy
    | cons b1 ys =>
      rw [hxd, hyd] at hd
      rw [hxd] at hx
      rw [hyd] at hy
      simp only [List.head?_cons, Option.some.injEq] at hx hy
      simp only [List.cons_append, List.cons.injEq] at hd
      exact hab (hx ▸ hy ▸ hd.1)

/-- C15: the key that a handler builds determines the request: two cacheable
requests that differ in the operation (dashboard, monthly analytics, category
analytics, listing), in the id of the user, in the period of the dashboard, or in
any of the parameters page, limit, type, categoryId, startDate, endDate and search
of a listing, get different keys. -/
theorem cacheKeyOf_injective : Function.Injective cacheKeyOf := by
  intro a b h
  have assoc3 : ∀ (x y z w : String), x ++ y ++ z ++ w = x ++ (y ++ z ++ w) := by
    intro x y z w
    simp only [String.append_assoc]
  have split : ∀ (u : Nat) (t : String), ∃ r : String,
      "analytics:user:" ++ toString u ++ t = "analytics:user:" ++ r := by
    intro u t
    exact ⟨toString u ++ t, by rw [String.append_assoc]⟩
  cases a with
  | dashboard u1 p1 =>
    cases b with
    | dashboard u2 p2 =>
      obtain ⟨e1, e2⟩ := userKey_injective "dashboard:" u1 u2 p1 p2 h
      rw [e1, e2]
    | monthly u2 =>
      simp only [cacheKeyOf, dashboardKey, monthlyKey, assoc3] at h
      obtain ⟨r, hr⟩ := split u2 ":monthly"
      rw [hr] at h
      exact absurd h (head_ne 'd' 'a' _ _ _ _ rfl rfl (by decide))
    | category u2 =>
      simp only [cacheKeyOf, dashboardKey, categoryKey, assoc3] at h
      obtain ⟨r, hr⟩ := split u2 ":category"
      rw [hr] at h
      exact absurd h (head_ne 'd' 'a' _ _ _ _ rfl rfl (by decide))
    | listing u2 q2 =>
      simp only [cacheKeyOf, dashboardKey, listingKey, assoc3] at h
      exact absurd h (head_ne 'd' 't' _ _ _ _ rfl rfl (by decide))
  | monthly u1 =>
    obtain ⟨r1, hr1⟩ := split u1 ":monthly"
    cases b with
    | dashboard u2 p2 =>
      simp only [cacheKeyOf, dashboardKey, monthlyKey, assoc3] at h
      rw [hr1] at h
      exact absurd h (head_ne 'a' 'd' _ _ _ _ rfl rfl (by decide))
    | monthly u2 =>
      have h2 : "analytics:user:" ++ toString u1 ++ ":" ++ "monthly"
          = "analytics:user:" ++ toString u2 ++ ":" ++ "monthly" := by
        simp only [cacheKeyOf, monthlyKey] at h
        simp only [String.append_assoc] at h ⊢
        exact h
      rw [(userKey_injective _ u1 u2 _ _ h2).1]
    | category u2 =>
      have h2 : "analytics:user:" ++ toString u1 ++ ":" ++ "monthly"
          = "analytics:user:" ++ toString u2 ++ ":" ++ "category" := by
        simp only [cacheKeyOf, monthlyKey, categoryKey] at h
        simp only [String.append_assoc] at h ⊢
        exact h
      exact absurd (userKey_injective _ u1 u2 _ _ h2).2 (by decide)
    | listing u2 q2 =>
      simp only [cacheKeyOf, monthlyKey, listingKey, assoc3] at h
      rw [hr1] at h
      exact absurd h (head_ne 'a' 't' _ _ _ _ rfl rfl (by decide))
  | category u1 =>
    obtain ⟨r1, hr1⟩ := split u1 ":category"
    cases b with
    | dashboard u2 p2 =>
      simp only [cacheKeyOf, dashboardKey, categoryKey, assoc3] at h
      rw [hr1] at h
      exact absurd h (head_ne 'a' 'd' _ _ _ _ rfl rfl (by decide))
    | monthly u2 =>
      have h2 : "analytics:user:" ++ toString u1 ++ ":" ++ "category"
          = "analytics:user:" ++ toString u2 ++ ":" ++ "monthly" := by
        simp only [cacheKeyOf, monthlyKey, categoryKey] at h
        simp only [String.append_assoc] at h ⊢
        exact h
      exact absurd (userKey_injective _ u1 u2 _ _ h2).2 (by decide)
    | category u2 =>
      have h2 : "analytics:user:" ++ toString u1 ++ ":" ++ "category"
          = "analytics:user:" ++ toString u2 ++ ":" ++ "category" := by
        simp only [cacheKeyOf, categoryKey] at h
        simp only [String.append_assoc] at h ⊢
        exact h
      rw [(userKey_injective _ u1 u2 _ _ h2).1]
    | listing u2 q2 =>
      simp only [cacheKeyOf, categoryKey, listingKey, assoc3] at h
      rw [hr1] at h
      exact absurd h (head_ne 'a' 't' _ _ _ _ rfl rfl (by decide))
  | listing u1 q1 =>
    cases b with
    | dashboard u2 p2 =>
      simp only [cacheKeyOf, dashboardKey, listingKey, assoc3] at h
      exact absurd h (head_ne 't' 'd' _ _ _ _ rfl rfl (by decide))
    | monthly u2 =>
      simp only [cacheKeyOf, monthlyKey, listingKey, assoc3] at h
      obtain ⟨r, hr⟩ := split u2 ":monthly"
      rw [hr] at h
      exact absurd h (head_ne 't' 'a' _ _ _ _ rfl rfl (by decide))
    | category u2 =>
      simp only [cacheKeyOf, categoryKey, listingKey, assoc3] at h
      obtain ⟨r, hr⟩ := split u2 ":category"
      rw [hr] at h
      exact absurd h (head_ne 't' 'a' _ _ _ _ rfl rfl (by decide))
    | listing u2 q2 =>
      obtain ⟨e1, e2⟩ := userKey_injective "transactions:" u1 u2 _ _ h
      have e3 : listParamsJson q1 = listParamsJson q2 := by
        have := congrArg String.data e2
        simpa using this
      rw [e1, listParamsJson_injective q1 q2 e3]

/-- C15 on concrete data: two listings of user 1 that differ in one parameter, and a
dashboard against a listing. -/
theorem cacheKeyOf_injective_witness :
    cacheKeyOf (CacheRequest.listing 1
        { page := none, limit := none, type := some "EXPENSE", categoryId := none,
          startDate := none, endDate := none, search := none })
      ≠ cacheKeyOf (CacheRequest.listing 1
        { page := none, limit := none, type := none, categoryId := none,
          startDate := none, endDate := none, search := some "EXPENSE" }) ∧
    cacheKeyOf (CacheRequest.dashboard 1 "30") ≠ cacheKeyOf (CacheRequest.dashboard 13 "0") :=
  ⟨fun h => absurd (cacheKeyOf_injective h) (by decide),
   fun h => absurd (cacheKeyOf_injective h) (by decide)⟩


/-! ## The dashboard handler and the cache module -/

/-- C12 (as the code behaves): with the cache module as the repository exports it
(no `get`, no `set`), `getDashboardStats` answers 500 with `Internal server error`
for every request, every state of the two tables and every state of the cache
store, and leaves the store as it was. -/
theorem getDashboardStats_always_500 {R : Type} (parseInt : String → Option Int)
    (tz now : Int) (transactions : List Transaction) (categories : List Category)
    (userId : Nat) (period : Option String) (r : R) :
    getDashboardStats (cacheExports R DashboardStats) parseInt tz now transactions categories
        userId period r =
      ({ status := 500, body := Except.error "Internal server error" }, r) := rfl

/-- C8 (as the code behaves): for a user without any transaction (empty tables, no
`period` parameter, a working cache store with no entries) the summary expression
would be all zeros, but `getDashboardStats` does not get as far: its first call,
`cache.get`, is of a function that the cache module does not export, the handler
raises and answers 500 `Internal server error`, with no summary.  The same happens
for a user with an income of 2000 and an expense of 150 in the period. -/
theorem dashboard_summary_not_returned :
    dashboardSummary (aggregateSumSince [] 1 TxType.INCOME 1707912000000)
        (aggregateSumSince [] 1 TxType.EXPENSE 1707912000000)
        (countSince [] 1 1707912000000) =
      { totalIncome := 0, totalExpenses := 0, netIncome := 0, transactionCount := 0 } ∧
    (getDashboardStats (cacheExports RedisStore DashboardStats) (fun _ => some 30) 0
        1710504000000 [] [] 1 none { clock := 0, entries := [] }).1.status = 500 ∧
    (getDashboardStats (cacheExports RedisStore DashboardStats) (fun _ => some 30) 0
        1710504000000 [] [] 1 none { clock := 0, entries := [] }).1.body =
      Except.error "Internal server error" ∧
    (getDashboardStats (cacheExports RedisStore DashboardStats) (fun _ => some 30) 0
        1710504000000
        [{ id := 1, amount := 2000, type := TxType.INCOME, categoryId := none, note := "",
           date := 1710000000000, userId := 1 },
         { id := 2, amount := 150, type := TxType.EXPENSE, categoryId := some 1, note := "",
           date := 1710100000000, userId := 1 }]
        [{ id := 1, name := "Food", color := none, amount := 800 }] 1 none
        { clock := 0, entries := [] }).1.body =
      Except.error "Internal server error" := by
  refine ⟨by decide, rfl, rfl, rfl⟩

/-! ## Sums over groups -/

theorem sum_map_ite_eq_of_nodup {κ M : Type} [DecidableEq κ] [AddCommMonoid M] (k0 : κ) (x : M)
    (ks : List κ)
    (hnd : ks.Nodup) :
    (ks.map (fun k => if k0 = k then x else 0)).sum = if k0 ∈ ks then x else 0 := by
  induction ks with
  | nil => simp
  | cons k ks ih =>
    rw [List.nodup_cons] at hnd
    rw [List.map_cons, List.sum_cons, ih hnd.2]
    by_cases h : k0 = k
    · subst h
      simp [hnd.1]
    · have h2 : ¬ k = k0 := fun e => h e.symm
      simp [h, h2]

/-- Splitting a sum over a list by the groups of a key: every element is counted in
exactly one group. -/
theorem sum_groups {α κ M : Type} [DecidableEq κ] [AddCommMonoid M] (f : α → κ) (a : α → M)
    (ks : List κ) (hnd : ks.Nodup) (l : List α) (h : ∀ t ∈ l, f t ∈ ks) :
    (ks.map (fun k => ((l.filter (fun t => decide (f t = k))).map a).sum)).sum =
      (l.map a).sum := by
  induction l with
  | nil => simp
  | cons t l ih =>
    have h1 : ∀ k, (((t :: l).filter (fun t => decide (f t = k))).map a).sum =
        (if f t = k then a t else 0) + ((l.filter (fun t => decide (f t = k))).map a).sum := by
      intro k
      by_cases e : f t = k
      · simp [List.filter_cons, e]
      · simp [List.filter_cons, e]
    simp only [h1]
    rw [List.sum_map_add, sum_map_ite_eq_of_nodup (f t) (a t) ks hnd,
      ih (fun u hu => h u (List.mem_cons_of_mem _ hu)), if_pos (h t (List.mem_cons_self _ _))]
    simp


/-! ## The filters of the category analytics -/

theorem analyticsWhere_iff (userId : Nat) (q : AnalyticsQuery) (t : Transaction) :
    analyticsWhere userId q t = true ↔ selectedBy userId q t := by
  obtain ⟨s, e, ty⟩ := q
  unfold analyticsWhere selectedBy
  cases s <;> cases e <;> cases ty <;> simp [and_assoc]

theorem length_eq_sum_ones {α : Type} (l : List α) : l.length = (l.map (fun _ => 1)).sum := by
  induction l with
  | nil => rfl
  | cons a l ih => rw [List.length_cons, List.map_cons, List.sum_cons, ← ih, Nat.add_comm]

/-- C16 (as the code behaves): with only `startDate` supplied no condition on the
date applies: for the query `startDate = 2024-03-01T00:00Z` alone, an expense of
10 dated 2024-01-15T00:00Z, hence before the start, is selected and counted together
with an expense of 20 dated 2024-03-10T00:00Z. -/
theorem getCategoryAnalytics_start_only :
    analyticsWhere 1 { startDate := some 1709251200000, endDate := none, type := none }
        { id := 1, amount := 10, type := TxType.EXPENSE, categoryId := some 1, note := "",
          date := 1705276800000, userId := 1 } = true ∧
      ¬ ((1709251200000 : Int) ≤ 1705276800000) ∧
      (getCategoryAnalytics
          [{ id := 1, amount := 10, type := TxType.EXPENSE, categoryId := some 1, note := "",
             date := 1705276800000, userId := 1 },
           { id := 2, amount := 20, type := TxType.EXPENSE, categoryId := some 1, note := "",
             date := 1710028800000, userId := 1 }]
          [{ id := 1, name := "Food", color := none, amount := 800 }] 1
          { startDate := some 1709251200000, endDate := none, type := none }).body.toOption.map
        (fun l => l.map (fun e => (e.totalAmount, e.transactionCount))) = some [(30, 2)] := by
  decide

/-- C16 (amended): for every combination of the filters, a transaction is selected
by `getCategoryAnalytics` if and only if it is of the user, its type is `type`
whenever `type` is supplied, and its date is at least `startDate` and at most
`endDate` whenever both are supplied; with no filter, and with one end of the range
alone, every transaction of the user is selected.  The answer is 200 with one entry
for each category id among the selected transactions, holding the sum and the
number of the selected transactions of that category; every selected transaction is
counted in exactly one entry, so the counts add up to the number of selected
transactions and the totals to the sum of their amounts. -/
theorem getCategoryAnalytics_filters (transactions : List Transaction)
    (categories : List Category) (userId : Nat) (q : AnalyticsQuery) :
    (∀ t, analyticsWhere userId q t = true ↔ selectedBy userId q t) ∧
    (q.startDate = none ∨ q.endDate = none →
      ∀ t, analyticsWhere userId q t = true ↔
        (t.userId = userId ∧ ∀ ty, q.type = some ty → t.type = ty)) ∧
    (q.startDate = none ∨ q.endDate = none → q.type = none →
      ∀ t, analyticsWhere userId q t = true ↔ t.userId = userId) ∧
    ∃ stats, getCategoryAnalytics transactions categories userId q =
        { status := 200, body := Except.ok stats } ∧
      (∀ t ∈ transactions, analyticsWhere userId q t = true →
        categoryGroup categories (transactions.filter (analyticsWhere userId q)) t.categoryId
          ∈ stats) ∧
      (∀ e ∈ stats, ∃ t ∈ transactions, analyticsWhere userId q t = true ∧
        e = categoryGroup categories (transactions.filter (analyticsWhere userId q))
          t.categoryId) ∧
      (stats.map (fun e => e.transactionCount)).sum =
        (transactions.filter (analyticsWhere userId q)).length ∧
      (stats.map (fun e => e.totalAmount)).sum =
        sumAmounts (transactions.filter (analyticsWhere userId q)) := by
  refine ⟨analyticsWhere_iff userId q, ?_, ?_, _, rfl, ?_, ?_, ?_, ?_⟩
  · intro h t
    rw [analyticsWhere_iff]
    unfold selectedBy
    constructor
    · exact fun hs => ⟨hs.1, hs.2.1⟩
    · rintro ⟨h1, h2⟩
      refine ⟨h1, h2, ?_⟩
      intro s e hs he
      rcases h with h | h
      · rw [h] at hs; cases hs
      · rw [h] at he; cases he
  · intro h hty t
    rw [analyticsWhere_iff]
    unfold selectedBy
    constructor
    · exact fun hs => hs.1
    · intro h1
      refine ⟨h1, ?_, ?_⟩
      · intro ty e
        rw [hty] at e; cases e
      · intro s e hs he
        rcases h with h | h
        · rw [h] at hs; cases hs
        · rw [h] at he; cases he
  · intro t ht hsel
    apply List.mem_map_of_mem
    rw [List.mem_dedup]
    exact List.mem_map_of_mem _ (List.mem_filter.mpr ⟨ht, hsel⟩)
  · intro e he
    rw [List.mem_map] at he
    obtain ⟨c, hc, rfl⟩ := he
    rw [List.mem_dedup, List.mem_map] at hc
    obtain ⟨t, ht, rfl⟩ := hc
    rw [List.mem_filter] at ht
    exact ⟨t, ht.1, ht.2, rfl⟩
  · rw [List.map_map, length_eq_sum_ones]
    exact (sum_groups (fun t : Transaction => t.categoryId) (fun _ => 1) _
      (List.nodup_dedup _) _ (fun t ht => List.mem_dedup.mpr (List.mem_map_of_mem _ ht))).symm ▸
      (by
        apply congrArg
        apply List.map_congr_left
        intro c _
        simp only [Function.comp, categoryGroup]
        exact length_eq_sum_ones _)
  · rw [List.map_map]
    exact sum_groups (fun t : Transaction => t.categoryId) (fun t => t.amount) _
      (List.nodup_dedup _) _ (fun t ht => List.mem_dedup.mpr (List.mem_map_of_mem _ ht))


/-! ## Deleting a category -/

theorem findCategoryBy_text (categories : List Category) (param : String) :
    findCategoryBy categories (IdValue.text param) = none := by
  unfold findCategoryBy
  rw [List.find?_eq_none]
  intro c _
  simp

theorem findCategoryBy_number (categories : List Category) (id : Nat) :
    findCategoryBy categories (IdValue.number id) = findCategory categories id := by
  unfold findCategoryBy findCategory
  congr 1
  funext c
  simp

theorem countByCategory_number (transactions : List Transaction) (id : Nat) :
    countByCategory transactions (IdValue.number id) =
      (transactions.filter (fun t => decide (t.categoryId = some id))).length := by
  unfold countByCategory
  congr 2
  funext t
  cases t.categoryId <;> simp

theorem filter_ne_number (categories : List Category) (id : Nat) :
    categories.filter (fun c => decide (IdValue.number c.id ≠ IdValue.number id)) =
      categories.filter (fun c => decide (c.id ≠ id)) := by
  congr 1
  funext c
  simp

/-- C17 (as the code behaves): the handler passes `req.params.id`, a text, to the
queries, and the ids of the table are numbers, so no category is found: for every
state of the two tables and every path segment, also one that is the numeral of an
existing category without references, `DELETE /categories/:id` by an administrator
answers 404 `Category not found` and deletes nothing; it never answers 400 and
never reports success. -/
theorem deleteCategory_text_id (categories : List Category) (transactions : List Transaction)
    (param : String) (uid : Nat) :
    (deleteCategoryRoute (some { id := uid, role := Role.ADMIN }) categories transactions
        param).response = { status := 404, body := Except.error "Category not found" } ∧
    (deleteCategoryRoute (some { id := uid, role := Role.ADMIN }) categories transactions
        param).categories = categories ∧
    (deleteCategoryRoute (some { id := uid, role := Role.ADMIN }) categories transactions
        param).transactions = transactions ∧
    (deleteCategoryRoute (some { id := 9, role := Role.ADMIN })
        [{ id := 1, name := "Food", color := none, amount := 800 }] [] "1").response.status
      = 404 ∧
    findCategory [{ id := 1, name := "Food", color := none, amount := 800 }] 1 =
      some { id := 1, name := "Food", color := none, amount := 800 } := by
  have h : deleteCategoryRoute (some { id := uid, role := Role.ADMIN }) categories
      transactions param = deleteCategory categories transactions (IdValue.text param) := rfl
  rw [h]
  unfold deleteCategory
  rw [findCategoryBy_text]
  exact ⟨rfl, rfl, rfl, by decide, by decide⟩

/-- What the handler of `DELETE /categories/:id` does when the id reaches it as a
number: it answers 404 and changes nothing when no category has the id; answers 400
and changes nothing when the category exists and at least one transaction references
it; and otherwise answers with the message of success, removes the category with
that id and no other, and leaves the transactions as they are, so that references of
transactions to existing categories are preserved.  The route runs the handler, on
the text of the path segment, for an administrator and changes nothing for anybody
else. -/
theorem deleteCategory_of_number (categories : List Category) (transactions : List Transaction)
    (id : Nat) :
    (findCategory categories id = none →
      (deleteCategory categories transactions (IdValue.number id)).response =
          { status := 404, body := Except.error "Category not found" } ∧
        (deleteCategory categories transactions (IdValue.number id)).categories = categories ∧
        (deleteCategory categories transactions (IdValue.number id)).transactions = transactions) ∧
    (∀ c, findCategory categories id = some c →
      (∃ t ∈ transactions, t.categoryId = some id) →
      (deleteCategory categories transactions (IdValue.number id)).response.status = 400 ∧
        (∃ msg, (deleteCategory categories transactions (IdValue.number id)).response.body = Except.error msg) ∧
        (deleteCategory categories transactions (IdValue.number id)).categories = categories ∧
        (deleteCategory categories transactions (IdValue.number id)).transactions = transactions) ∧
    (∀ c, findCategory categories id = some c →
      (∀ t ∈ transactions, t.categoryId ≠ some id) →
      (deleteCategory categories transactions (IdValue.number id)).response =
          { status := 200, body := Except.ok "Category deleted successfully" } ∧
        (∀ x, x ∈ (deleteCategory categories transactions (IdValue.number id)).categories ↔
          x ∈ categories ∧ x.id ≠ id) ∧
        (deleteCategory categories transactions (IdValue.number id)).categories =
          categories.filter (fun x => decide (x.id ≠ id)) ∧
        (deleteCategory categories transactions (IdValue.number id)).transactions = transactions) ∧
    ((∀ t ∈ transactions, ∀ c, t.categoryId = some c → ∃ x ∈ categories, x.id = c) →
      ∀ t ∈ (deleteCategory categories transactions (IdValue.number id)).transactions, ∀ c,
        t.categoryId = some c →
        ∃ x ∈ (deleteCategory categories transactions (IdValue.number id)).categories, x.id = c) ∧
    (∀ (u : AuthUser) (param : String), u.role = Role.ADMIN →
      deleteCategoryRoute (some u) categories transactions param =
        deleteCategory categories transactions (IdValue.text param)) ∧
    (∀ (user : Option AuthUser) (param : String), (∀ u, user = some u → u.role ≠ Role.ADMIN) →
      ((deleteCategoryRoute user categories transactions param).response.status = 401 ∨
        (deleteCategoryRoute user categories transactions param).response.status = 403) ∧
      (deleteCategoryRoute user categories transactions param).categories = categories ∧
      (deleteCategoryRoute user categories transactions param).transactions = transactions) := by
  have hd : deleteCategory categories transactions (IdValue.number id) =
      (match findCategory categories id with
        | none => { response := { status := 404, body := Except.error "Category not found" },
                    categories := categories, transactions := transactions }
        | some _ =>
          if (transactions.filter (fun t => decide (t.categoryId = some id))).length > 0 then
            { response :=
                { status := 400
                  body := Except.error ("Cannot delete category. It is being used by " ++
                    toString (transactions.filter
                      (fun t => decide (t.categoryId = some id))).length ++
                    " transaction(s).") }
              categories := categories, transactions := transactions }
          else
            { response := { status := 200, body := Except.ok "Category deleted successfully" }
              categories := categories.filter (fun c => decide (c.id ≠ id))
              transactions := transactions } : CategoryResult) := by
    unfold deleteCategory
    rw [findCategoryBy_number, countByCategory_number, filter_ne_number]
  rw [hd]
  have hcount : ∀ n : Nat,
      (transactions.filter (fun t => decide (t.categoryId = some id))).length = n →
      (0 < n ↔ ∃ t ∈ transactions, t.categoryId = some id) := by
    intro n hn
    rw [← hn, List.length_pos_iff_exists_mem]
    constructor
    · rintro ⟨t, ht⟩
      rw [List.mem_filter] at ht
      exact ⟨t, ht.1, of_decide_eq_true ht.2⟩
    · rintro ⟨t, ht, h⟩
      exact ⟨t, List.mem_filter.mpr ⟨ht, decide_eq_true h⟩⟩
  refine ⟨?_, ?_, ?_, ?_, ?_, ?_⟩
  · intro h
    simp [h]
  · intro c h hex
    have hpos := (hcount _ rfl).mpr hex
    simp only [h]
    rw [if_pos hpos]
    exact ⟨rfl, ⟨_, rfl⟩, rfl, rfl⟩
  · intro c h hall
    have hnot : ¬ (transactions.filter (fun t => decide (t.categoryId = some id))).length > 0 := by
      intro hpos
      obtain ⟨t, ht, e⟩ := (hcount _ rfl).mp hpos
      exact hall t ht e
    simp only [h]
    rw [if_neg hnot]
    refine ⟨rfl, ?_, rfl, rfl⟩
    intro x
    simp [List.mem_filter]
  · intro href t ht c hc
    cases h : findCategory categories id with
    | none =>
      simp only [h] at ht ⊢
      exact href t ht c hc
    | some found =>
      by_cases hpos : (transactions.filter (fun t => decide (t.categoryId = some id))).length > 0
      · simp only [h] at ht ⊢
        rw [if_pos hpos] at ht ⊢
        exact href t ht c hc
      · simp only [h] at ht ⊢
        rw [if_neg hpos] at ht ⊢
        obtain ⟨x, hx, e⟩ := href t ht c hc
        refine ⟨x, List.mem_filter.mpr ⟨hx, ?_⟩, e⟩
        apply decide_eq_true
        intro hid
        apply hpos
        apply (hcount _ rfl).mpr
        exact ⟨t, ht, by rw [hc, ← hid, e]⟩
  · intro u param hu
    obtain ⟨uid, role⟩ := u
    simp only at hu
    subst hu
    rfl
  · intro user param hrole
    cases user with
    | none => exact ⟨Or.inl rfl, rfl, rfl⟩
    | some u =>
      obtain ⟨uid, role⟩ := u
      have := hrole _ rfl
      cases role with
      | ADMIN => exact absurd rfl this
      | USER => exact ⟨Or.inr rfl, rfl, rfl⟩
      | READ_ONLY => exact ⟨Or.inr rfl, rfl, rfl⟩

theorem deleteCategory_of_number_example :
    (deleteCategory
        [{ id := 1, name := "Food", color := none, amount := 800 },
         { id := 2, name := "Transport", color := none, amount := 500 }]
        [{ id := 7, amount := 150, type := TxType.EXPENSE, categoryId := some 1, note := "",
           date := 1710000000000, userId := 1 }] (IdValue.number 1)).response.status = 400 ∧
      (deleteCategory
        [{ id := 1, name := "Food", color := none, amount := 800 },
         { id := 2, name := "Transport", color := none, amount := 500 }]
        [{ id := 7, amount := 150, type := TxType.EXPENSE, categoryId := some 1, note := "",
           date := 1710000000000, userId := 1 }] (IdValue.number 2)).categories =
        [{ id := 1, name := "Food", color := none, amount := 800 }] :=
  ⟨((deleteCategory_of_number
      [{ id := 1, name := "Food", color := none, amount := 800 },
       { id := 2, name := "Transport", color := none, amount := 500 }]
      [{ id := 7, amount := 150, type := TxType.EXPENSE, categoryId := some 1, note := "",
         date := 1710000000000, userId := 1 }] 1).2.1
      { id := 1, name := "Food", color := none, amount := 800 } (by decide)
      ⟨_, List.mem_singleton.mpr rfl, rfl⟩).1,
   ((deleteCategory_of_number
      [{ id := 1, name := "Food", color := none, amount := 800 },
       { id := 2, name := "Transport", color := none, amount := 500 }]
      [{ id := 7, amount := 150, type := TxType.EXPENSE, categoryId := some 1, note := "",
         date := 1710000000000, userId := 1 }] 2).2.2.1
      { id := 2, name := "Transport", color := none, amount := 500 } (by decide)
      (by decide)).2.2.1⟩

/-! ## The order of the trend entries -/

/-- C19 (as the code behaves): on a server at UTC+05:30, for two transactions of
one user sorted by date, an income dated 2024-01-01T04:30Z (Monday 10:00 local time)
and an expense dated 2024-01-01T20:30Z (Tuesday 02:00 local time),
`getSimplifiedTrends` with period `weekly` returns the entry `2023-12-31` before the
entry `2023-12-30`: the later transaction has the smaller key and the output is not
increasing in `period`. -/
theorem weekly_trends_out_of_order :
    getSimplifiedTrends doubleArith 330
        [{ id := 1, amount := 2000, type := TxType.INCOME, categoryId := none, note := "",
           date := 1704083400000, userId := 1 },
         { id := 2, amount := 150, type := TxType.EXPENSE, categoryId := none, note := "",
           date := 1704141000000, userId := 1 }] 1 none "weekly" =
      [{ period := "2023-12-31", income := 2000, expenses := 0, net := 2000 },
       { period := "2023-12-30", income := 0, expenses := 150, net := -150 }] ∧
    (1704083400000 : Int) < 1704141000000 ∧
    bucketKey 330 "weekly" 1704141000000 < bucketKey 330 "weekly" 1704083400000 := by
  refine ⟨by decide, by decide, ?_⟩
  rw [String.lt_iff_toList_lt]
  decide


/-! ## `GET /category` -/

theorem JsObject.get_set {α : Type} (o : JsObject α) (k k2 : String) (v : α) :
    (o.set k v).get k2 = if k = k2 then some v else o.get k2 := by
  induction o with
  | nil => simp [JsObject.set, JsObject.get]
  | cons e rest ih =>
    obtain ⟨k1, v1⟩ := e
    by_cases h : k1 = k
    · subst h
      by_cases h2 : k1 = k2 <;> simp [JsObject.set, JsObject.get, h2]
    · by_cases h2 : k1 = k2
      · subst h2
        have h3 : ¬ k = k1 := fun e => h e.symm
        simp [JsObject.set, JsObject.get, h, h3]
      · simp [JsObject.set, JsObject.get, h, h2, ih]

theorem ownEntries_perm {α : Type} (o : JsObject α) : (ownEntries o).Perm o := by
  unfold ownEntries
  refine List.Perm.trans (List.Perm.append_right _ (List.perm_insertionSort _ _)) ?_
  exact List.filter_append_perm _ o

theorem labelExpenses_append (categories : List Category) (txs : List Transaction)
    (t : Transaction) (label : String) :
    labelExpenses categories (txs ++ [t]) label = labelExpenses categories txs label +
      (if t.type = TxType.EXPENSE ∧ categoryLabel categories t = label then t.amount else 0) := by
  unfold labelExpenses sumAmounts
  rw [List.filter_append, List.map_append, List.sum_append]
  by_cases h : t.type = TxType.EXPENSE ∧ categoryLabel categories t = label
  · simp [List.filter_cons, h]
  · simp [List.filter_cons, h]

theorem labelExpenses_of_absent (categories : List Category) (txs : List Transaction)
    (label : String) (h : ¬ ∃ t ∈ txs, categoryLabel categories t = label) :
    labelExpenses categories txs label = 0 := by
  unfold labelExpenses
  have : txs.filter
      (fun t => decide (t.type = TxType.EXPENSE ∧ categoryLabel categories t = label)) = [] := by
    rw [List.filter_eq_nil_iff]
    intro t ht hd
    exact h ⟨t, ht, (of_decide_eq_true hd).2⟩
  rw [this]
  rfl

/-- On a name that no plain object inherits, the step of `GET /category` reads the
own property or `undefined` and writes an own property. -/
theorem categoryStep_of_plain (sourceText : String → String) (categories : List Category)
    (map : JsObject JsValue) (t : Transaction)
    (h1 : categoryLabel categories t ≠ "__proto__")
    (h2 : categoryLabel categories t ∉ inheritedMethods) :
    categoryStep sourceText categories map t = map.set (categoryLabel categories t)
      (addAmount sourceText
        (match map.get (categoryLabel categories t) with
         | some v => JsRead.value v
         | none => JsRead.undefined)
        (if t.type = TxType.EXPENSE then t.amount else 0)) := by
  unfold categoryStep plainSet plainGet
  simp only []
  rw [if_neg h1]
  cases map.get (categoryLabel categories t) with
  | some v => rfl
  | none => simp only [if_neg h1, if_neg h2]

theorem get_foldl_categoryStep (sourceText : String → String) (categories : List Category)
    (txs : List Transaction)
    (hplain : ∀ t ∈ txs, categoryLabel categories t ≠ "__proto__" ∧
      categoryLabel categories t ∉ inheritedMethods)
    (label : String) :
    (txs.foldl (categoryStep sourceText categories) []).get label =
      if ∃ t ∈ txs, categoryLabel categories t = label then
        some (JsValue.number (labelExpenses categories txs label))
      else none := by
  induction txs using List.reverseRecOn with
  | nil => simp [JsObject.get]
  | append_singleton txs t ih =>
    have hp1 : ∀ u ∈ txs, categoryLabel categories u ≠ "__proto__" ∧
        categoryLabel categories u ∉ inheritedMethods :=
      fun u hu => hplain u (List.mem_append_left _ hu)
    have hp2 := hplain t (List.mem_append_right _ (List.mem_singleton.mpr rfl))
    have ih1 := ih hp1
    rw [List.foldl_append, List.foldl_cons, List.foldl_nil,
      categoryStep_of_plain sourceText categories _ t hp2.1 hp2.2,
      JsObject.get_set, labelExpenses_append]
    by_cases hl : categoryLabel categories t = label
    · have hex2 : ∃ u ∈ txs ++ [t], categoryLabel categories u = label := ⟨t, by simp, hl⟩
      rw [if_pos hl, if_pos hex2]
      have hold : (txs.foldl (categoryStep sourceText categories) []).get
          (categoryLabel categories t) = (if ∃ t ∈ txs, categoryLabel categories t = label then
            some (JsValue.number (labelExpenses categories txs label)) else none) := by
        rw [hl, ih1]
      rw [hold]
      by_cases hex : ∃ t ∈ txs, categoryLabel categories t = label
      · rw [if_pos hex]
        by_cases hty : t.type = TxType.EXPENSE
        · simp [addAmount, hty, hl]
        · simp [addAmount, hty]
      · rw [if_neg hex, labelExpenses_of_absent categories txs label hex]
        by_cases hty : t.type = TxType.EXPENSE
        · simp [addAmount, hty, hl]
        · simp [addAmount, hty]
    · rw [if_neg hl, ih1]
      have hz : (if t.type = TxType.EXPENSE ∧ categoryLabel categories t = label then t.amount
          else 0) = 0 := if_neg (fun h => hl h.2)
      rw [hz, add_zero]
      by_cases hex : ∃ t ∈ txs, categoryLabel categories t = label
      · obtain ⟨u, hu, e⟩ := hex
        have hex1 : ∃ u ∈ txs, categoryLabel categories u = label := ⟨u, hu, e⟩
        have hex2 : ∃ u ∈ txs ++ [t], categoryLabel categories u = label :=
          ⟨u, by simp [hu], e⟩
        rw [if_pos hex1, if_pos hex2]
      · rw [if_neg hex, if_neg]
        rintro ⟨u, hu, e⟩
        rcases List.mem_append.1 hu with h1 | h1
        · exact hex ⟨u, h1, e⟩
        · rw [List.mem_singleton] at h1
          exact hl (h1 ▸ e)

theorem nodup_keys_plainSet (o : JsObject JsValue) (k : String) (v : JsValue)
    (h : o.keys.Nodup) : (plainSet o k v).keys.Nodup := by
  unfold plainSet
  split_ifs with h1
  · exact h
  · rw [JsObject.keys_set]
    split_ifs with h2
    · exact h
    · exact List.Nodup.append h (List.nodup_singleton _) (by simpa using h2)

theorem nodup_keys_foldl_categoryStep (sourceText : String → String)
    (categories : List Category) (txs : List Transaction) :
    (txs.foldl (categoryStep sourceText categories) []).keys.Nodup := by
  induction txs using List.reverseRecOn with
  | nil => simp [JsObject.keys]
  | append_singleton txs t ih =>
    rw [List.foldl_append, List.foldl_cons, List.foldl_nil]
    exact nodup_keys_plainSet _ _ _ ih

theorem mem_keys_foldl_categoryStep (sourceText : String → String)
    (categories : List Category) (txs : List Transaction)
    (hplain : ∀ t ∈ txs, categoryLabel categories t ≠ "__proto__" ∧
      categoryLabel categories t ∉ inheritedMethods)
    (label : String) :
    label ∈ (txs.foldl (categoryStep sourceText categories) []).keys ↔
      ∃ t ∈ txs, categoryLabel categories t = label := by
  rw [← JsObject.get_isSome_iff, get_foldl_categoryStep sourceText categories txs hplain]
  split_ifs with h <;> simp [h]

theorem snd_eq_labelExpenses (sourceText : String → String) (categories : List Category)
    (txs : List Transaction)
    (hplain : ∀ t ∈ txs, categoryLabel categories t ≠ "__proto__" ∧
      categoryLabel categories t ∉ inheritedMethods)
    (p : String × JsValue) (hp : p ∈ txs.foldl (categoryStep sourceText categories) []) :
    p.2 = JsValue.number (labelExpenses categories txs p.1) := by
  have hg := JsObject.get_of_mem _ p.1 p.2
    (nodup_keys_foldl_categoryStep sourceText categories txs) hp
  rw [get_foldl_categoryStep sourceText categories txs hplain] at hg
  split_ifs at hg with h
  exact (Option.some.inj hg).symm

/-- When no transaction is counted under a name that plain objects inherit
(`__proto__` or one of the methods of `Object.prototype`), `GET /category` computes
what is expected of it: `labels` and `values` of the same length, pairwise distinct
labels, which are exactly the names under which the transactions are counted, at
each label the sum of the amounts of the EXPENSE transactions counted under it, and
values that add up to the sum of the amounts of all EXPENSE transactions. -/
theorem categoryData_of_plain_names (sourceText : String → String) (categories : List Category)
    (txs : List Transaction)
    (hplain : ∀ t ∈ txs, categoryLabel categories t ≠ "__proto__" ∧
      categoryLabel categories t ∉ inheritedMethods) :
    (categoryData sourceText categories txs).labels.length =
      (categoryData sourceText categories txs).values.length ∧
    (categoryData sourceText categories txs).labels.Nodup ∧
    (∀ label, label ∈ (categoryData sourceText categories txs).labels ↔
      ∃ t ∈ txs, categoryLabel categories t = label) ∧
    (∀ p ∈ (categoryData sourceText categories txs).labels.zip
        (categoryData sourceText categories txs).values,
      p.2 = JsValue.number (sumAmounts (txs.filter
        (fun t => decide (t.type = TxType.EXPENSE ∧ categoryLabel categories t = p.1))))) ∧
    ∃ numbers : List Int,
      (categoryData sourceText categories txs).values = numbers.map JsValue.number ∧
      numbers.sum = sumAmounts (txs.filter (fun t => decide (t.type = TxType.EXPENSE))) := by
  have hperm := ownEntries_perm (txs.foldl (categoryStep sourceText categories) [])
  refine ⟨?_, ?_, ?_, ?_, ?_⟩
  · simp [categoryData]
  · exact ((hperm.map Prod.fst).nodup_iff).mpr
      (nodup_keys_foldl_categoryStep sourceText categories txs)
  · intro label
    rw [← mem_keys_foldl_categoryStep sourceText categories txs hplain]
    exact (hperm.map Prod.fst).mem_iff
  · intro p hp
    have hz : (categoryData sourceText categories txs).labels.zip
        (categoryData sourceText categories txs).values =
        ownEntries (txs.foldl (categoryStep sourceText categories) []) :=
      Eq.symm (List.zip_of_prod rfl rfl)
    rw [hz] at hp
    exact snd_eq_labelExpenses sourceText categories txs hplain p (hperm.mem_iff.mp hp)
  · refine ⟨(ownEntries (txs.foldl (categoryStep sourceText categories) [])).map
      (fun p => labelExpenses categories txs p.1), ?_, ?_⟩
    · unfold categoryData
      simp only []
      rw [List.map_map]
      apply List.map_congr_left
      intro p hp
      exact snd_eq_labelExpenses sourceText categories txs hplain p (hperm.mem_iff.mp hp)
    · have h1 : ((ownEntries (txs.foldl (categoryStep sourceText categories) [])).map
          (fun p => labelExpenses categories txs p.1)).sum =
          ((txs.foldl (categoryStep sourceText categories) []).map
            (fun p => labelExpenses categories txs p.1)).sum :=
        (hperm.map _).sum_eq
      have h2 : (txs.foldl (categoryStep sourceText categories) []).map
          (fun p => labelExpenses categories txs p.1) =
          (txs.foldl (categoryStep sourceText categories) []).keys.map
            (fun k => (((txs.filter (fun t => decide (t.type = TxType.EXPENSE))).filter
              (fun t => decide (categoryLabel categories t = k))).map
                (fun t => t.amount)).sum) := by
        unfold JsObject.keys
        rw [List.map_map]
        apply List.map_congr_left
        intro p _
        unfold labelExpenses sumAmounts
        simp only [Function.comp, List.filter_filter]
        congr 2
        apply List.filter_congr
        intro t _
        by_cases a : t.type = TxType.EXPENSE <;>
          by_cases b : categoryLabel categories t = p.1 <;> simp [a, b]
      rw [h1, h2]
      exact sum_groups (fun t => categoryLabel categories t) (fun t => t.amount) _
        (nodup_keys_foldl_categoryStep sourceText categories txs) _
        (fun t ht => (mem_keys_foldl_categoryStep sourceText categories txs hplain _).mpr
          ⟨t, (List.mem_filter.mp ht).1, rfl⟩)

/-- C20 (as the code behaves): with a category named `constructor` and two expenses
of 150 and 20 in it, `map['constructor']` first reads the method that every object
inherits, so `GET /category` returns under the label `constructor` not the sum 170
but a string: the text of that method followed by `150` and `20`.  With a category
named `__proto__` the expenses appear under no label at all. -/
theorem category_named_constructor (sourceText : String → String) :
    categoryData sourceText [{ id := 3, name := "constructor", color := none, amount := 0 }]
        [{ id := 1, amount := 150, type := TxType.EXPENSE, categoryId := some 3, note := "",
           date := 1710000000000, userId := 1 },
         { id := 2, amount := 20, type := TxType.EXPENSE, categoryId := some 3, note := "",
           date := 1710100000000, userId := 1 }] =
      { labels := ["constructor"],
        values := [JsValue.text (sourceText "constructor" ++ "150" ++ "20")] } ∧
    categoryData sourceText [{ id := 3, name := "__proto__", color := none, amount := 0 }]
        [{ id := 1, amount := 150, type := TxType.EXPENSE, categoryId := some 3, note := "",
           date := 1710000000000, userId := 1 }] =
      { labels := [], values := [] } := by
  have hne : sourceText "constructor" ++ "150" ≠ "" := by
    intro h
    have h2 := congrArg String.length h
    rw [String.length_append] at h2
    have h3 : ("150" : String).length = 3 := by decide
    have h4 : ("" : String).length = 0 := by decide
    omega
  have step1 : categoryStep sourceText
      [{ id := 3, name := "constructor", color := none, amount := 0 }] []
      { id := 1, amount := 150, type := TxType.EXPENSE, categoryId := some 3, note := "",
        date := 1710000000000, userId := 1 } =
      [("constructor", JsValue.text (sourceText "constructor" ++ "150"))] := rfl
  have step2 : categoryStep sourceText
      [{ id := 3, name := "constructor", color := none, amount := 0 }]
      [("constructor", JsValue.text (sourceText "constructor" ++ "150"))]
      { id := 2, amount := 20, type := TxType.EXPENSE, categoryId := some 3, note := "",
        date := 1710100000000, userId := 1 } =
      [("constructor", JsValue.text (sourceText "constructor" ++ "150" ++ "20"))] := by
    have hl : categoryLabel [{ id := 3, name := "constructor", color := none, amount := 0 }]
        { id := 2, amount := 20, type := TxType.EXPENSE, categoryId := some 3, note := "",
          date := 1710100000000, userId := 1 } = "constructor" := rfl
    unfold categoryStep
    simp only [hl]
    have hg : plainGet [("constructor", JsValue.text (sourceText "constructor" ++ "150"))]
        "constructor" = JsRead.value (JsValue.text (sourceText "constructor" ++ "150")) := rfl
    rw [hg]
    unfold addAmount
    simp only [if_neg hne]
    rfl
  have hidx : arrayIndex "constructor" = none := by decide
  constructor
  · unfold categoryData
    simp only [List.foldl_cons, List.foldl_nil, step1, step2]
    simp [ownEntries, hidx]
  · rfl


/-! ## How often `getOrSet` runs its fetcher -/

theorem counted_eq {W V : Type} (fetcher : Fetcher W V) (w : W) (n : Nat) :
    counted fetcher (w, n) = ((fetcher w).1, ((fetcher w).2, n + 1)) := rfl

/-- Counting the runs changes nothing: with the counted fetcher `getOrSet` returns
the same result and leaves the same store and the same outside world. -/
theorem getOrSet_counted {R W V : Type} (codec : JsonCodec V) (redisAvailable : Bool)
    (redis : Option (RedisClient R)) (key : String) (ttlSeconds : Int)
    (fetcher : Fetcher W V) (r : R) (w : W) (n : Nat) :
    (getOrSet codec redisAvailable redis key ttlSeconds (counted fetcher) r (w, n)).result =
      (getOrSet codec redisAvailable redis key ttlSeconds fetcher r w).result ∧
    (getOrSet codec redisAvailable redis key ttlSeconds (counted fetcher) r (w, n)).store =
      (getOrSet codec redisAvailable redis key ttlSeconds fetcher r w).store ∧
    (getOrSet codec redisAvailable redis key ttlSeconds (counted fetcher) r (w, n)).world.1 =
      (getOrSet codec redisAvailable redis key ttlSeconds fetcher r w).world := by
  unfold getOrSet
  cases redisAvailable
  · cases redis <;> exact ⟨rfl, rfl, rfl⟩
  cases redis with
  | none => exact ⟨rfl, rfl, rfl⟩
  | some client =>
    simp only []
    rcases client.get key r with ⟨res, r1⟩
    cases res with
    | error e => exact ⟨rfl, rfl, rfl⟩
    | ok o =>
      cases o with
      | none =>
        simp only []
        rw [counted_eq]
        rcases fetcher w with ⟨fres, w1⟩
        simp only []
        cases fres with
        | error e => exact ⟨rfl, rfl, rfl⟩
        | ok data =>
          simp only []
          cases codec.stringify data with
          | error e => exact ⟨rfl, rfl, rfl⟩
          | ok text =>
            simp only []
            rcases client.setex key ttlSeconds text r1 with ⟨sres, r2⟩
            cases sres <;> exact ⟨rfl, rfl, rfl⟩
      | some cached =>
        simp only []
        by_cases he : cached = ""
        · rw [if_pos he, if_pos he, counted_eq]
          rcases fetcher w with ⟨fres, w1⟩
          simp only []
          cases fres with
          | error e => exact ⟨rfl, rfl, rfl⟩
          | ok data =>
            simp only []
            cases codec.stringify data with
            | error e => exact ⟨rfl, rfl, rfl⟩
            | ok text =>
              simp only []
              rcases client.setex key ttlSeconds text r1 with ⟨sres, r2⟩
              cases sres <;> exact ⟨rfl, rfl, rfl⟩
        · rw [if_neg he, if_neg he]
          cases codec.parse cached with
          | error e => exact ⟨rfl, rfl, rfl⟩
          | ok v => exact ⟨rfl, rfl, rfl⟩


/-- One call of `getOrSet` runs its fetcher at most twice. -/
theorem invocations_le_two {R W V : Type} (codec : JsonCodec V) (redisAvailable : Bool)
    (redis : Option (RedisClient R)) (key : String) (ttlSeconds : Int)
    (fetcher : Fetcher W V) (r : R) (w : W) :
    invocations codec redisAvailable redis key ttlSeconds fetcher r w ≤ 2 := by
  unfold invocations getOrSet
  cases redisAvailable
  · cases redis <;> exact Nat.le_succ 1
  cases redis with
  | none => exact Nat.le_succ 1
  | some client =>
    simp only []
    rcases client.get key r with ⟨res, r1⟩
    cases res with
    | error e => exact Nat.le_succ 1
    | ok o =>
      cases o with
      | none =>
        simp only []
        rw [counted_eq]
        rcases fetcher w with ⟨fres, w1⟩
        simp only []
        cases fres with
        | error e => exact Nat.le_refl 2
        | ok data =>
          simp only []
          cases codec.stringify data with
          | error e => exact Nat.le_refl 2
          | ok text =>
            simp only []
            rcases client.setex key ttlSeconds text r1 with ⟨sres, r2⟩
            cases sres
            · exact Nat.le_refl 2
            · exact Nat.le_succ 1
      | some cached =>
        simp only []
        by_cases he : cached = ""
        · rw [if_pos he, counted_eq]
          rcases fetcher w with ⟨fres, w1⟩
          simp only []
          cases fres with
          | error e => exact Nat.le_refl 2
          | ok data =>
            simp only []
            cases codec.stringify data with
            | error e => exact Nat.le_refl 2
            | ok text =>
              simp only []
              rcases client.setex key ttlSeconds text r1 with ⟨sres, r2⟩
              cases sres
              · exact Nat.le_refl 2
              · exact Nat.le_succ 1
        · rw [if_neg he]
          cases codec.parse cached with
          | error e => exact Nat.le_succ 1
          | ok v => exact Nat.zero_le 2

/-- When `getOrSet` runs its fetcher twice: exactly when the store is in use and
answers the `get` with no entry (or an empty one), and then the first run of the
fetcher raises, or its value cannot be written as JSON, or the `setex` raises. -/
theorem invocations_eq_two_iff {R W V : Type} (codec : JsonCodec V) (redisAvailable : Bool)
    (redis : Option (RedisClient R)) (key : String) (ttlSeconds : Int)
    (fetcher : Fetcher W V) (r : R) (w : W) :
    invocations codec redisAvailable redis key ttlSeconds fetcher r w = 2 ↔
      redisAvailable = true ∧ ∃ client, redis = some client ∧
        ((client.get key r).1 = Except.ok none ∨ (client.get key r).1 = Except.ok (some "")) ∧
        ((∃ e, (fetcher w).1 = Except.error e) ∨
          ∃ data, (fetcher w).1 = Except.ok data ∧
            ((∃ e, codec.stringify data = Except.error e) ∨
              ∃ text, codec.stringify data = Except.ok text ∧
                ∃ e, (client.setex key ttlSeconds text (client.get key r).2).1 =
                  Except.error e)) := by
  unfold invocations getOrSet
  cases redisAvailable
  · cases redis <;> simp [runFetcher, counted_eq]
  cases redis with
  | none => simp [runFetcher, counted_eq]
  | some client =>
    simp only []
    rcases hg : client.get key r with ⟨res, r1⟩
    cases res with
    | error e => simp [runFetcher, counted_eq, hg]
    | ok o =>
      cases o with
      | none =>
        simp only []
        rw [counted_eq]
        rcases hf : fetcher w with ⟨fres, w1⟩
        simp only []
        cases fres with
        | error e => simp [runFetcher, counted_eq, hg, hf]
        | ok data =>
          simp only []
          cases hs : codec.stringify data with
          | error e => simp [runFetcher, counted_eq, hg, hf, hs]
          | ok text =>
            simp only []
            rcases hx : client.setex key ttlSeconds text r1 with ⟨sres, r2⟩
            cases sres <;> simp [runFetcher, counted_eq, hg, hf, hs, hx]
      | some cached =>
        simp only []
        by_cases he : cached = ""
        · rw [if_pos he, counted_eq]
          rcases hf : fetcher w with ⟨fres, w1⟩
          simp only []
          cases fres with
          | error e => simp [runFetcher, counted_eq, he, hg, hf]
          | ok data =>
            simp only []
            cases hs : codec.stringify data with
            | error e => simp [runFetcher, counted_eq, he, hg, hf, hs]
            | ok text =>
              simp only []
              rcases hx : client.setex key ttlSeconds text r1 with ⟨sres, r2⟩
              cases sres <;> simp [runFetcher, counted_eq, he, hg, hf, hs, hx]
        · rw [if_neg he]
          cases codec.parse cached with
          | error e => simp [runFetcher, counted_eq, he, hg]
          | ok v => simp [he, hg]

/-- C21 (as the code behaves): one call of `getOrSet` can run its fetcher twice.
With a working store that holds nothing under the key, a fetcher that raises is run
twice before its failure reaches the caller.  With a store that answers reads and
refuses writes, a fetcher that succeeds is run twice as well, and the value of the
second run is returned.  With the store flagged unavailable the raising fetcher is
run once. -/
theorem getOrSet_runs_fetcher_twice :
    invocations natCodec true (some workingClient) "analytics:user:1:monthly" 900
        raisingFetcher { clock := 0, entries := [] } 0 = 2 ∧
    (getOrSet natCodec true (some workingClient) "analytics:user:1:monthly" 900
        raisingFetcher { clock := 0, entries := [] } 0).world = 2 ∧
    (getOrSet natCodec true (some workingClient) "analytics:user:1:monthly" 900
        raisingFetcher { clock := 0, entries := [] } 0).result =
      Except.error "Can't reach database server" ∧
    invocations natCodec true (some readOnlyClient) "analytics:user:1:monthly" 900
        (countingFetcher 7) { clock := 0, entries := [] } 0 = 2 ∧
    (getOrSet natCodec true (some readOnlyClient) "analytics:user:1:monthly" 900
        (countingFetcher 7) { clock := 0, entries := [] } 0).world = 2 ∧
    (getOrSet natCodec true (some readOnlyClient) "analytics:user:1:monthly" 900
        (countingFetcher 7) { clock := 0, entries := [] } 0).result = Except.ok 7 ∧
    invocations natCodec false (some workingClient) "analytics:user:1:monthly" 900
        raisingFetcher { clock := 0, entries := [] } 0 = 1 := by
  refine ⟨by decide, by decide, rfl, by decide, by decide, rfl, by decide⟩


/-! ## No written entry survives a write -/

theorem RedisStore.lookup_none_of_no_key (s : RedisStore) (k : String)
    (h : ∀ e ∈ s.entries, e.1 ≠ k) : s.lookup k = none := by
  unfold RedisStore.lookup
  rw [Option.map_eq_none', List.find?_eq_none]
  intro e he
  simp [h e he]

theorem entries_setex (key value : String) (ttl : Int) (s : RedisStore) :
    ∀ e ∈ (RedisStore.setex key ttl value s).2.entries, e ∈ s.entries ∨ e.1 = key := by
  intro e he
  unfold RedisStore.setex at he
  split_ifs at he
  · exact Or.inl he
  · simp only [List.mem_cons, List.mem_filter] at he
    rcases he with he | he
    · right; rw [he]
    · exact Or.inl he.1

/-- With a working store `getOrSet` adds at most an entry under its own key. -/
theorem entries_getOrSet {W V : Type} (codec : JsonCodec V) (redisAvailable : Bool)
    (key : String) (ttlSeconds : Int) (fetcher : Fetcher W V) (s : RedisStore) (w : W) :
    ∀ e ∈ (getOrSet codec redisAvailable (some workingClient) key ttlSeconds fetcher s w).store.entries,
      e ∈ s.entries ∨ e.1 = key := by
  unfold getOrSet
  cases redisAvailable
  · exact fun e he => Or.inl he
  simp only [workingClient]
  cases s.lookup key with
  | none =>
    simp only []
    rcases fetcher w with ⟨fres, w1⟩
    cases fres with
    | error e => exact fun e he => Or.inl he
    | ok data =>
      simp only []
      cases codec.stringify data with
      | error e => exact fun e he => Or.inl he
      | ok text =>
        simp only []
        have hx := entries_setex key text ttlSeconds s
        rcases hsx : RedisStore.setex key ttlSeconds text s with ⟨sres, s2⟩
        rw [hsx] at hx
        cases sres
        · exact hx
        · exact hx
  | some cached =>
    simp only []
    by_cases he : cached = ""
    · rw [if_pos he]
      rcases fetcher w with ⟨fres, w1⟩
      cases fres with
      | error e => exact fun e he => Or.inl he
      | ok data =>
        simp only []
        cases codec.stringify data with
        | error e => exact fun e he => Or.inl he
        | ok text =>
          simp only []
          have hx := entries_setex key text ttlSeconds s
          rcases hsx : RedisStore.setex key ttlSeconds text s with ⟨sres, s2⟩
          rw [hsx] at hx
          cases sres
          · exact hx
          · exact hx
    · rw [if_neg he]
      cases codec.parse cached with
      | error e => exact fun e he => Or.inl he
      | ok v => exact fun e he => Or.inl he

/-- With a working store `delKeys` adds no entry. -/
theorem entries_delKeys (redisAvailable : Bool) (pattern : String) (s : RedisStore) :
    ∀ e ∈ (delKeys redisAvailable (some workingClient) pattern s).entries, e ∈ s.entries := by
  unfold delKeys
  cases redisAvailable
  · exact fun e he => he
  simp only [workingClient]
  split_ifs
  · intro e he
    unfold RedisStore.del at he
    simp only [List.mem_filter] at he
    exact he.1
  · exact fun e he => he

theorem entries_invalidateUser (redisAvailable : Bool) (u : Nat) (s : RedisStore) :
    ∀ e ∈ (invalidateUser redisAvailable (some workingClient) u s).entries, e ∈ s.entries := by
  intro e he
  unfold invalidateUser at he
  exact entries_delKeys _ _ _ e (entries_delKeys _ _ _ e he)

theorem entries_postTransaction (redisAvailable : Bool) (now : Int) (user : Option AuthUser)
    (body : TxInput) (db : List Transaction) (s : RedisStore) :
    ∀ e ∈ (postTransaction redisAvailable (some workingClient) now user body db s).store.entries,
      e ∈ s.entries := by
  unfold postTransaction
  cases user with
  | none => exact fun e he => he
  | some u =>
    simp only []
    cases permit [Role.ADMIN, Role.USER] (some u) with
    | some status => exact fun e he => he
    | none =>
      simp only []
      cases body.amount with
      | none => exact fun e he => he
      | some amount =>
        cases body.type with
        | none => exact fun e he => he
        | some type => exact entries_invalidateUser _ _ _

theorem entries_putTransaction (redisAvailable : Bool) (user : Option AuthUser) (id : Nat)
    (patch : TxPatch) (db : List Transaction) (s : RedisStore) :
    ∀ e ∈ (putTransaction redisAvailable (some workingClient) user id patch db s).store.entries,
      e ∈ s.entries := by
  unfold putTransaction
  cases user with
  | none => exact fun e he => he
  | some u =>
    simp only []
    cases permit [Role.ADMIN, Role.USER] (some u) with
    | some status => exact fun e he => he
    | none =>
      simp only []
      cases findUnique db id with
      | none => exact fun e he => he
      | some existing =>
        simp only []
        split_ifs
        · exact fun e he => he
        · exact entries_invalidateUser _ _ _

theorem entries_deleteTransaction (redisAvailable : Bool) (user : Option AuthUser) (id : Nat)
    (db : List Transaction) (s : RedisStore) :
    ∀ e ∈ (deleteTransaction redisAvailable (some workingClient) user id db s).store.entries,
      e ∈ s.entries := by
  unfold deleteTransaction
  cases user with
  | none => exact fun e he => he
  | some u =>
    simp only []
    cases permit [Role.ADMIN, Role.USER] (some u) with
    | some status => exact fun e he => he
    | none =>
      simp only []
      cases findUnique db id with
      | none => exact fun e he => he
      | some existing =>
        simp only []
        split_ifs
        · exact fun e he => he
        · exact entries_invalidateUser _ _ _

/-- Every entry of a store that the application brought about is under a key of
`GET /monthly` or of `GET /category`. -/
theorem appKey_of_appStore (s : RedisStore) (hs : AppStore s) :
    ∀ e ∈ s.entries, appKey e.1 := by
  induction hs with
  | empty clock => intro e he; simp at he
  | tick s dt _ _ ih => exact ih
  | monthly codec redisAvailable u fetcher s w _ ih =>
    intro e he
    rcases entries_getOrSet codec redisAvailable _ _ fetcher s w e he with h | h
    · exact ih e h
    · exact ⟨u, Or.inl h⟩
  | category codec redisAvailable u fetcher s w _ ih =>
    intro e he
    rcases entries_getOrSet codec redisAvailable _ _ fetcher s w e he with h | h
    · exact ih e h
    · exact ⟨u, Or.inr h⟩
  | post redisAvailable now user body db s _ ih =>
    exact fun e he => ih e (entries_postTransaction _ _ _ _ _ _ e he)
  | put redisAvailable user id patch db s _ ih =>
    exact fun e he => ih e (entries_putTransaction _ _ _ _ _ _ e he)
  | delete redisAvailable user id db s _ ih =>
    exact fun e he => ih e (entries_deleteTransaction _ _ _ _ _ e he)
  | dashboard parseInt tz now transactions categories userId period s _ ih => exact ih

theorem appKey_ne_dashboardKey (k : String) (hk : appKey k) (u : Nat) (period : String) :
    k ≠ dashboardKey u period := by
  obtain ⟨v, h | h⟩ := hk
  · rw [h]
    unfold monthlyKey dashboardKey
    simp only [String.append_assoc]
    exact head_ne 'a' 'd' _ _ _ _ rfl rfl (by decide)
  · rw [h]
    unfold categoryKey dashboardKey
    simp only [String.append_assoc]
    exact head_ne 'a' 'd' _ _ _ _ rfl rfl (by decide)

theorem appKey_ne_listingKey (k : String) (hk : appKey k) (u : Nat) (q : ListQuery) :
    k ≠ listingKey u q := by
  obtain ⟨v, h | h⟩ := hk
  · rw [h]
    unfold monthlyKey listingKey
    simp only [String.append_assoc]
    exact head_ne 'a' 't' _ _ _ _ rfl rfl (by decide)
  · rw [h]
    unfold categoryKey listingKey
    simp only [String.append_assoc]
    exact head_ne 'a' 't' _ _ _ _ rfl rfl (by decide)

/-- After the two invalidations of a write, a store that the application brought
about holds no entry of the user under any of the four kinds of key. -/
theorem writtenEntriesGone_invalidateUser (s : RedisStore) (hs : AppStore s) (u : Nat) :
    writtenEntriesGone (invalidateUser true (some workingClient) u s) u := by
  intro dt hdt
  have hgone := userEntriesGone_invalidateUser s u
  have hm : monthlyKey u = "analytics:user:" ++ toString u ++ ":" ++ "monthly" := by
    unfold monthlyKey
    rw [String.append_assoc ("analytics:user:" ++ toString u)]
    rfl
  have hc : categoryKey u = "analytics:user:" ++ toString u ++ ":" ++ "category" := by
    unfold categoryKey
    rw [String.append_assoc ("analytics:user:" ++ toString u)]
    rfl
  have hkeys : ∀ e ∈ ((invalidateUser true (some workingClient) u s).advance dt).entries,
      appKey e.1 :=
    fun e he => appKey_of_appStore s hs e (entries_invalidateUser true u s e he)
  refine ⟨?_, ?_, ?_, ?_⟩
  · rw [hm]; exact (hgone "monthly" dt hdt).1
  · rw [hc]; exact (hgone "category" dt hdt).1
  · intro period
    exact RedisStore.lookup_none_of_no_key _ _
      (fun e he => appKey_ne_dashboardKey e.1 (hkeys e he) u period)
  · intro q
    exact RedisStore.lookup_none_of_no_key _ _
      (fun e he => appKey_ne_listingKey e.1 (hkeys e he) u q)


theorem postTransaction_of_200 {R : Type} (redisAvailable : Bool)
    (redis : Option (RedisClient R)) (now : Int) (user : Option AuthUser) (body : TxInput)
    (db : List Transaction) (r : R)
    (h : (postTransaction redisAvailable redis now user body db r).response.status = 200) :
    ∃ u : AuthUser, user = some u ∧
      (postTransaction redisAvailable redis now user body db r).store =
        invalidateUser redisAvailable redis u.id r := by
  cases user with
  | none => simp [postTransaction] at h
  | some u =>
    rcases permit_cases u with ⟨hp, _⟩ | ⟨hp, _⟩
    · cases ha : body.amount with
      | none => simp [postTransaction, hp, ha] at h
      | some amount =>
        cases ht : body.type with
        | none => simp [postTransaction, hp, ha, ht] at h
        | some type =>
          simp only [postTransaction, hp, ha, ht]
          exact ⟨u, rfl, rfl⟩
    · simp [postTransaction, hp] at h

theorem putTransaction_of_200 {R : Type} (redisAvailable : Bool)
    (redis : Option (RedisClient R)) (user : Option AuthUser) (id : Nat) (patch : TxPatch)
    (db : List Transaction) (r : R)
    (h : (putTransaction redisAvailable redis user id patch db r).response.status = 200) :
    ∃ existing : Transaction, findUnique db id = some existing ∧
      (putTransaction redisAvailable redis user id patch db r).store =
        invalidateUser redisAvailable redis existing.userId r := by
  cases user with
  | none => simp [putTransaction] at h
  | some u =>
    rcases permit_cases u with ⟨hp, _⟩ | ⟨hp, _⟩
    · cases hf : findUnique db id with
      | none => simp [putTransaction, hp, hf] at h
      | some existing =>
        by_cases hg : u.role ≠ Role.ADMIN ∧ existing.userId ≠ u.id
        · simp [putTransaction, hp, hf, hg] at h
        · simp only [putTransaction, hp, hf, hg, if_false]
          exact ⟨existing, rfl, rfl⟩
    · simp [putTransaction, hp] at h

theorem deleteTransaction_of_200 {R : Type} (redisAvailable : Bool)
    (redis : Option (RedisClient R)) (user : Option AuthUser) (id : Nat)
    (db : List Transaction) (r : R)
    (h : (deleteTransaction redisAvailable redis user id db r).response.status = 200) :
    ∃ existing : Transaction, findUnique db id = some existing ∧
      (deleteTransaction redisAvailable redis user id db r).store =
        invalidateUser redisAvailable redis existing.userId r := by
  cases user with
  | none => simp [deleteTransaction] at h
  | some u =>
    rcases permit_cases u with ⟨hp, _⟩ | ⟨hp, _⟩
    · cases hf : findUnique db id with
      | none => simp [deleteTransaction, hp, hf] at h
      | some existing =>
        by_cases hg : u.role ≠ Role.ADMIN ∧ existing.userId ≠ u.id
        · simp [deleteTransaction, hp, hf, hg] at h
        · simp only [deleteTransaction, hp, hf, hg, if_false]
          exact ⟨existing, rfl, rfl⟩
    · simp [deleteTransaction, hp] at h

/-- C14: take any state `s` of a working cache store that the application brought
about (by `GET /monthly` and `GET /category`, the only callers of `getOrSet`, by the
write routes, by `getDashboardStats` as it is, and by the passing of time).  Every
entry of `s` is under a key of `GET /monthly` or `GET /category`.  A create, update
or delete of a transaction that succeeds on `s` leaves no entry of the owner `u`,
then or later, under `analytics:user:u:monthly`, under `analytics:user:u:category`,
under any `dashboard:u:<period>` or under any `transactions:u:<params>`; and such
writes do succeed: for a POST by an administrator or a user with a numeric amount
and a valid type, and for a PUT and a DELETE of an existing transaction by an
administrator or its owner. -/
theorem written_entries_do_not_survive (s : RedisStore) (hs : AppStore s) (now : Int)
    (db : List Transaction) :
    (∀ e ∈ s.entries, appKey e.1) ∧
    (∀ (user : Option AuthUser) (body : TxInput),
      (postTransaction true (some workingClient) now user body db s).response.status = 200 →
      ∃ u : AuthUser, user = some u ∧
        writtenEntriesGone (postTransaction true (some workingClient) now user body db s).store
          u.id) ∧
    (∀ (user : Option AuthUser) (id : Nat) (patch : TxPatch),
      (putTransaction true (some workingClient) user id patch db s).response.status = 200 →
      ∃ existing : Transaction, findUnique db id = some existing ∧
        writtenEntriesGone (putTransaction true (some workingClient) user id patch db s).store
          existing.userId) ∧
    (∀ (user : Option AuthUser) (id : Nat),
      (deleteTransaction true (some workingClient) user id db s).response.status = 200 →
      ∃ existing : Transaction, findUnique db id = some existing ∧
        writtenEntriesGone (deleteTransaction true (some workingClient) user id db s).store
          existing.userId) ∧
    (∀ (u : AuthUser) (body : TxInput) (amount : Int) (type : TxType),
      u.role ≠ Role.READ_ONLY → body.amount = some amount → body.type = some type →
      (postTransaction true (some workingClient) now (some u) body db s).response.status
          = 200 ∧
        writtenEntriesGone
          (postTransaction true (some workingClient) now (some u) body db s).store u.id) ∧
    (∀ (u : AuthUser) (id : Nat) (patch : TxPatch) (existing : Transaction),
      u.role ≠ Role.READ_ONLY → findUnique db id = some existing →
      (u.role = Role.ADMIN ∨ existing.userId = u.id) →
      (putTransaction true (some workingClient) (some u) id patch db s).response.status
          = 200 ∧
        writtenEntriesGone
          (putTransaction true (some workingClient) (some u) id patch db s).store
          existing.userId) ∧
    (∀ (u : AuthUser) (id : Nat) (existing : Transaction),
      u.role ≠ Role.READ_ONLY → findUnique db id = some existing →
      (u.role = Role.ADMIN ∨ existing.userId = u.id) →
      (deleteTransaction true (some workingClient) (some u) id db s).response.status
          = 200 ∧
        writtenEntriesGone
          (deleteTransaction true (some workingClient) (some u) id db s).store
          existing.userId) := by
  refine ⟨appKey_of_appStore s hs, ?_, ?_, ?_, ?_, ?_, ?_⟩
  · intro user body h
    obtain ⟨u, hu, hst⟩ := postTransaction_of_200 true (some workingClient) now user body db s h
    refine ⟨u, hu, ?_⟩
    rw [hst]
    exact writtenEntriesGone_invalidateUser s hs u.id
  · intro user id patch h
    obtain ⟨existing, hf, hst⟩ :=
      putTransaction_of_200 true (some workingClient) user id patch db s h
    refine ⟨existing, hf, ?_⟩
    rw [hst]
    exact writtenEntriesGone_invalidateUser s hs existing.userId
  · intro user id h
    obtain ⟨existing, hf, hst⟩ :=
      deleteTransaction_of_200 true (some workingClient) user id db s h
    refine ⟨existing, hf, ?_⟩
    rw [hst]
    exact writtenEntriesGone_invalidateUser s hs existing.userId
  · intro u body amount type hr ha ht
    obtain ⟨h1, h2, _⟩ := postTransaction_success true (some workingClient) now u body db s
      amount type hr ha ht
    refine ⟨h1, ?_⟩
    rw [h2]
    exact writtenEntriesGone_invalidateUser s hs u.id
  · intro u id patch existing hr hf ho
    obtain ⟨h1, h2, _⟩ := putTransaction_success true (some workingClient) u id patch db s
      existing hr hf ho
    refine ⟨h1, ?_⟩
    rw [h2]
    exact writtenEntriesGone_invalidateUser s hs existing.userId
  · intro u id existing hr hf ho
    obtain ⟨h1, h2, _⟩ := deleteTransaction_success true (some workingClient) u id db s
      existing hr hf ho
    refine ⟨h1, ?_⟩
    rw [h2]
    exact writtenEntriesGone_invalidateUser s hs existing.userId

/-- C14 on concrete data: `GET /monthly` of user 1 has stored its result, which is
held under `analytics:user:1:monthly`; then an administrator (id 9) updates
transaction 5 of user 1: the request is answered 200 and no entry of user 1 is
left. -/
theorem written_entries_do_not_survive_witness :
    (getOrSet natCodec true (some workingClient) (monthlyKey 1) (15 * 60) (countingFetcher 7)
        { clock := 0, entries := [] } 0).store.lookup "analytics:user:1:monthly" = some "7" ∧
    (putTransaction true (some workingClient) (some { id := 9, role := Role.ADMIN }) 5
        { amount := some 175, type := none, categoryId := none, note := none, date := none }
        [{ id := 5, amount := 150, type := TxType.EXPENSE, categoryId := some 1, note := "",
           date := 1710000000000, userId := 1 }]
        (getOrSet natCodec true (some workingClient) (monthlyKey 1) (15 * 60)
          (countingFetcher 7) { clock := 0, entries := [] } 0).store).response.status = 200 ∧
    writtenEntriesGone
      (putTransaction true (some workingClient) (some { id := 9, role := Role.ADMIN }) 5
        { amount := some 175, type := none, categoryId := none, note := none, date := none }
        [{ id := 5, amount := 150, type := TxType.EXPENSE, categoryId := some 1, note := "",
           date := 1710000000000, userId := 1 }]
        (getOrSet natCodec true (some workingClient) (monthlyKey 1) (15 * 60)
          (countingFetcher 7) { clock := 0, entries := [] } 0).store).store 1 :=
  ⟨by decide,
   (written_entries_do_not_survive
      (getOrSet natCodec true (some workingClient) (monthlyKey 1) (15 * 60)
        (countingFetcher 7) { clock := 0, entries := [] } 0).store
      (AppStore.monthly natCodec true 1 (countingFetcher 7) { clock := 0, entries := [] } 0
        (AppStore.empty 0)) 0
      [{ id := 5, amount := 150, type := TxType.EXPENSE, categoryId := some 1, note := "",
         date := 1710000000000, userId := 1 }]).2.2.2.2.2.1
      { id := 9, role := Role.ADMIN } 5
      { amount := some 175, type := none, categoryId := none, note := none, date := none }
      { id := 5, amount := 150, type := TxType.EXPENSE, categoryId := some 1, note := "",
        date := 1710000000000, userId := 1 }
      (by decide) (by decide) (Or.inl rfl)⟩

end FinanceTracker
